import Mathlib

/-!
Verification of the CollectiveMind synthetic dataset generator
(`synthetic_dataset_generator`), shallowly embedded from the Python
source.  Random sampling is modelled by oracle functions constrained by
specification predicates (`SampleSpec`, `ChooseSpec`, ...) that capture
the contracts of `random.sample` / `random.choice` / `random.randint`;
theorems quantify over all oracles satisfying those contracts, so they
hold for every seed.  Timestamps are modelled as natural numbers
(minutes); identifier strings are built exactly as the source formats
them (zero-padded decimal counters).
-/

/-! ### Decimal rendering of counters (Python `%d` / `%03d` / `%04d`) -/

/-- Least-significant-first decimal digits, fuel-structural so that it
reduces by `rfl`. -/
def digitsRevAux : Nat → Nat → List Nat
  | 0, _ => []
  | f + 1, n => if n < 10 then [n] else n % 10 :: digitsRevAux f (n / 10)

/-- Least-significant-first decimal digits of `n`. -/
def natDigitsRev (n : Nat) : List Nat := digitsRevAux (n + 1) n

/-- Value of a least-significant-first digit list. -/
def valRev : List Nat → Nat
  | [] => 0
  | d :: rest => d + 10 * valRev rest

theorem valRev_digitsRevAux : ∀ (f n : Nat), n < f → valRev (digitsRevAux f n) = n := by
  intro f
  induction f with
  | zero => intro n h; cases h
  | succ f ih =>
    intro n h
    by_cases h10 : n < 10
    · simp [digitsRevAux, h10, valRev]
    · have hdiv : n / 10 < f := by
        have h1 : n / 10 < n := Nat.div_lt_self (by omega) (by omega)
        omega
      simp only [digitsRevAux, h10, if_false, valRev, ih _ hdiv]
      omega

theorem natDigitsRev_injective : Function.Injective natDigitsRev := by
  intro m n h
  unfold natDigitsRev at h
  rw [← valRev_digitsRevAux (m + 1) m (Nat.lt_succ_self m), h,
    valRev_digitsRevAux (n + 1) n (Nat.lt_succ_self n)]

theorem digitsRevAux_lt_ten : ∀ (f n d : Nat), d ∈ digitsRevAux f n → d < 10 := by
  intro f
  induction f with
  | zero => intro n d h; simp [digitsRevAux] at h
  | succ f ih =>
    intro n d h
    by_cases h10 : n < 10
    · simp [digitsRevAux, h10] at h; omega
    · simp only [digitsRevAux, h10, if_false, List.mem_cons] at h
      rcases h with h | h
      · omega
      · exact ih _ _ h

/-- Decimal digit character, as Python renders digits. -/
def digitChar10 (d : Nat) : Char := Char.ofNat (48 + d)

theorem digitChar10_toNat : ∀ d < 10, (digitChar10 d).toNat = 48 + d := by decide

/-- Most-significant-first character rendering of a counter value
(Python `str(n)` for `n ≥ 0`). -/
def natChars (n : Nat) : List Char := ((natDigitsRev n).map digitChar10).reverse

/-- Python `"%0{w}d" % n`: pad with leading zeros to width `w`. -/
def padChars (w n : Nat) : List Char :=
  List.replicate (w - (natChars n).length) '0' ++ natChars n

/-- Parse a digit character back to its value. -/
def charDigit (c : Char) : Nat := c.toNat - 48

theorem charDigit_digitChar10 : ∀ d < 10, charDigit (digitChar10 d) = d := by decide

/-- Parse a most-significant-first character list back to a number. -/
def parseChars (l : List Char) : Nat := valRev ((l.map charDigit).reverse)

theorem valRev_append_zero : ∀ (l : List Nat), valRev (l ++ [0]) = valRev l := by
  intro l
  induction l with
  | nil => simp [valRev]
  | cons d rest ih => simp [valRev, ih]

theorem valRev_append_zeros : ∀ (k : Nat) (l : List Nat),
    valRev (l ++ List.replicate k 0) = valRev l := by
  intro k
  induction k with
  | zero => simp
  | succ k ih =>
    intro l
    have : l ++ List.replicate (k + 1) 0 = (l ++ [0]) ++ List.replicate k 0 := by
      simp [List.replicate_succ]
    rw [this, ih, valRev_append_zero]

theorem parseChars_padChars (w n : Nat) : parseChars (padChars w n) = n := by
  unfold parseChars padChars
  rw [List.map_append, List.reverse_append]
  have hzero : ((List.replicate (w - (natChars n).length) '0').map charDigit).reverse
      = List.replicate (w - (natChars n).length) 0 := by
    simp [List.map_replicate, charDigit]
  rw [hzero]
  have hmap : ((natChars n).map charDigit).reverse = natDigitsRev n := by
    unfold natChars
    rw [List.map_reverse, List.reverse_reverse, List.map_map]
    have heach : ∀ d ∈ natDigitsRev n, (charDigit ∘ digitChar10) d = d := by
      intro d hd
      exact charDigit_digitChar10 d (digitsRevAux_lt_ten _ _ _ hd)
    rw [List.map_congr_left heach]
    exact List.map_id' _
  rw [hmap, valRev_append_zeros]
  exact valRev_digitsRevAux (n + 1) n (Nat.lt_succ_self n)

theorem padChars_injective (w : Nat) : Function.Injective (padChars w) := by
  intro m n h
  have := parseChars_padChars w m
  rw [h, parseChars_padChars w n] at this
  exact this.symm

/-- Every character of a padded counter is a decimal digit. -/
theorem padChars_digits (w n : Nat) :
    ∀ c ∈ padChars w n, 48 ≤ c.toNat ∧ c.toNat ≤ 57 := by
  intro c hc
  unfold padChars at hc
  rcases List.mem_append.mp hc with h | h
  · have : c = '0' := List.eq_of_mem_replicate h
    subst this; decide
  · unfold natChars at h
    rw [List.mem_reverse] at h
    rcases List.mem_map.mp h with ⟨d, hd, hdc⟩
    have hlt := digitsRevAux_lt_ten _ _ _ hd
    have := digitChar10_toNat d hlt
    subst hdc
    omega

/-- Render a width-`w` zero-padded counter as a string. -/
def padStr (w n : Nat) : String := ⟨padChars w n⟩

theorem padStr_injective (w : Nat) : Function.Injective (padStr w) := by
  intro m n h
  exact padChars_injective w (congrArg String.data h)

theorem string_append_data (s t : String) : (s ++ t).data = s.data ++ t.data := rfl

/-- Ids built as `pre ++ padded counter` are injective in the counter. -/
theorem counterId_injective (pre : String) (w : Nat) :
    Function.Injective (fun n => pre ++ padStr w n) := by
  intro m n h
  apply padStr_injective w
  have h2 : pre.data ++ (padStr w m).data = pre.data ++ (padStr w n).data := by
    have := congrArg String.data h
    rwa [string_append_data, string_append_data] at this
  exact congrArg String.mk (List.append_cancel_left h2)

/-! ### ASCII lowercase and substring search (Python `str.lower` / `in`) -/

/-- ASCII lowercase of one character (role titles are ASCII). -/
def charLower (c : Char) : Char :=
  if 'A' ≤ c ∧ c ≤ 'Z' then Char.ofNat (c.toNat + 32) else c

/-- Characters of `s.lower()`. -/
def lowerChars (s : String) : List Char := s.data.map charLower

/-- Python `pat in s` (substring containment). -/
def strContains (s pat : String) : Bool := decide (pat.data <:+: s.data)

/-- Python `pat in s.lower()`. -/
def strContainsLower (s pat : String) : Bool := decide (pat.data <:+: lowerChars s)

/-! ### Data model (`models/core.py`, `models/knowledge_graph.py`,
`models/permissions.py`), with datetimes as naturals (minutes). -/

structure Person where
  person_id : String
  full_name : String
  email : String
  role_title : String
  team : String
  manager_id : Option String := none
  skills : List String := []
  tenure_months : Nat := 0
  active : Bool := true
  previous_teams : List String := []
  timezone : String := "America/Los_Angeles"
deriving DecidableEq

structure Document where
  doc_id : String
  title : String
  content : String
  team : String
  author_person_id : String
  co_authors : List String := []
  tags : List String := []
  created_at : Nat := 0
  updated_at : Nat := 0
  status : String := "draft"
  visibility : String := "internal"
  source_type : String := "native_internal"
  language : String := "en"
  confidentiality : String := "medium"
  related_doc_ids : List String := []
deriving DecidableEq

structure ChatThread where
  thread_id : String
  channel : String
  topic_tags : List String := []
  created_at : Nat := 0
  participants : List String := []
deriving DecidableEq

structure ChatMessage where
  message_id : String
  thread_id : String
  sender_person_id : String
  timestamp : Nat := 0
  text : String := ""
  emotions : String := "calm"
  mentions : List String := []
  doc_refs : List String := []
  action_items : List String := []
deriving DecidableEq

structure Topic where
  topic_id : String
  name : String
  aliases : List String := []
  emerging_score : Nat := 0
  related_topic_ids : List String := []
deriving DecidableEq

structure KnowledgeGraphEdge where
  edge_id : String
  edge_type : String
  src_type : String
  src_id : String
  dst_type : String
  dst_id : String
  weight : Nat := 0
  first_seen_at : Nat := 0
  last_seen_at : Nat := 0
  evidence : String := ""
deriving DecidableEq

structure ACL where
  resource_type : String
  resource_id : String
  allow_person_ids : List String := []
  allow_teams : List String := []
  deny_person_ids : List String := []
  acl_warning : Bool := false
deriving DecidableEq

/-! ### Oracle contracts for the random engine (`random.sample`,
`random.choice`, `random.randint`).  A theorem quantified over all
oracles satisfying these contracts holds for every seed. -/

/-- Contract of `random.sample(l, k)` for `k ≤ len(l)`: `k` results, all
drawn from `l`, pairwise distinct when `l` has no duplicates. -/
def SampleSpec {α : Type} (f : List α → Nat → List α) : Prop :=
  ∀ l k, k ≤ l.length →
    (f l k).length = k ∧ (∀ x ∈ f l k, x ∈ l) ∧ (l.Nodup → (f l k).Nodup)

/-- Contract of `random.choice(l)` for nonempty `l`. -/
def ChooseSpec {α : Type} (f : List α → α) : Prop :=
  ∀ l, l ≠ [] → f l ∈ l

/-- Deterministic witness oracle for `SampleSpec`: take the first `k`. -/
def sampleTake {α : Type} (l : List α) (k : Nat) : List α := l.take k

theorem sampleTake_spec {α : Type} : SampleSpec (sampleTake (α := α)) := by
  intro l k hk
  refine ⟨?_, ?_, ?_⟩
  · simp [sampleTake]; omega
  · intro x hx; exact List.mem_of_mem_take hx
  · intro h; exact h.sublist (List.take_sublist k l)

/-- Deterministic witness oracle for `ChooseSpec`: take the head. -/
def chooseHead {α : Type} [Inhabited α] (l : List α) : α := l.headD default

theorem chooseHead_spec {α : Type} [Inhabited α] : ChooseSpec (chooseHead (α := α)) := by
  intro l hl
  cases l with
  | nil => exact absurd rfl hl
  | cons a t => simp [chooseHead]

instance : Inhabited Person :=
  ⟨{ person_id := "", full_name := "", email := "", role_title := "", team := "" }⟩

instance : Inhabited Document :=
  ⟨{ doc_id := "", title := "", content := "", team := "", author_person_id := "" }⟩

/-! ### Organization builder (`generators/organization.py`) -/

/-- Person ids are `f"P_{n:03d}"`. -/
def personIdOf (n : Nat) : String := "P_" ++ padStr 3 n

/-- A demo persona entry from `GenerationConfig.demo_personas`. -/
structure DemoPersona where
  name : String
  role : String
  team : String
deriving DecidableEq, Inhabited

/-- `GenerationConfig.demo_personas` default value (`config/settings.py`). -/
def defaultDemoPersonas : List DemoPersona :=
  [⟨"Maya Chen", "Product Manager", "Product"⟩,
   ⟨"Rahul Sharma", "Marketing Analyst", "Marketing"⟩,
   ⟨"Priya Patel", "New Hire", "Product"⟩]

/-- Per-person random draws consumed by `_create_demo_personas` /
`_generate_single_person` (name and role pools, skill sample, tenure
bucket, timezone choice). -/
structure PersonDraw where
  name : String
  role : String
  skills : List String
  tenure : Nat
  tz : String

/-- Python `full_name.lower().replace(" ", ".") + "@technova.com"`. -/
def emailOf (name : String) : String :=
  String.mk ((lowerChars name).map (fun c => if c = ' ' then '.' else c)) ++ "@technova.com"

/-- `_create_demo_personas` body for persona index `i`. -/
def mkDemoPerson (i : Nat) (dp : DemoPersona) (d : PersonDraw) : Person :=
  { person_id := personIdOf (i + 1)
    full_name := dp.name
    email := emailOf dp.name
    role_title := dp.role
    team := dp.team
    skills := d.skills
    tenure_months := d.tenure
    timezone := d.tz }

/-- `_generate_single_person` for global index `i`: round-robin team
`teams[index % len(teams)]`, id `P_{index+1:03d}`. -/
def mkGenPerson (teams : List String) (i : Nat) (d : PersonDraw) : Person :=
  { person_id := personIdOf (i + 1)
    full_name := d.name
    email := emailOf d.name
    role_title := d.role
    team := teams.getD (i % teams.length) ""
    skills := d.skills
    tenure_months := d.tenure
    timezone := d.tz }

/-- `_generate_people`: demo personas first, then
`employee_count - len(demo)` generated people starting at index
`len(demo)` (an empty range when the count is smaller). -/
def generatePeople (teams : List String) (demos : List DemoPersona)
    (draw : Nat → PersonDraw) (employeeCount : Nat) : List Person :=
  (List.range demos.length).map
      (fun i => mkDemoPerson i (demos.getD i default) (draw i)) ++
    (List.range (employeeCount - demos.length)).map
      (fun j => mkGenPerson teams (j + demos.length) (draw (j + demos.length)))

/-- `_assign_managers` senior-role test:
`any(k in role.lower() for k in ['manager','director','lead','principal'])`. -/
def isSeniorRole (p : Person) : Bool :=
  strContainsLower p.role_title "manager" || strContainsLower p.role_title "director" ||
    strContainsLower p.role_title "lead" || strContainsLower p.role_title "principal"

/-- `register_entity` manager keyword test:
`'manager' in role.lower() or 'director' in role.lower()`. -/
def isMgrKeyword (p : Person) : Bool :=
  strContainsLower p.role_title "manager" || strContainsLower p.role_title "director"

/-- Promotion applied to additional managers:
`if "Senior" not in role: role = "Senior " + role`. -/
def promoteRole (p : Person) : Person :=
  if strContains p.role_title "Senior" then p
  else { p with role_title := "Senior " ++ p.role_title }

/-- Potential managers: senior-keyword role title or tenure of at least
24 months. -/
def potentialOf (people : List Person) : List Person :=
  people.filter (fun p => isSeniorRole p || decide (24 ≤ p.tenure_months))

/-- The promotion phase of `_assign_managers`: when fewer than
`manager_count` potential managers exist, promote a random sample of the
others (updating their role titles in place, so the people list changes
too).  `additionalOf` is the sampled `additional_managers` list. -/
def additionalOf (mc : Nat) (promoteSample : List Person → Nat → List Person)
    (people : List Person) : List Person :=
  promoteSample (people.filter (fun p => decide (¬ p ∈ potentialOf people)))
    (mc - (potentialOf people).length)

/-- The promotion phase, continued: potential pool extended by the
promoted sample, people list updated in place. -/
def promoStep (mc : Nat) (promoteSample : List Person → Nat → List Person)
    (people : List Person) : List Person × List Person :=
  if (potentialOf people).length < mc then
    (potentialOf people ++ (additionalOf mc promoteSample people).map promoteRole,
      people.map (fun p =>
        if decide (p ∈ additionalOf mc promoteSample people) then promoteRole p else p))
  else (potentialOf people, people)

/-- The per-person assignment loop body of `_assign_managers`: sampled
managers keep a null manager id, everyone else gets a manager id,
preferring a same-team manager. -/
def assignOne (chooseP : List Person → Person) (managers : List Person)
    (p : Person) : Person :=
  if decide (p ∈ managers) then p
  else if (managers.filter (fun m => m.team == p.team)).isEmpty then
    { p with manager_id := some (chooseP managers).person_id }
  else
    { p with manager_id := some (chooseP (managers.filter (fun m => m.team == p.team))).person_id }

/-- `_assign_managers(people)`: identify potential managers, promote a
random sample if fewer than `manager_count`, sample exactly
`manager_count` managers, then assign every non-manager a manager.
Returns the sampled managers and the updated people list. -/
def assignManagers (mc : Nat)
    (promoteSample mgrSample : List Person → Nat → List Person)
    (chooseP : List Person → Person) (people : List Person) :
    List Person × List Person :=
  let step := promoStep mc promoteSample people
  let managers := mgrSample step.1 mc
  (managers, step.2.map (assignOne chooseP managers))

/-! ### Shared registry (`generators/context.py`, `ContextManager`).
Python dicts keep insertion order, so registries are association lists;
Python sets are modelled as duplicate-free lists with membership-guarded
insertion. -/

/-- Dict lookup `m.get(k)` / `k in m`. -/
def lookupA {α : Type} (m : List (String × α)) (k : String) : Option α :=
  (m.find? (fun kv => kv.1 == k)).map (fun kv => kv.2)

/-- Python `k in m` for a dict. -/
def containsKey {α : Type} (m : List (String × α)) (k : String) : Bool :=
  (lookupA m k).isSome

/-- Dict assignment `m[k] = v` (overwrites in place, appends if new). -/
def setA {α : Type} (m : List (String × α)) (k : String) (v : α) : List (String × α) :=
  if containsKey m k then m.map (fun kv => if kv.1 == k then (k, v) else kv)
  else m ++ [(k, v)]

/-- `set.add(v)`. -/
def listSetAdd (l : List String) (v : String) : List String :=
  if v ∈ l then l else l ++ [v]

/-- `set.update(vs)`. -/
def listSetUnion (l : List String) (vs : List String) : List String :=
  vs.foldl listSetAdd l

/-- `defaultdict(list)[k].append(v)` / `defaultdict(set)[k].add(v)`. -/
def multiAdd (m : List (String × List String)) (k v : String)
    (ins : List String → String → List String) : List (String × List String) :=
  match lookupA m k with
  | some _ => m.map (fun kv => if kv.1 == k then (kv.1, ins kv.2 v) else kv)
  | none => m ++ [(k, [v])]

/-- The `ContextManager` state touched by the embedded operations. -/
structure Registry where
  people : List (String × Person) := []
  documents : List (String × Document) := []
  topics : List (String × Topic) := []
  chat_threads : List (String × ChatThread) := []
  people_by_team : List (String × List String) := []
  managers : List String := []
  document_tags : List (String × List String) := []
  topic_documents : List (String × List String) := []
  cross_references : List (String × List String) := []
deriving DecidableEq

/-- The dynamically typed argument of `register_entity`. -/
inductive Entity where
  | person (p : Person)
  | document (d : Document)
  | topic (t : Topic)
  | thread (t : ChatThread)
deriving DecidableEq

/-- `ContextManager.register_entity(entity_type, entity_id, entity)`:
inserts into the type-specific map; a person is also indexed under their
team and, when the role title matches a manager/director keyword, in the
manager list; a document is indexed under each of its tags.  (Entity
values of the wrong dynamic type never occur in the pipeline.) -/
def registerEntity (r : Registry) (ty eid : String) (e : Entity) : Registry :=
  if ty = "person" then
    match e with
    | .person p =>
        { r with
          people := setA r.people eid p
          people_by_team := multiAdd r.people_by_team p.team eid (fun l v => l ++ [v])
          managers := if isMgrKeyword p then r.managers ++ [eid] else r.managers }
    | _ => r
  else if ty = "document" then
    match e with
    | .document d =>
        { r with
          documents := setA r.documents eid d
          document_tags := d.tags.foldl (fun m tag => multiAdd m tag eid listSetAdd) r.document_tags }
    | _ => r
  else if ty = "topic" then
    match e with
    | .topic t => { r with topics := setA r.topics eid t }
    | _ => r
  else if ty = "thread" then
    match e with
    | .thread t => { r with chat_threads := setA r.chat_threads eid t }
    | _ => r
  else r

/-- Register a list of people, as the organization builder does. -/
def registerPeople (r : Registry) (ps : List Person) : Registry :=
  ps.foldl (fun acc p => registerEntity acc "person" p.person_id (.person p)) r

/-- Register a list of documents, as the document builder does. -/
def registerDocuments (r : Registry) (ds : List Document) : Registry :=
  ds.foldl (fun acc d => registerEntity acc "document" d.doc_id (.document d)) r

/-- Register a list of threads, as the communication builder does. -/
def registerThreads (r : Registry) (ts : List ChatThread) : Registry :=
  ts.foldl (fun acc t => registerEntity acc "thread" t.thread_id (.thread t)) r

/-! ### Referential-integrity validator
(`ContextManager.ensure_referential_integrity`). -/

def personErrMsg (pid mid : String) : String :=
  "Person " ++ pid ++ " has invalid manager_id: " ++ mid

def authorErrMsg (did aid : String) : String :=
  "Document " ++ did ++ " has invalid author_person_id: " ++ aid

def coAuthorErrMsg (did cid : String) : String :=
  "Document " ++ did ++ " has invalid co_author: " ++ cid

def relatedWarnMsg (did rid : String) : String :=
  "Document " ++ did ++ " references non-existent document: " ++ rid

structure ValidationResult where
  errors : List String
  warnings : List String
deriving DecidableEq

/-- The per-person check of `ensure_referential_integrity`. -/
def personErrF (ppl : List (String × Person)) (p : Person) : Option String :=
  match p.manager_id with
  | some m => if containsKey ppl m then none else some (personErrMsg p.person_id m)
  | none => none

/-- The per-document check of `ensure_referential_integrity` (author,
then co-authors). -/
def docErrF (ppl : List (String × Person)) (d : Document) : List String :=
  (if containsKey ppl d.author_person_id then []
   else [authorErrMsg d.doc_id d.author_person_id]) ++
    d.co_authors.filterMap (fun c =>
      if containsKey ppl c then none else some (coAuthorErrMsg d.doc_id c))

/-- `ensure_referential_integrity()`: person manager references and
document author / co-author references are errors; dangling related
documents are warnings. -/
def ensureReferentialIntegrity (r : Registry) : ValidationResult :=
  ⟨(r.people.map (fun kv => kv.2)).filterMap (personErrF r.people) ++
      (r.documents.map (fun kv => kv.2)).flatMap (docErrF r.people),
    (r.documents.map (fun kv => kv.2)).flatMap (fun d =>
      d.related_doc_ids.filterMap (fun rd =>
        if containsKey r.documents rd then none else some (relatedWarnMsg d.doc_id rd)))⟩

/-- Corrupt one document's `author_person_id` in the registry. -/
def corruptAuthor (r : Registry) (did bad : String) : Registry :=
  { r with documents := r.documents.map (fun kv =>
      if kv.1 == did then (kv.1, { kv.2 with author_person_id := bad }) else kv) }

/-! ### Facts about `_assign_managers` -/

/-- The person ids of a list of people. -/
def pids (l : List Person) : List String := l.map Person.person_id

theorem promoteRole_id (p : Person) : (promoteRole p).person_id = p.person_id := by
  unfold promoteRole; split <;> rfl

theorem promoteRole_mgr (p : Person) : (promoteRole p).manager_id = p.manager_id := by
  unfold promoteRole; split <;> rfl

theorem mem_potentialOf (people : List Person) (p : Person) :
    p ∈ potentialOf people ↔
      p ∈ people ∧ (isSeniorRole p || decide (24 ≤ p.tenure_months)) = true := by
  unfold potentialOf
  exact List.mem_filter


theorem length_filter_not_add {α : Type} (f : α → Bool) (l : List α) :
    (l.filter (fun x => !(f x))).length + (l.filter f).length = l.length := by
  induction l with
  | nil => rfl
  | cons a t ih =>
    by_cases h : f a = true
    · simp [List.filter_cons, h]
      omega
    · simp [List.filter_cons, h]
      omega

/-- `non_managers` is the complement filter of `potential_managers`. -/
theorem nonMgrs_eq (people : List Person) :
    people.filter (fun p => decide (¬ p ∈ potentialOf people))
      = people.filter (fun p => !(isSeniorRole p || decide (24 ≤ p.tenure_months))) := by
  apply List.filter_congr
  intro p hp
  by_cases hmem : p ∈ potentialOf people
  · have := (mem_potentialOf people p).mp hmem
    simp [hmem, this.2]
  · have hpred : ¬ (isSeniorRole p || decide (24 ≤ p.tenure_months)) = true := by
      intro hc
      exact hmem ((mem_potentialOf people p).mpr ⟨hp, hc⟩)
    simp [hmem, hpred]

theorem nonMgrs_length (people : List Person) :
    (people.filter (fun p => decide (¬ p ∈ potentialOf people))).length
      = people.length - (potentialOf people).length := by
  have hkey := length_filter_not_add
    (fun p => isSeniorRole p || decide (24 ≤ p.tenure_months)) people
  have hpot : (potentialOf people).length
      = (people.filter (fun p => isSeniorRole p || decide (24 ≤ p.tenure_months))).length := rfl
  rw [nonMgrs_eq]
  omega

/-- The sample size requested from `non_managers` is within bounds when
`manager_count ≤ len(people)`. -/
theorem additionalOf_ok (mc : Nat)
    (people : List Person) (hmc : mc ≤ people.length) :
    mc - (potentialOf people).length
      ≤ (people.filter (fun p => decide (¬ p ∈ potentialOf people))).length := by
  rw [nonMgrs_length]
  have : (potentialOf people).length ≤ people.length := List.length_filter_le _ _
  omega

theorem promoStep_len (mc : Nat) (ps : List Person → Nat → List Person)
    (hps : SampleSpec ps) (people : List Person) (hmc : mc ≤ people.length) :
    mc ≤ (promoStep mc ps people).1.length := by
  unfold promoStep
  split
  · next hlt =>
    have := (hps _ _ (additionalOf_ok mc people hmc)).1
    simp only [List.length_append, List.length_map, additionalOf, this]
    omega
  · next hge => exact Nat.le_of_not_lt hge

theorem promoStep_subset (mc : Nat) (ps : List Person → Nat → List Person)
    (hps : SampleSpec ps) (people : List Person) (hmc : mc ≤ people.length) :
    ∀ x ∈ (promoStep mc ps people).1, x ∈ (promoStep mc ps people).2 := by
  unfold promoStep
  split
  · next hlt =>
    intro x hx
    have hmemSub := (hps _ _ (additionalOf_ok mc people hmc)).2.1
    simp only [List.mem_append] at hx
    rcases hx with hx | hx
    · -- an original potential manager maps to itself
      have hxp : x ∈ people := ((mem_potentialOf people x).mp hx).1
      have hnotAdd : ¬ x ∈ additionalOf mc ps people := by
        intro hc
        have := hmemSub x hc
        rw [List.mem_filter] at this
        have hne := this.2
        simp only [decide_eq_true_eq] at hne
        exact hne hx
      refine List.mem_map.mpr ⟨x, hxp, ?_⟩
      simp [hnotAdd]
    · rcases List.mem_map.mp hx with ⟨a, ha, rfl⟩
      have hap : a ∈ people := by
        have := hmemSub a ha
        rw [List.mem_filter] at this
        exact this.1
      refine List.mem_map.mpr ⟨a, hap, ?_⟩
      simp [ha]
  · next hge =>
    intro x hx
    exact ((mem_potentialOf people x).mp hx).1

theorem promoStep_pids (mc : Nat) (ps : List Person → Nat → List Person)
    (people : List Person) : pids (promoStep mc ps people).2 = pids people := by
  unfold promoStep pids
  split
  · rw [List.map_map]
    apply List.map_congr_left
    intro p _
    simp only [Function.comp_apply]
    split
    · exact promoteRole_id p
    · rfl
  · rfl

theorem promoStep_mgrNone (mc : Nat) (ps : List Person → Nat → List Person)
    (people : List Person) (h : ∀ p ∈ people, p.manager_id = none) :
    ∀ q ∈ (promoStep mc ps people).2, q.manager_id = none := by
  unfold promoStep
  split
  · intro q hq
    rcases List.mem_map.mp hq with ⟨a, ha, rfl⟩
    split
    · rw [promoteRole_mgr]; exact h a ha
    · exact h a ha
  · exact h

/-- Ids are preserved by promotion, so id-distinctness carries over to
the extended potential pool. -/
theorem promoStep_nodup (mc : Nat) (ps : List Person → Nat → List Person)
    (hps : SampleSpec ps) (people : List Person) (hmc : mc ≤ people.length)
    (hnd : (pids people).Nodup) :
    (promoStep mc ps people).1.Nodup ∧ (promoStep mc ps people).2.Nodup := by
  have hpeople : people.Nodup := List.Nodup.of_map _ hnd
  have hinj := List.inj_on_of_nodup_map (f := Person.person_id) (l := people) hnd
  constructor
  · unfold promoStep
    split
    · next hlt =>
      have hspec := hps _ _ (additionalOf_ok mc people hmc)
      have hndNon : (people.filter (fun p => decide (¬ p ∈ potentialOf people))).Nodup :=
        hpeople.filter _
      have hndAdd : (additionalOf mc ps people).Nodup := hspec.2.2 hndNon
      have hsubAdd : ∀ x ∈ additionalOf mc ps people,
          x ∈ people ∧ ¬ x ∈ potentialOf people := by
        intro x hx
        have := hspec.2.1 x hx
        rw [List.mem_filter] at this
        refine ⟨this.1, ?_⟩
        have := this.2
        simpa using this
      refine List.Nodup.append ((hpeople.filter _)) ?_ ?_
      · -- promoted copies of a duplicate-free sample are duplicate-free:
        -- promotion preserves the id and ids are distinct on `people`
        refine List.Nodup.map_on ?_ hndAdd
        intro a ha b hb hab
        have haid := promoteRole_id a
        have hbid := promoteRole_id b
        have : a.person_id = b.person_id := by rw [← haid, ← hbid, hab]
        exact hinj (hsubAdd a ha).1 (hsubAdd b hb).1 this
      · -- the original pool and the promoted sample are disjoint
        intro a ha hb
        rcases List.mem_map.mp hb with ⟨c, hc, hceq⟩
        have haid : a.person_id = c.person_id := by rw [← hceq, promoteRole_id]
        have hap : a ∈ people := ((mem_potentialOf people a).mp ha).1
        have hcp : c ∈ people := (hsubAdd c hc).1
        have hac : a = c := hinj hap hcp haid
        subst hac
        exact (hsubAdd a hc).2 ha
    · next hge => exact hpeople.filter _
  · have := promoStep_pids mc ps people
    have : (pids (promoStep mc ps people).2).Nodup := by rw [this]; exact hnd
    exact List.Nodup.of_map _ this

theorem assignOne_id (cp : List Person → Person) (managers : List Person)
    (p : Person) : (assignOne cp managers p).person_id = p.person_id := by
  unfold assignOne
  split
  · rfl
  · split <;> rfl

/-- The sampled managers keep a null manager id and appear unchanged in
the output; everyone else receives some manager id. -/
theorem assignOne_of_mem (cp : List Person → Person) (managers : List Person)
    (p : Person) (h : p ∈ managers) : assignOne cp managers p = p := by
  unfold assignOne
  simp [h]

/-- The manager picked for a non-manager `p`: same-team when available,
otherwise any sampled manager. -/
def assignedMgr (cp : List Person → Person) (managers : List Person) (p : Person) : Person :=
  if (managers.filter (fun m => m.team == p.team)).isEmpty then cp managers
  else cp (managers.filter (fun m => m.team == p.team))

theorem assignOne_of_not_mem (cp : List Person → Person) (managers : List Person)
    (p : Person) (h : ¬ p ∈ managers) :
    assignOne cp managers p = { p with manager_id := some (assignedMgr cp managers p).person_id } := by
  unfold assignOne assignedMgr
  rw [if_neg (by simp [h])]
  by_cases hemp : (managers.filter (fun m => m.team == p.team)).isEmpty
  · rw [if_pos hemp, if_pos hemp]
  · rw [if_neg hemp, if_neg hemp]

theorem assignedMgr_mem (cp : List Person → Person) (hcp : ChooseSpec cp)
    (managers : List Person) (hm : managers ≠ []) (p : Person) :
    assignedMgr cp managers p ∈ managers := by
  unfold assignedMgr
  split
  · exact hcp managers hm
  · next hne =>
    have : managers.filter (fun m => m.team == p.team) ≠ [] := by
      intro hc
      rw [hc] at hne
      exact hne rfl
    have := hcp _ this
    exact (List.mem_filter.mp this).1

theorem countP_mem_eq_length {α : Type} [DecidableEq α] (l sub : List α)
    (hsub : ∀ x ∈ sub, x ∈ l) (hnds : sub.Nodup) (hndl : l.Nodup) :
    l.countP (fun x => decide (x ∈ sub)) = sub.length := by
  rw [List.countP_eq_length_filter]
  have hperm : (l.filter (fun x => decide (x ∈ sub))).Perm sub := by
    rw [List.perm_ext_iff_of_nodup (hndl.filter _) hnds]
    intro a
    simp only [List.mem_filter, decide_eq_true_eq]
    exact ⟨fun h => h.2, fun h => ⟨hsub a h, h⟩⟩
  exact hperm.length_eq

/-- Exactly `manager_count` managers are sampled. -/
theorem assignManagers_len (mc : Nat)
    (ps ms : List Person → Nat → List Person) (cp : List Person → Person)
    (people : List Person) (hps : SampleSpec ps) (hms : SampleSpec ms)
    (hmc : mc ≤ people.length) :
    (assignManagers mc ps ms cp people).1.length = mc :=
  (hms _ _ (promoStep_len mc ps hps people hmc)).1

theorem assignManagers_final_pids (mc : Nat)
    (ps ms : List Person → Nat → List Person) (cp : List Person → Person)
    (people : List Person) :
    pids (assignManagers mc ps ms cp people).2 = pids people := by
  unfold assignManagers pids
  rw [List.map_map]
  have : ∀ p ∈ (promoStep mc ps people).2,
      (Person.person_id ∘ assignOne cp (ms (promoStep mc ps people).1 mc)) p
        = Person.person_id p := by
    intro p _
    exact assignOne_id _ _ p
  rw [List.map_congr_left this]
  exact promoStep_pids mc ps people

/-- Core resolution fact: every assigned `manager_id` names a person in
the final list, and never the person themselves. -/
theorem assignManagers_resolve (mc : Nat)
    (ps ms : List Person → Nat → List Person) (cp : List Person → Person)
    (people : List Person) (hps : SampleSpec ps) (hms : SampleSpec ms)
    (hcp : ChooseSpec cp) (hmc1 : 1 ≤ mc) (hmc : mc ≤ people.length)
    (hnd : (pids people).Nodup) (hnone : ∀ p ∈ people, p.manager_id = none) :
    ∀ q ∈ (assignManagers mc ps ms cp people).2, ∀ m, q.manager_id = some m →
      (∃ q2 ∈ (assignManagers mc ps ms cp people).2, q2.person_id = m) ∧
        m ≠ q.person_id := by
  have hstepLen := promoStep_len mc ps hps people hmc
  have hmgrSpec := hms _ _ hstepLen
  have hmgrSub1 := hmgrSpec.2.1
  have hstepSub := promoStep_subset mc ps hps people hmc
  have hmgrSubStep2 : ∀ x ∈ ms (promoStep mc ps people).1 mc,
      x ∈ (promoStep mc ps people).2 := fun x hx => hstepSub x (hmgrSub1 x hx)
  have hstep2pids := promoStep_pids mc ps people
  have hnd2 : (pids (promoStep mc ps people).2).Nodup := by rw [hstep2pids]; exact hnd
  have hinj2 := List.inj_on_of_nodup_map (f := Person.person_id) hnd2
  have hnone2 := promoStep_mgrNone mc ps people hnone
  have hmne : ms (promoStep mc ps people).1 mc ≠ [] := by
    intro hc
    have := hmgrSpec.1
    rw [hc] at this
    simp at this
    omega
  intro q hq m hm
  unfold assignManagers at hq
  rcases List.mem_map.mp hq with ⟨p, hp, hpq⟩
  by_cases hpm : p ∈ ms (promoStep mc ps people).1 mc
  · rw [← hpq, assignOne_of_mem _ _ _ hpm, hnone2 p hp] at hm
    cases hm
  · have hrw := assignOne_of_not_mem cp _ p hpm
    rw [← hpq, hrw] at hm
    simp only [Option.some.injEq] at hm
    have hwmem : assignedMgr cp (ms (promoStep mc ps people).1 mc) p
        ∈ ms (promoStep mc ps people).1 mc := assignedMgr_mem cp hcp _ hmne p
    have hwstep : assignedMgr cp (ms (promoStep mc ps people).1 mc) p
        ∈ (promoStep mc ps people).2 := hmgrSubStep2 _ hwmem
    constructor
    · refine ⟨assignOne cp (ms (promoStep mc ps people).1 mc)
        (assignedMgr cp (ms (promoStep mc ps people).1 mc) p), ?_, ?_⟩
      · exact List.mem_map_of_mem _ hwstep
      · rw [assignOne_of_mem _ _ _ hwmem]
        exact hm
    · intro hcontra
      have hqid : q.person_id = p.person_id := by rw [← hpq, assignOne_id]
      have hwid : (assignedMgr cp (ms (promoStep mc ps people).1 mc) p).person_id
          = p.person_id := by rw [hm, hcontra, hqid]
      have hweqp := hinj2 hwstep hp hwid
      rw [hweqp] at hwmem
      exact hpm hwmem

/-- Exactly the sampled managers end with a null `manager_id`. -/
theorem assignManagers_none_count (mc : Nat)
    (ps ms : List Person → Nat → List Person) (cp : List Person → Person)
    (people : List Person) (hps : SampleSpec ps) (hms : SampleSpec ms)
    (hmc : mc ≤ people.length)
    (hnd : (pids people).Nodup) (hnone : ∀ p ∈ people, p.manager_id = none) :
    (assignManagers mc ps ms cp people).2.countP
      (fun p => decide (p.manager_id = none)) = mc := by
  have hstepLen := promoStep_len mc ps hps people hmc
  have hmgrSpec := hms _ _ hstepLen
  have hstepSub := promoStep_subset mc ps hps people hmc
  have hmgrSubStep2 : ∀ x ∈ ms (promoStep mc ps people).1 mc,
      x ∈ (promoStep mc ps people).2 := fun x hx => hstepSub x (hmgrSpec.2.1 x hx)
  have hstepNodup := promoStep_nodup mc ps hps people hmc hnd
  have hmgrNodup : (ms (promoStep mc ps people).1 mc).Nodup :=
    hmgrSpec.2.2 hstepNodup.1
  have hnone2 := promoStep_mgrNone mc ps people hnone
  unfold assignManagers
  rw [List.countP_map]
  have hcong : ∀ x ∈ (promoStep mc ps people).2,
      ((fun p => decide (p.manager_id = none)) ∘
          assignOne cp (ms (promoStep mc ps people).1 mc)) x
        = decide (x ∈ ms (promoStep mc ps people).1 mc) := by
    intro x hx
    by_cases hxm : x ∈ ms (promoStep mc ps people).1 mc
    · simp only [Function.comp_apply, assignOne_of_mem _ _ _ hxm, hnone2 x hx,
        decide_eq_true_eq]
      simp [hxm]
    · simp only [Function.comp_apply, assignOne_of_not_mem _ _ _ hxm]
      simp [hxm]
  have hcount := List.countP_congr (l := (promoStep mc ps people).2)
    (fun x hx => by rw [hcong x hx] :
      ∀ x ∈ (promoStep mc ps people).2,
        ((fun p => decide (p.manager_id = none)) ∘
            assignOne cp (ms (promoStep mc ps people).1 mc)) x = true ↔
          decide (x ∈ ms (promoStep mc ps people).1 mc) = true)
  rw [hcount, countP_mem_eq_length _ _ hmgrSubStep2 hmgrNodup hstepNodup.2,
    hmgrSpec.1]

/-- In the registry, the manager list is derived from role-title
keywords by `register_entity`, not from the sampled manager set. -/
theorem registerPeople_managers (r : Registry) (l : List Person) :
    (registerPeople r l).managers
      = r.managers ++ (l.filter isMgrKeyword).map Person.person_id := by
  induction l generalizing r with
  | nil => simp [registerPeople]
  | cons p t ih =>
    have hstep : registerPeople r (p :: t)
        = registerPeople (registerEntity r "person" p.person_id (.person p)) t := rfl
    rw [hstep, ih]
    by_cases h : isMgrKeyword p = true
    · simp [registerEntity, h, List.filter_cons]
    · simp [registerEntity, h, List.filter_cons]

/-! ### Claim C2: org-wide manager count -/

/-- Concrete two-person organization in which both role titles match the
registry's manager keyword. -/
def c2People : List Person :=
  [{ person_id := "P_001", full_name := "Alice Green", email := "alice.green@technova.com",
     role_title := "Engineering Manager", team := "Engineering", tenure_months := 30 },
   { person_id := "P_002", full_name := "Bob Stone", email := "bob.stone@technova.com",
     role_title := "Marketing Manager", team := "Marketing", tenure_months := 30 }]

/-- C2 counterexample: with `manager_count = 1` and two people whose role
titles both contain "Manager", `_assign_managers` samples exactly one
manager but `register_entity` puts both people in the registry's manager
list, so the registry's manager set does not contain exactly
`manager_count` people. -/
theorem C2_registry_keyword_counterexample :
    (assignManagers 1 sampleTake sampleTake chooseHead c2People).1.length = 1 ∧
      (registerPeople {} (assignManagers 1 sampleTake sampleTake chooseHead c2People).2).managers
        = ["P_001", "P_002"] := by
  constructor
  · decide
  · decide

/-- C2 (amended): for every valid configuration (`manager_count ≤`
headcount, distinct person ids, no manager ids assigned yet) and all
sampling oracles, `_assign_managers` selects exactly `manager_count`
managers, and exactly `manager_count` people end up with a null
`manager_id`; the registry's manager list, by contrast, is derived from
role-title keywords by `register_entity` (appending every registered
person whose role title contains "manager" or "director"), so it need
not have `manager_count` entries. -/
theorem C2_exact_manager_selection (mc : Nat)
    (ps ms : List Person → Nat → List Person) (cp : List Person → Person)
    (people : List Person) (r : Registry)
    (hps : SampleSpec ps) (hms : SampleSpec ms)
    (hmc : mc ≤ people.length) (hnd : (pids people).Nodup)
    (hnone : ∀ p ∈ people, p.manager_id = none) :
    (assignManagers mc ps ms cp people).1.length = mc ∧
      (assignManagers mc ps ms cp people).2.countP
        (fun p => decide (p.manager_id = none)) = mc ∧
      (registerPeople r (assignManagers mc ps ms cp people).2).managers
        = r.managers ++
          (((assignManagers mc ps ms cp people).2.filter isMgrKeyword).map Person.person_id) :=
  ⟨assignManagers_len mc ps ms cp people hps hms hmc,
   assignManagers_none_count mc ps ms cp people hps hms hmc hnd hnone,
   registerPeople_managers r (assignManagers mc ps ms cp people).2⟩

/-- C2 witness: the amended theorem applied to the concrete two-person
organization. -/
theorem C2_exact_manager_selection_witness :
    ((1 ≤ c2People.length ∧ (pids c2People).Nodup ∧
        ∀ p ∈ c2People, p.manager_id = none) ∧
      (assignManagers 1 sampleTake sampleTake chooseHead c2People).1.length = 1 ∧
        (assignManagers 1 sampleTake sampleTake chooseHead c2People).2.countP
          (fun p => decide (p.manager_id = none)) = 1 ∧
        (registerPeople {} (assignManagers 1 sampleTake sampleTake chooseHead c2People).2).managers
          = Registry.managers {} ++
            (((assignManagers 1 sampleTake sampleTake chooseHead c2People).2.filter
              isMgrKeyword).map Person.person_id)) :=
  ⟨⟨by decide, by decide, by decide⟩,
    C2_exact_manager_selection 1 sampleTake sampleTake chooseHead c2People {}
      sampleTake_spec sampleTake_spec (by decide) (by decide) (by decide)⟩

/-! ### Document builder (`generators/documents.py`).  Title, content
and tag synthesis are pure functions of random draws and are never
inspected by any cross-entity property, so they are supplied directly by
the oracle; ids, team allocation, author/co-author selection, timestamps
and the categorical fields follow the source.  The `_add_document_relationships`
pass only fills `related_doc_ids` (feeding validator warnings, never
errors) and is not needed by the embedded claims. -/

/-- Per-document random draws of `_create_single_document`. -/
structure DocOracle where
  author : List Person → Nat → Person
  coFlag : Nat → Bool
  coCount : Nat → Nat
  coSample : Nat → List Person → Nat → List Person
  title : Nat → String
  content : Nat → String
  tags : Nat → List String
  created : Nat → Nat
  updatedDelta : Nat → Nat
  statusDraw : Nat → String
  visibilityDraw : Nat → String
  confidentialityDraw : Nat → String

/-- Contracts of the draws used inside `_create_single_document`:
`random_choice(team_people)` returns a member, `random.sample` of the
co-author pool returns members, `weighted_choice` returns one of its
candidates, and `updated_at - created_at` is at most 30 days. -/
def DocOracleSpec (o : DocOracle) : Prop :=
  (∀ l n, l ≠ [] → o.author l n ∈ l) ∧
  (∀ n pool k, ∀ x ∈ o.coSample n pool k, x ∈ pool) ∧
  (∀ n, o.statusDraw n ∈ (["draft", "final"] : List String)) ∧
  (∀ n, o.visibilityDraw n ∈ (["public", "internal", "restricted"] : List String)) ∧
  (∀ n, o.confidentialityDraw n ∈ (["low", "medium", "high"] : List String)) ∧
  (∀ n, o.updatedDelta n ≤ 30)

/-- `_create_single_document` with counter value `n` (ids are
`f"DOC_{n:03d}"`). -/
def mkDoc (o : DocOracle) (n : Nat) (team : String) (teamPeople : List Person) : Document :=
  { doc_id := "DOC_" ++ padStr 3 n
    title := o.title n
    content := o.content n
    team := team
    author_person_id := (o.author teamPeople n).person_id
    co_authors :=
      if o.coFlag n then
        if (teamPeople.filter
            (fun p => decide (p.person_id ≠ (o.author teamPeople n).person_id))).isEmpty then []
        else (o.coSample n
          (teamPeople.filter
            (fun p => decide (p.person_id ≠ (o.author teamPeople n).person_id)))
          (o.coCount n)).map Person.person_id
      else []
    tags := o.tags n
    created_at := o.created n
    updated_at := o.created n + o.updatedDelta n
    status := o.statusDraw n
    visibility := o.visibilityDraw n
    confidentiality := o.confidentialityDraw n }

/-- The per-team quota: integer division of the document target with the
remainder given to the first teams. -/
def teamDocCount (d t i : Nat) : Nat := d / t + (if i < d % t then 1 else 0)

/-- `_generate_team_documents(team, count)`: no documents for a team
with no people. -/
def genTeamDocs (o : DocOracle) (team : String) (teamPeople : List Person)
    (count c0 : Nat) : List Document :=
  if teamPeople.isEmpty then []
  else (List.range count).map (fun j => mkDoc o (c0 + j + 1) team teamPeople)

/-- The `for i, team in enumerate(teams)` loop of `generate()`, threading
the shared `doc_counter`. -/
def genDocsAux (o : DocOracle) (peopleBy : String → List Person) (d t : Nat) :
    List String → Nat → Nat → List Document
  | [], _, _ => []
  | team :: rest, i, c0 =>
      genTeamDocs o team (peopleBy team) (teamDocCount d t i) c0 ++
        genDocsAux o peopleBy d t rest (i + 1)
          (c0 + (genTeamDocs o team (peopleBy team) (teamDocCount d t i) c0).length)

/-- `DocumentGenerator.generate()` before the non-English pass. -/
def generateDocuments (o : DocOracle) (teams : List String)
    (peopleBy : String → List Person) (docTarget : Nat) : List Document :=
  genDocsAux o peopleBy docTarget teams.length teams 0 0

/-- The language table of `_add_non_english_documents`. -/
def docLanguages : List (String × String) :=
  [("es", "Spanish"), ("hi", "Hindi"), ("fr", "French"), ("de", "German"), ("pt", "Portuguese")]

/-- `_add_non_english_documents(documents)`: when at least 5 documents
exist, exactly 5 sampled documents are rewritten with a non-English
language code, a tagged title, and truncated content. -/
def markNonEnglish (sampler : List Document → Nat → List Document)
    (langPick : Document → String × String) (docs : List Document) : List Document :=
  if docs.length < 5 then docs
  else docs.map (fun d =>
    if decide (d ∈ sampler docs 5) then
      { d with
        language := (langPick d).1
        title := "[" ++ (langPick d).2 ++ "] " ++ d.title
        content := "[Content in " ++ (langPick d).2 ++ "]" ++ "\n\n"
          ++ String.mk (d.content.data.take 200) ++ "..." }
    else d)

/-- The full document builder: per-team generation, then the fixed-count
non-English pass. -/
def documentBuilder (o : DocOracle) (sampler : List Document → Nat → List Document)
    (langPick : Document → String × String) (teams : List String)
    (peopleBy : String → List Person) (docTarget : Nat) : List Document :=
  markNonEnglish sampler langPick (generateDocuments o teams peopleBy docTarget)

/-! ### Facts about the document builder -/

theorem list_sum_map_add {α : Type} (l : List α) (f g : α → Nat) :
    (l.map (fun x => f x + g x)).sum = (l.map f).sum + (l.map g).sum := by
  induction l with
  | nil => rfl
  | cons a t ih =>
    simp only [List.map_cons, List.sum_cons, ih]
    omega

theorem list_sum_map_const {α : Type} (l : List α) (c : Nat) :
    (l.map (fun _ => c)).sum = l.length * c := by
  induction l with
  | nil => simp
  | cons a t ih =>
    simp only [List.map_cons, List.sum_cons, ih, List.length_cons]
    rw [Nat.succ_mul]
    omega

theorem sum_indicator_range (t r : Nat) :
    ((List.range t).map (fun i => if i < r then 1 else 0)).sum = min r t := by
  induction t with
  | zero => simp
  | succ t ih =>
    rw [List.range_succ, List.map_append, List.sum_append, ih]
    by_cases h : t < r
    · simp only [List.map_cons, h, if_true, List.map_nil, List.sum_cons, List.sum_nil]
      omega
    · simp only [List.map_cons, h, if_false, List.map_nil, List.sum_cons, List.sum_nil]
      omega

/-- The per-team quotas add up to the configured document target. -/
theorem sum_teamDocCount (d t : Nat) (ht : 0 < t) :
    ((List.range t).map (teamDocCount d t)).sum = d := by
  unfold teamDocCount
  rw [list_sum_map_add, list_sum_map_const, sum_indicator_range, List.length_range]
  have h1 : min (d % t) t = d % t := Nat.min_eq_left (le_of_lt (Nat.mod_lt d ht))
  have h2 := Nat.div_add_mod d t
  omega

theorem genTeamDocs_length (o : DocOracle) (team : String) (tp : List Person)
    (cnt c0 : Nat) (h : tp ≠ []) :
    (genTeamDocs o team tp cnt c0).length = cnt := by
  unfold genTeamDocs
  rw [if_neg (by simpa [List.isEmpty_iff] using h)]
  simp

theorem genTeamDocs_team (o : DocOracle) (team : String) (tp : List Person)
    (cnt c0 : Nat) : ∀ doc ∈ genTeamDocs o team tp cnt c0, doc.team = team := by
  intro doc hdoc
  unfold genTeamDocs at hdoc
  split at hdoc
  · cases hdoc
  · rcases List.mem_map.mp hdoc with ⟨j, _, rfl⟩
    rfl

theorem genDocsAux_length (o : DocOracle) (peopleBy : String → List Person)
    (d t : Nat) : ∀ (ts : List String) (i c0 : Nat),
    (∀ team ∈ ts, peopleBy team ≠ []) →
    (genDocsAux o peopleBy d t ts i c0).length
      = ((List.range ts.length).map (fun j => teamDocCount d t (i + j))).sum := by
  intro ts
  induction ts with
  | nil => intro i c0 _; rfl
  | cons team rest ih =>
    intro i c0 h
    have hne : peopleBy team ≠ [] := h team (List.mem_cons_self _ _)
    have hlen := genTeamDocs_length o team (peopleBy team) (teamDocCount d t i) c0 hne
    simp only [genDocsAux, List.length_append, hlen,
      ih (i + 1) _ (fun x hx => h x (List.mem_cons_of_mem _ hx))]
    rw [List.length_cons, List.range_succ_eq_map, List.map_cons, List.sum_cons, List.map_map]
    have hshift : ∀ j ∈ List.range rest.length,
        ((fun j => teamDocCount d t (i + j)) ∘ Nat.succ) j
          = (fun j => teamDocCount d t (i + 1 + j)) j := by
      intro j _
      simp only [Function.comp_apply]
      congr 1
      omega
    rw [List.map_congr_left hshift]
    simp

/-- Per-team membership: every generated document carries one of the
configured team names. -/
theorem genDocsAux_team_mem (o : DocOracle) (peopleBy : String → List Person)
    (d t : Nat) : ∀ (ts : List String) (i c0 : Nat),
    ∀ doc ∈ genDocsAux o peopleBy d t ts i c0, doc.team ∈ ts := by
  intro ts
  induction ts with
  | nil => intro i c0 doc hdoc; cases hdoc
  | cons team rest ih =>
    intro i c0 doc hdoc
    rcases List.mem_append.mp hdoc with h | h
    · rw [genTeamDocs_team o team (peopleBy team) _ _ doc h]
      exact List.mem_cons_self _ _
    · exact List.mem_cons_of_mem _ (ih _ _ doc h)

theorem countP_eq_length_of_all {α : Type} (l : List α) (f : α → Bool)
    (h : ∀ x ∈ l, f x = true) : l.countP f = l.length := by
  induction l with
  | nil => rfl
  | cons a tl ih =>
    rw [List.countP_cons, ih (fun x hx => h x (List.mem_cons_of_mem _ hx)),
      h a (List.mem_cons_self _ _)]
    simp

theorem countP_eq_zero_of_none {α : Type} (l : List α) (f : α → Bool)
    (h : ∀ x ∈ l, f x = false) : l.countP f = 0 := by
  induction l with
  | nil => rfl
  | cons a tl ih =>
    rw [List.countP_cons, ih (fun x hx => h x (List.mem_cons_of_mem _ hx)),
      h a (List.mem_cons_self _ _)]
    simp

/-- Count of documents per team: exactly the team quota, team by team. -/
theorem genDocsAux_count_team (o : DocOracle) (peopleBy : String → List Person)
    (d t : Nat) : ∀ (ts : List String) (i c0 : Nat),
    ts.Nodup → (∀ team ∈ ts, peopleBy team ≠ []) →
    ∀ k, k < ts.length →
      (genDocsAux o peopleBy d t ts i c0).countP
        (fun doc => doc.team == ts.getD k "")
        = teamDocCount d t (i + k) := by
  intro ts
  induction ts with
  | nil => intro i c0 _ _ k hk; cases hk
  | cons team rest ih =>
    intro i c0 hnd h k hk
    have hne : peopleBy team ≠ [] := h team (List.mem_cons_self _ _)
    rw [show genDocsAux o peopleBy d t (team :: rest) i c0
        = genTeamDocs o team (peopleBy team) (teamDocCount d t i) c0 ++
          genDocsAux o peopleBy d t rest (i + 1)
            (c0 + (genTeamDocs o team (peopleBy team) (teamDocCount d t i) c0).length)
      from rfl]
    rw [List.countP_append]
    cases k with
    | zero =>
      have hchunk : (genTeamDocs o team (peopleBy team) (teamDocCount d t i) c0).countP
          (fun doc => doc.team == (team :: rest).getD 0 "") =
          teamDocCount d t i := by
        rw [countP_eq_length_of_all _ _ ?_, genTeamDocs_length o team _ _ _ hne]
        intro doc hdoc
        rw [genTeamDocs_team o team _ _ _ doc hdoc]
        simp [List.getD]
      have hrest : (genDocsAux o peopleBy d t rest (i + 1)
          (c0 + (genTeamDocs o team (peopleBy team) (teamDocCount d t i) c0).length)).countP
          (fun doc => doc.team == (team :: rest).getD 0 "") = 0 := by
        apply countP_eq_zero_of_none
        intro doc hdoc
        have hmem := genDocsAux_team_mem o peopleBy d t rest _ _ doc hdoc
        have hneq : doc.team ≠ team := by
          intro hceq
          rw [hceq] at hmem
          exact (List.nodup_cons.mp hnd).1 hmem
        simpa [List.getD] using hneq
      rw [hchunk, hrest]
      simp
    | succ k =>
      have hk2 : k < rest.length := by simpa using hk
      have hgetD : (team :: rest).getD (k + 1) "" = rest.getD k "" := by
        simp [List.getD]
      have hchunk : (genTeamDocs o team (peopleBy team) (teamDocCount d t i) c0).countP
          (fun doc => doc.team == (team :: rest).getD (k + 1) "") = 0 := by
        apply countP_eq_zero_of_none
        intro doc hdoc
        rw [genTeamDocs_team o team _ _ _ doc hdoc, hgetD]
        have hmem : rest.getD k "" ∈ rest := by
          rw [List.getD_eq_getElem rest "" hk2]
          exact List.getElem_mem hk2
        have hneq : team ≠ rest.getD k "" := by
          intro hceq
          rw [hceq] at hnd
          exact (List.nodup_cons.mp hnd).1 hmem
        simpa using hneq
      rw [hchunk, hgetD,
        ih (i + 1) _ (List.nodup_cons.mp hnd).2
          (fun x hx => h x (List.mem_cons_of_mem _ hx)) k hk2,
        show i + 1 + k = i + (k + 1) from by omega]
      omega

/-- Recover the counter from a generated document id. -/
def docNumOfId (s : String) : Nat := parseChars (s.data.drop 4)

/-- Recover the counter from a generated document. -/
def docIdNum (doc : Document) : Nat := docNumOfId doc.doc_id

theorem docIdNum_mkDoc (o : DocOracle) (n : Nat) (team : String)
    (tp : List Person) : docIdNum (mkDoc o n team tp) = n := by
  show parseChars ((("DOC_" : String) ++ padStr 3 n).data.drop 4) = n
  have h4 : (("DOC_" : String) ++ padStr 3 n).data.drop 4 = padChars 3 n := rfl
  rw [h4, parseChars_padChars]

theorem genTeamDocs_nums (o : DocOracle) (team : String) (tp : List Person)
    (cnt c0 : Nat) :
    (genTeamDocs o team tp cnt c0).map docIdNum
      = if tp.isEmpty then [] else (List.range cnt).map (fun j => c0 + j + 1) := by
  unfold genTeamDocs
  by_cases h : tp.isEmpty
  · rw [if_pos h, if_pos h]
    rfl
  · rw [if_neg h, if_neg h, List.map_map]
    apply List.map_congr_left
    intro j _
    simp [Function.comp, docIdNum_mkDoc]

/-- The shared `doc_counter` yields pairwise distinct counters across
the whole run, all within the window that the run advances. -/
theorem genDocsAux_nums (o : DocOracle) (peopleBy : String → List Person)
    (d t : Nat) : ∀ (ts : List String) (i c0 : Nat),
    ((genDocsAux o peopleBy d t ts i c0).map docIdNum).Nodup ∧
      ∀ m ∈ (genDocsAux o peopleBy d t ts i c0).map docIdNum,
        c0 < m ∧ m ≤ c0 + (genDocsAux o peopleBy d t ts i c0).length := by
  intro ts
  induction ts with
  | nil =>
    intro i c0
    exact ⟨List.nodup_nil, by intro m hm; cases hm⟩
  | cons team rest ih =>
    intro i c0
    have hrec := ih (i + 1)
      (c0 + (genTeamDocs o team (peopleBy team) (teamDocCount d t i) c0).length)
    have hchunkNums := genTeamDocs_nums o team (peopleBy team) (teamDocCount d t i) c0
    have hchunkBound : ∀ m ∈ (genTeamDocs o team (peopleBy team)
        (teamDocCount d t i) c0).map docIdNum,
        c0 < m ∧ m ≤ c0 + (genTeamDocs o team (peopleBy team)
          (teamDocCount d t i) c0).length := by
      intro m hm
      rw [hchunkNums] at hm
      by_cases h : (peopleBy team).isEmpty
      · rw [if_pos h] at hm; cases hm
      · rw [if_neg h] at hm
        rcases List.mem_map.mp hm with ⟨j, hj, rfl⟩
        have hj2 := List.mem_range.mp hj
        have hlen : (genTeamDocs o team (peopleBy team) (teamDocCount d t i) c0).length
            = teamDocCount d t i := by
          apply genTeamDocs_length
          intro hc
          rw [hc] at h
          exact h rfl
        rw [hlen]
        omega
    have hchunkNodup : ((genTeamDocs o team (peopleBy team)
        (teamDocCount d t i) c0).map docIdNum).Nodup := by
      rw [hchunkNums]
      by_cases h : (peopleBy team).isEmpty
      · rw [if_pos h]; exact List.nodup_nil
      · rw [if_neg h]
        refine List.Nodup.map ?_ (List.nodup_range _)
        intro a b hab
        simp only at hab
        omega
    constructor
    · rw [show genDocsAux o peopleBy d t (team :: rest) i c0
          = genTeamDocs o team (peopleBy team) (teamDocCount d t i) c0 ++
            genDocsAux o peopleBy d t rest (i + 1)
              (c0 + (genTeamDocs o team (peopleBy team) (teamDocCount d t i) c0).length)
        from rfl, List.map_append]
      refine List.Nodup.append hchunkNodup hrec.1 ?_
      intro m hm hm2
      have hb1 := hchunkBound m hm
      have hb2 := hrec.2 m hm2
      omega
    · rw [show genDocsAux o peopleBy d t (team :: rest) i c0
          = genTeamDocs o team (peopleBy team) (teamDocCount d t i) c0 ++
            genDocsAux o peopleBy d t rest (i + 1)
              (c0 + (genTeamDocs o team (peopleBy team) (teamDocCount d t i) c0).length)
        from rfl, List.map_append]
      intro m hm
      rw [List.length_append]
      rcases List.mem_append.mp hm with h | h
      · have := hchunkBound m h
        omega
      · have := hrec.2 m h
        omega

theorem genDocsAux_ids_nodup (o : DocOracle) (peopleBy : String → List Person)
    (d t : Nat) (ts : List String) (i c0 : Nat) :
    ((genDocsAux o peopleBy d t ts i c0).map Document.doc_id).Nodup := by
  have h := (genDocsAux_nums o peopleBy d t ts i c0).1
  have hfact : (genDocsAux o peopleBy d t ts i c0).map docIdNum
      = ((genDocsAux o peopleBy d t ts i c0).map Document.doc_id).map docNumOfId := by
    rw [List.map_map]
    rfl
  rw [hfact] at h
  exact List.Nodup.of_map _ h

theorem genDocsAux_nodup (o : DocOracle) (peopleBy : String → List Person)
    (d t : Nat) (ts : List String) (i c0 : Nat) :
    (genDocsAux o peopleBy d t ts i c0).Nodup :=
  List.Nodup.of_map _ (genDocsAux_ids_nodup o peopleBy d t ts i c0)

/-- Authors and co-authors of every generated document are drawn from
the document team's registered people. -/
theorem mkDoc_authors (o : DocOracle) (hspec : DocOracleSpec o) (n : Nat)
    (team : String) (tp : List Person) (h : tp ≠ []) :
    (∃ p ∈ tp, p.person_id = (mkDoc o n team tp).author_person_id) ∧
      ∀ c ∈ (mkDoc o n team tp).co_authors, ∃ p ∈ tp, p.person_id = c := by
  constructor
  · exact ⟨o.author tp n, hspec.1 tp n h, rfl⟩
  · intro c hc
    show ∃ p ∈ tp, p.person_id = c
    unfold mkDoc at hc
    simp only at hc
    by_cases hflag : o.coFlag n
    · rw [if_pos hflag] at hc
      by_cases hemp : (tp.filter
          (fun p => decide (p.person_id ≠ (o.author tp n).person_id))).isEmpty
      · rw [if_pos hemp] at hc
        cases hc
      · rw [if_neg hemp] at hc
        rcases List.mem_map.mp hc with ⟨p, hp, rfl⟩
        have := hspec.2.1 n _ (o.coCount n) p hp
        exact ⟨p, (List.mem_filter.mp this).1, rfl⟩
    · rw [if_neg hflag] at hc
      cases hc

theorem genDocsAux_authors (o : DocOracle) (hspec : DocOracleSpec o)
    (peopleBy : String → List Person) (d t : Nat) :
    ∀ (ts : List String) (i c0 : Nat), ∀ doc ∈ genDocsAux o peopleBy d t ts i c0,
    (∃ p ∈ peopleBy doc.team, p.person_id = doc.author_person_id) ∧
      ∀ c ∈ doc.co_authors, ∃ p ∈ peopleBy doc.team, p.person_id = c := by
  intro ts
  induction ts with
  | nil => intro i c0 doc hdoc; cases hdoc
  | cons team rest ih =>
    intro i c0 doc hdoc
    rcases List.mem_append.mp hdoc with h | h
    · have hteam := genTeamDocs_team o team (peopleBy team) _ _ doc h
      unfold genTeamDocs at h
      split at h
      · cases h
      · next hne =>
        rcases List.mem_map.mp h with ⟨j, _, rfl⟩
        rw [hteam]
        exact mkDoc_authors o hspec _ team (peopleBy team)
          (by intro hc; rw [hc] at hne; exact hne rfl)
    · exact ih _ _ doc h

theorem genDocsAux_lang (o : DocOracle) (peopleBy : String → List Person)
    (d t : Nat) : ∀ (ts : List String) (i c0 : Nat),
    ∀ doc ∈ genDocsAux o peopleBy d t ts i c0, doc.language = "en" := by
  intro ts
  induction ts with
  | nil => intro i c0 doc hdoc; cases hdoc
  | cons team rest ih =>
    intro i c0 doc hdoc
    rcases List.mem_append.mp hdoc with h | h
    · unfold genTeamDocs at h
      split at h
      · cases h
      · rcases List.mem_map.mp h with ⟨j, _, rfl⟩
        rfl
    · exact ih _ _ doc h

theorem markNonEnglish_length (s : List Document → Nat → List Document)
    (lp : Document → String × String) (docs : List Document) :
    (markNonEnglish s lp docs).length = docs.length := by
  unfold markNonEnglish
  split
  · rfl
  · rw [List.length_map]

theorem markNonEnglish_team_countP (s : List Document → Nat → List Document)
    (lp : Document → String × String) (docs : List Document) (T : String) :
    (markNonEnglish s lp docs).countP (fun doc => doc.team == T)
      = docs.countP (fun doc => doc.team == T) := by
  unfold markNonEnglish
  split
  · rfl
  · rw [List.countP_map]
    apply List.countP_congr
    intro d _
    by_cases h : d ∈ s docs 5 <;> simp [Function.comp, h]

theorem markNonEnglish_ids (s : List Document → Nat → List Document)
    (lp : Document → String × String) (docs : List Document) :
    (markNonEnglish s lp docs).map Document.doc_id = docs.map Document.doc_id := by
  unfold markNonEnglish
  split
  · rfl
  · rw [List.map_map]
    apply List.map_congr_left
    intro d _
    by_cases h : d ∈ s docs 5 <;> simp [Function.comp, h]

/-- The non-English pass preserves all referential fields. -/
theorem markNonEnglish_core_fields (s : List Document → Nat → List Document)
    (lp : Document → String × String) (docs : List Document) :
    ∀ d2 ∈ markNonEnglish s lp docs, ∃ d ∈ docs,
      d2.doc_id = d.doc_id ∧ d2.team = d.team ∧
      d2.author_person_id = d.author_person_id ∧ d2.co_authors = d.co_authors ∧
      d2.related_doc_ids = d.related_doc_ids := by
  unfold markNonEnglish
  split
  · intro d2 hd2
    exact ⟨d2, hd2, rfl, rfl, rfl, rfl, rfl⟩
  · intro d2 hd2
    rcases List.mem_map.mp hd2 with ⟨d, hd, rfl⟩
    by_cases h : d ∈ s docs 5
    · exact ⟨d, hd, by simp [h]⟩
    · exact ⟨d, hd, by simp [h]⟩

/-- Exactly 5 documents carry a non-English language code after the
pass, whenever at least 5 documents exist. -/
theorem markNonEnglish_count (s : List Document → Nat → List Document)
    (lp : Document → String × String) (docs : List Document)
    (hs : SampleSpec s) (hnd : docs.Nodup)
    (hlang : ∀ d ∈ docs, d.language = "en") (hlen : 5 ≤ docs.length)
    (hlp : ∀ d, lp d ∈ docLanguages) :
    (markNonEnglish s lp docs).countP (fun d => !(d.language == "en")) = 5 := by
  unfold markNonEnglish
  rw [if_neg (by omega), List.countP_map]
  have hspec := hs docs 5 hlen
  have hne : ∀ d, (lp d).1 ≠ "en" := by
    intro d
    have hmem := hlp d
    have : ∀ kv ∈ docLanguages, kv.1 ≠ "en" := by decide
    exact this _ hmem
  have hcong : ∀ d ∈ docs,
      ((fun d => !(d.language == "en")) ∘
        (fun d => if decide (d ∈ s docs 5) then
          { d with
            language := (lp d).1
            title := "[" ++ (lp d).2 ++ "] " ++ d.title
            content := "[Content in " ++ (lp d).2 ++ "]" ++ "\n\n"
              ++ String.mk (d.content.data.take 200) ++ "..." }
        else d)) d = true ↔ decide (d ∈ s docs 5) = true := by
    intro d hd
    by_cases h : d ∈ s docs 5
    · simp [Function.comp, h, hne d]
    · simp [Function.comp, h, hlang d hd]
  rw [List.countP_congr hcong]
  rw [countP_mem_eq_length docs (s docs 5) hspec.2.1 (hspec.2.2 hnd) hnd]
  exact hspec.1

/-! ### Claim C6: document counts, per-team shares, non-English fixed count -/

/-- C6: for any configuration whose teams are distinct and all have at
least one person, the Document Builder yields exactly the configured
number of documents, team `k` receives exactly
`documents // teams + (1 if k < documents % teams else 0)` of them
(integer division with the remainder given to the first teams, hence
within 1 of the even share), and whenever the target is at least 5,
exactly 5 documents carry a non-English language code.  With
`documents = 160` and 5 teams this gives 160 documents, 32 per team, and
exactly 5 non-English. -/
theorem C6_document_distribution (o : DocOracle)
    (s : List Document → Nat → List Document) (lp : Document → String × String)
    (teams : List String) (peopleBy : String → List Person) (docTarget : Nat)
    (hteams : teams ≠ []) (hnd : teams.Nodup)
    (hpb : ∀ team ∈ teams, peopleBy team ≠ [])
    (hs : SampleSpec s) (hlp : ∀ d, lp d ∈ docLanguages) :
    (documentBuilder o s lp teams peopleBy docTarget).length = docTarget ∧
      (∀ k, k < teams.length →
        (documentBuilder o s lp teams peopleBy docTarget).countP
          (fun doc => doc.team == teams.getD k "")
          = docTarget / teams.length
            + (if k < docTarget % teams.length then 1 else 0)) ∧
      (5 ≤ docTarget →
        (documentBuilder o s lp teams peopleBy docTarget).countP
          (fun d => !(d.language == "en")) = 5) := by
  have hlen0 : (generateDocuments o teams peopleBy docTarget).length = docTarget := by
    unfold generateDocuments
    rw [genDocsAux_length o peopleBy docTarget teams.length teams 0 0 hpb]
    have hzero : ∀ j ∈ List.range teams.length,
        (fun j => teamDocCount docTarget teams.length (0 + j)) j
          = teamDocCount docTarget teams.length j := by
      intro j _
      simp
    rw [List.map_congr_left hzero]
    exact sum_teamDocCount docTarget teams.length (List.length_pos.mpr hteams)
  refine ⟨?_, ?_, ?_⟩
  · unfold documentBuilder
    rw [markNonEnglish_length]
    exact hlen0
  · intro k hk
    unfold documentBuilder
    rw [markNonEnglish_team_countP]
    unfold generateDocuments
    have := genDocsAux_count_team o peopleBy docTarget teams.length teams 0 0 hnd hpb k hk
    simpa using this
  · intro h5
    unfold documentBuilder
    apply markNonEnglish_count _ _ _ hs
      (genDocsAux_nodup o peopleBy docTarget teams.length teams 0 0)
      (genDocsAux_lang o peopleBy docTarget teams.length teams 0 0) ?_ hlp
    rw [show generateDocuments o teams peopleBy docTarget
        = genDocsAux o peopleBy docTarget teams.length teams 0 0 from rfl] at hlen0
    omega

/-- Deterministic document oracle for the witness. -/
def c6Oracle : DocOracle :=
  { author := fun l _ => l.headD default
    coFlag := fun _ => false
    coCount := fun _ => 0
    coSample := fun _ _ _ => []
    title := fun _ => "Quarterly Report"
    content := fun _ => "content"
    tags := fun _ => []
    created := fun _ => 0
    updatedDelta := fun _ => 0
    statusDraw := fun _ => "final"
    visibilityDraw := fun _ => "internal"
    confidentialityDraw := fun _ => "medium" }

/-- One registered person per team, for the witness. -/
def c6PeopleBy : String → List Person :=
  fun _ =>
    [{ person_id := "P_001", full_name := "Maya Chen", email := "maya.chen@technova.com",
       role_title := "Product Manager", team := "Product" }]

/-- C6 witness: the theorem applied to the claim's own scenario,
`documents = 160` across the 5 default teams. -/
theorem C6_document_distribution_witness :
    ((["Marketing", "Product", "Engineering", "Finance", "HR"] : List String) ≠ [] ∧
        (["Marketing", "Product", "Engineering", "Finance", "HR"] : List String).Nodup ∧
        (∀ team ∈ (["Marketing", "Product", "Engineering", "Finance", "HR"] : List String),
          c6PeopleBy team ≠ []) ∧ 5 ≤ 160) ∧
      ((documentBuilder c6Oracle sampleTake (fun _ => ("es", "Spanish"))
          ["Marketing", "Product", "Engineering", "Finance", "HR"] c6PeopleBy 160).length = 160 ∧
        (∀ k, k < (["Marketing", "Product", "Engineering", "Finance", "HR"] : List String).length →
          (documentBuilder c6Oracle sampleTake (fun _ => ("es", "Spanish"))
            ["Marketing", "Product", "Engineering", "Finance", "HR"] c6PeopleBy 160).countP
            (fun doc => doc.team ==
              (["Marketing", "Product", "Engineering", "Finance", "HR"] : List String).getD k "")
            = 160 / 5 + (if k < 160 % 5 then 1 else 0)) ∧
        (5 ≤ 160 →
          (documentBuilder c6Oracle sampleTake (fun _ => ("es", "Spanish"))
            ["Marketing", "Product", "Engineering", "Finance", "HR"] c6PeopleBy 160).countP
            (fun d => !(d.language == "en")) = 5)) :=
  ⟨⟨by decide, by decide, by decide, by decide⟩,
    C6_document_distribution c6Oracle sampleTake (fun _ => ("es", "Spanish"))
      ["Marketing", "Product", "Engineering", "Finance", "HR"] c6PeopleBy 160
      (by decide) (by decide) (by decide) sampleTake_spec (fun _ => List.mem_cons_self _ _)⟩

/-! ### Person generation facts (`_generate_people`) -/

theorem generatePeople_pids (teams : List String) (demos : List DemoPersona)
    (draw : Nat → PersonDraw) (n : Nat) :
    pids (generatePeople teams demos draw n)
      = (List.range (demos.length + (n - demos.length))).map
          (fun j => personIdOf (j + 1)) := by
  unfold generatePeople pids
  rw [List.map_append, List.map_map, List.map_map, List.range_add, List.map_append,
    List.map_map]
  congr 1
  apply List.map_congr_left
  intro j _
  simp only [Function.comp_apply]
  show personIdOf (j + demos.length + 1) = personIdOf (demos.length + j + 1)
  congr 1
  omega

theorem generatePeople_pids_nodup (teams : List String) (demos : List DemoPersona)
    (draw : Nat → PersonDraw) (n : Nat) :
    (pids (generatePeople teams demos draw n)).Nodup := by
  rw [generatePeople_pids]
  refine List.Nodup.map ?_ (List.nodup_range _)
  intro a b hab
  have := counterId_injective "P_" 3 hab
  omega

theorem generatePeople_mgrNone (teams : List String) (demos : List DemoPersona)
    (draw : Nat → PersonDraw) (n : Nat) :
    ∀ p ∈ generatePeople teams demos draw n, p.manager_id = none := by
  intro p hp
  rcases List.mem_append.mp hp with h | h
  · rcases List.mem_map.mp h with ⟨i, _, rfl⟩
    rfl
  · rcases List.mem_map.mp h with ⟨j, _, rfl⟩
    rfl

theorem generatePeople_length (teams : List String) (demos : List DemoPersona)
    (draw : Nat → PersonDraw) (n : Nat) :
    (generatePeople teams demos draw n).length = demos.length + (n - demos.length) := by
  unfold generatePeople
  simp

/-! ### Registry lookup facts used by the validator proofs -/

theorem containsKey_iff {α : Type} (m : List (String × α)) (q : String) :
    containsKey m q = true ↔ q ∈ m.map Prod.fst := by
  unfold containsKey lookupA
  rw [Option.isSome_map', List.find?_isSome]
  constructor
  · rintro ⟨kv, hkv, hq⟩
    rw [List.mem_map]
    exact ⟨kv, hkv, by simpa [eq_comm] using (beq_iff_eq.mp hq)⟩
  · intro h
    rcases List.mem_map.mp h with ⟨kv, hkv, rfl⟩
    exact ⟨kv, hkv, by simp⟩

theorem keys_setA {α : Type} (m : List (String × α)) (k : String) (v : α) :
    (setA m k v).map Prod.fst
      = if containsKey m k then m.map Prod.fst else m.map Prod.fst ++ [k] := by
  unfold setA
  split
  · next h =>
    rw [List.map_map]
    apply List.map_congr_left
    intro kv _
    simp only [Function.comp_apply]
    by_cases hk : kv.1 == k
    · rw [if_pos hk]
      exact (beq_iff_eq.mp hk).symm
    · rw [if_neg (by simpa using hk)]
  · simp

theorem vals_setA {α : Type} (m : List (String × α)) (k : String) (v : α) :
    ∀ x ∈ (setA m k v).map Prod.snd, x ∈ m.map Prod.snd ∨ x = v := by
  intro x hx
  unfold setA at hx
  split at hx
  · rcases List.mem_map.mp hx with ⟨kv2, hkv2, rfl⟩
    rcases List.mem_map.mp hkv2 with ⟨kv, hkv, rfl⟩
    by_cases hk : (kv.1 == k) = true
    · right
      rw [if_pos hk]
    · left
      rw [if_neg hk]
      exact List.mem_map_of_mem _ hkv
  · rw [List.map_append] at hx
    rcases List.mem_append.mp hx with h | h
    · exact Or.inl h
    · simp at h
      exact Or.inr h

theorem registerPerson_people (r : Registry) (p : Person) :
    (registerEntity r "person" p.person_id (.person p)).people
      = setA r.people p.person_id p := rfl

theorem registerPerson_documents (r : Registry) (p : Person) :
    (registerEntity r "person" p.person_id (.person p)).documents = r.documents := rfl

theorem registerDocument_people (r : Registry) (d : Document) :
    (registerEntity r "document" d.doc_id (.document d)).people = r.people := rfl

theorem registerDocument_documents (r : Registry) (d : Document) :
    (registerEntity r "document" d.doc_id (.document d)).documents
      = setA r.documents d.doc_id d := rfl

theorem registerPeople_documents (r : Registry) (l : List Person) :
    (registerPeople r l).documents = r.documents := by
  induction l generalizing r with
  | nil => rfl
  | cons p tl ih =>
    show (registerPeople (registerEntity r "person" p.person_id (.person p)) tl).documents
      = r.documents
    rw [ih, registerPerson_documents]

theorem registerDocuments_people (r : Registry) (l : List Document) :
    (registerDocuments r l).people = r.people := by
  induction l generalizing r with
  | nil => rfl
  | cons d tl ih =>
    show (registerDocuments (registerEntity r "document" d.doc_id (.document d)) tl).people
      = r.people
    rw [ih, registerDocument_people]

theorem registerPeople_people_keys (r : Registry) (l : List Person) (q : String) :
    containsKey (registerPeople r l).people q = true ↔
      containsKey r.people q = true ∨ q ∈ pids l := by
  induction l generalizing r with
  | nil => simp [registerPeople, pids]
  | cons p tl ih =>
    show containsKey (registerPeople (registerEntity r "person" p.person_id (.person p)) tl).people q
        = true ↔ _
    rw [ih, registerPerson_people, containsKey_iff, keys_setA]
    constructor
    · intro h
      rcases h with h | h
      · split at h
        · rw [← containsKey_iff] at h
          exact Or.inl h
        · rcases List.mem_append.mp h with h2 | h2
          · rw [← containsKey_iff] at h2
            exact Or.inl h2
          · simp at h2
            right
            rw [h2]
            exact List.mem_map_of_mem _ (List.mem_cons_self _ _)
      · right
        exact List.mem_cons_of_mem _ h
    · intro h
      rcases h with h | h
      · left
        split
        · rwa [← containsKey_iff]
        · exact List.mem_append.mpr (Or.inl ((containsKey_iff _ _).mp h))
      · rcases List.mem_map.mp h with ⟨p2, hp2, rfl⟩
        rcases List.mem_cons.mp hp2 with h2 | h2
        · left
          subst h2
          split
          · next hc => rwa [← containsKey_iff]
          · exact List.mem_append.mpr (Or.inr (by simp))
        · right
          exact List.mem_map_of_mem _ h2

theorem registerPeople_people_vals (r : Registry) (l : List Person) :
    ∀ v ∈ (registerPeople r l).people.map Prod.snd,
      v ∈ r.people.map Prod.snd ∨ v ∈ l := by
  induction l generalizing r with
  | nil => intro v hv; exact Or.inl hv
  | cons p tl ih =>
    intro v hv
    have := ih (registerEntity r "person" p.person_id (.person p)) v hv
    rcases this with h | h
    · rw [registerPerson_people] at h
      rcases vals_setA r.people p.person_id p v h with h2 | h2
      · exact Or.inl h2
      · exact Or.inr (by rw [h2]; exact List.mem_cons_self _ _)
    · exact Or.inr (List.mem_cons_of_mem _ h)

theorem registerDocuments_docs_vals (r : Registry) (l : List Document) :
    ∀ v ∈ (registerDocuments r l).documents.map Prod.snd,
      v ∈ r.documents.map Prod.snd ∨ v ∈ l := by
  induction l generalizing r with
  | nil => intro v hv; exact Or.inl hv
  | cons d tl ih =>
    intro v hv
    have := ih (registerEntity r "document" d.doc_id (.document d)) v hv
    rcases this with h | h
    · rw [registerDocument_documents] at h
      rcases vals_setA r.documents d.doc_id d v h with h2 | h2
      · exact Or.inl h2
      · exact Or.inr (by rw [h2]; exact List.mem_cons_self _ _)
    · exact Or.inr (List.mem_cons_of_mem _ h)

/-! ### Validator facts -/

theorem personErrF_none (ppl : List (String × Person)) (p : Person)
    (h : ∀ m, p.manager_id = some m → containsKey ppl m = true) :
    personErrF ppl p = none := by
  unfold personErrF
  cases hm : p.manager_id with
  | none => rfl
  | some m =>
    show (if containsKey ppl m = true then none
      else some (personErrMsg p.person_id m)) = none
    rw [if_pos (h m hm)]

theorem docErrF_nil (ppl : List (String × Person)) (d : Document)
    (ha : containsKey ppl d.author_person_id = true)
    (hc : ∀ c ∈ d.co_authors, containsKey ppl c = true) :
    docErrF ppl d = [] := by
  unfold docErrF
  rw [if_pos ha, List.nil_append, List.filterMap_eq_nil_iff]
  intro c hcm
  rw [if_pos (hc c hcm)]

/-- A registry whose person and document references all resolve
validates with zero errors. -/
theorem ensure_errors_nil (r : Registry)
    (hp : ∀ p ∈ r.people.map Prod.snd, ∀ m, p.manager_id = some m →
      containsKey r.people m = true)
    (hd : ∀ d ∈ r.documents.map Prod.snd,
      containsKey r.people d.author_person_id = true ∧
        ∀ c ∈ d.co_authors, containsKey r.people c = true) :
    (ensureReferentialIntegrity r).errors = [] := by
  show (r.people.map (fun kv => kv.2)).filterMap (personErrF r.people) ++
      (r.documents.map (fun kv => kv.2)).flatMap (docErrF r.people) = []
  rw [List.append_eq_nil]
  constructor
  · rw [List.filterMap_eq_nil_iff]
    intro p hpm
    exact personErrF_none r.people p (hp p hpm)
  · rw [List.flatMap_eq_nil_iff]
    intro d hdm
    exact docErrF_nil r.people d (hd d hdm).1 (hd d hdm).2

/-- Corrupting one stored document's author to an unknown id makes the
per-document error pass produce exactly one message, naming that
document. -/
theorem flatMap_docErr_corrupt (ppl : List (String × Person)) (did bad : String)
    (d : Document) :
    ∀ (docs : List (String × Document)),
    (docs.map Prod.fst).Nodup → lookupA docs did = some d →
    (∀ e ∈ docs.map Prod.snd, docErrF ppl e = []) → containsKey ppl bad = false →
    ((docs.map (fun kv =>
        if kv.1 == did then (kv.1, { kv.2 with author_person_id := bad }) else kv)).map
      Prod.snd).flatMap (docErrF ppl) = [authorErrMsg d.doc_id bad] := by
  intro docs
  induction docs with
  | nil =>
    intro _ hlook _ _
    cases hlook
  | cons kv tl ih =>
    intro hnd hlook hnil hbad
    by_cases hk : (kv.1 == did) = true
    · have hdkv : d = kv.2 := by
        unfold lookupA at hlook
        rw [List.find?_cons_of_pos (p := fun kv2 : String × Document => kv2.1 == did) _ hk] at hlook
        cases hlook
        rfl
      have hdidtl : ∀ kv2 ∈ tl, ¬ (kv2.1 == did) = true := by
        intro kv2 hkv2 hc
        have h1 : kv.1 = did := beq_iff_eq.mp hk
        have h2 : kv2.1 = did := beq_iff_eq.mp hc
        have : kv.1 ∈ tl.map Prod.fst := by
          rw [h1, ← h2]
          exact List.mem_map_of_mem _ hkv2
        exact (List.nodup_cons.mp hnd).1 this
      have htl : tl.map (fun kv =>
          if kv.1 == did then (kv.1, { kv.2 with author_person_id := bad }) else kv) = tl := by
        have : ∀ kv2 ∈ tl, (fun kv =>
            if kv.1 == did then (kv.1, { kv.2 with author_person_id := bad }) else kv) kv2
            = id kv2 := by
          intro kv2 hkv2
          simp only [id]
          rw [if_neg (hdidtl kv2 hkv2)]
        rw [List.map_congr_left this, List.map_id]
      rw [List.map_cons, if_pos hk, List.map_cons, List.flatMap_cons, htl]
      have hrest : (tl.map Prod.snd).flatMap (docErrF ppl) = [] := by
        rw [List.flatMap_eq_nil_iff]
        intro e he
        exact hnil e (List.mem_cons_of_mem _ he)
      rw [hrest, List.append_nil]
      have hco : kv.2.co_authors.filterMap (fun c =>
          if containsKey ppl c then none else some (coAuthorErrMsg kv.2.doc_id c)) = [] := by
        have := hnil kv.2 (List.mem_map_of_mem _ (List.mem_cons_self _ _))
        unfold docErrF at this
        exact (List.append_eq_nil.mp this).2
      show (if containsKey ppl bad then []
          else [authorErrMsg kv.2.doc_id bad]) ++
        kv.2.co_authors.filterMap (fun c =>
          if containsKey ppl c then none else some (coAuthorErrMsg kv.2.doc_id c))
        = [authorErrMsg d.doc_id bad]
      rw [hco, hbad, hdkv]
      rfl
    · have hlook2 : lookupA tl did = some d := by
        unfold lookupA at hlook ⊢
        rwa [List.find?_cons_of_neg (p := fun kv2 : String × Document => kv2.1 == did) _
          (by simpa using hk)] at hlook
      have hkvnil := hnil kv.2 (List.mem_map_of_mem _ (List.mem_cons_self _ _))
      rw [List.map_cons, if_neg hk, List.map_cons, List.flatMap_cons, hkvnil,
        List.nil_append]
      exact ih (List.nodup_cons.mp hnd).2 hlook2
        (fun e he => hnil e (List.mem_cons_of_mem _ he)) hbad

theorem ensure_errors_corrupt (r : Registry) (did bad : String) (d : Document)
    (hnd : (r.documents.map Prod.fst).Nodup)
    (hlook : lookupA r.documents did = some d)
    (hclean : (ensureReferentialIntegrity r).errors = [])
    (hbad : containsKey r.people bad = false) :
    (ensureReferentialIntegrity (corruptAuthor r did bad)).errors
      = [authorErrMsg d.doc_id bad] := by
  have hclean2 : (r.people.map (fun kv => kv.2)).filterMap (personErrF r.people) ++
      (r.documents.map (fun kv => kv.2)).flatMap (docErrF r.people) = [] := hclean
  have hsplit := List.append_eq_nil.mp hclean2
  have hnil : ∀ e ∈ r.documents.map Prod.snd, docErrF r.people e = [] := by
    have h2 := hsplit.2
    rw [List.flatMap_eq_nil_iff] at h2
    intro e he
    exact h2 e he
  show (r.people.map (fun kv => kv.2)).filterMap (personErrF r.people) ++
      ((r.documents.map (fun kv =>
          if kv.1 == did then (kv.1, { kv.2 with author_person_id := bad }) else kv)).map
        (fun kv => kv.2)).flatMap (docErrF r.people)
      = [authorErrMsg d.doc_id bad]
  rw [hsplit.1, List.nil_append]
  exact flatMap_docErr_corrupt r.people did bad d r.documents hnd hlook hnil hbad

/-! ### Claim C3: referential integrity of a full generation run -/

/-- The organization stage of `generate_all`: generate people, then
assign managers. -/
def orgPipeline (teams : List String) (demos : List DemoPersona)
    (draw : Nat → PersonDraw) (n mc : Nat)
    (ps ms : List Person → Nat → List Person) (cp : List Person → Person) :
    List Person :=
  (assignManagers mc ps ms cp (generatePeople teams demos draw n)).2

/-- The registry state after the organization and document stages
registered their outputs. -/
def pipelineRegistry (people : List Person) (docs : List Document) : Registry :=
  registerDocuments (registerPeople {} people) docs

/-- C3: after a full uncorrupted generation run, every Person with a
`manager_id` refers to an existing person and is not their own manager;
consequently `validate_referential_integrity` reports zero errors; and
corrupting exactly one stored document's `author_person_id` to an
unknown id makes validation report exactly one error, which names that
document. -/
theorem C3_referential_integrity :
    (∀ (teams : List String) (demos : List DemoPersona) (draw : Nat → PersonDraw)
        (n mc : Nat) (ps ms : List Person → Nat → List Person)
        (cp : List Person → Person) (o : DocOracle)
        (s : List Document → Nat → List Document) (lp : Document → String × String)
        (dteams : List String) (peopleBy : String → List Person) (docTarget : Nat),
      SampleSpec ps → SampleSpec ms → ChooseSpec cp → DocOracleSpec o →
      1 ≤ mc → mc ≤ (generatePeople teams demos draw n).length →
      (∀ team : String, ∀ p ∈ peopleBy team,
        p ∈ orgPipeline teams demos draw n mc ps ms cp) →
      (∀ q ∈ orgPipeline teams demos draw n mc ps ms cp, ∀ m,
        q.manager_id = some m →
          (∃ q2 ∈ orgPipeline teams demos draw n mc ps ms cp, q2.person_id = m) ∧
            m ≠ q.person_id) ∧
        (ensureReferentialIntegrity (pipelineRegistry
            (orgPipeline teams demos draw n mc ps ms cp)
            (documentBuilder o s lp dteams peopleBy docTarget))).errors = []) ∧
      (∀ (r : Registry) (did bad : String) (d : Document),
        (r.documents.map Prod.fst).Nodup → lookupA r.documents did = some d →
        (ensureReferentialIntegrity r).errors = [] →
        containsKey r.people bad = false →
        (ensureReferentialIntegrity (corruptAuthor r did bad)).errors
          = [authorErrMsg d.doc_id bad]) := by
  constructor
  · intro teams demos draw n mc ps ms cp o s lp dteams peopleBy docTarget
      hps hms hcp hos hmc1 hmcN hpbsub
    have hnd := generatePeople_pids_nodup teams demos draw n
    have hnone := generatePeople_mgrNone teams demos draw n
    have hresolve := assignManagers_resolve mc ps ms cp
      (generatePeople teams demos draw n) hps hms hcp hmc1 hmcN hnd hnone
    refine ⟨hresolve, ?_⟩
    apply ensure_errors_nil
    · -- person references
      intro p hpmem m hm
      have hppl : (pipelineRegistry (orgPipeline teams demos draw n mc ps ms cp)
          (documentBuilder o s lp dteams peopleBy docTarget)).people
          = (registerPeople {} (orgPipeline teams demos draw n mc ps ms cp)).people :=
        registerDocuments_people _ _
      rw [hppl] at hpmem ⊢
      have hp2 := registerPeople_people_vals {} _ p hpmem
      rcases hp2 with h | h
      · cases h
      · have := (hresolve p h m hm).1
        rcases this with ⟨q2, hq2, hq2id⟩
        rw [registerPeople_people_keys]
        right
        rw [← hq2id]
        exact List.mem_map_of_mem _ hq2
    · -- document references
      intro dd hddm
      have hdocsub := registerDocuments_docs_vals
        (registerPeople {} (orgPipeline teams demos draw n mc ps ms cp)) _ dd hddm
      have hbase : (registerPeople {}
          (orgPipeline teams demos draw n mc ps ms cp)).documents = [] :=
        registerPeople_documents _ _
      rw [hbase] at hdocsub
      rcases hdocsub with h | h
      · cases h
      · rcases markNonEnglish_core_fields s lp _ dd h with
          ⟨d0, hd0, hid, hteam, hauth, hco, hrel⟩
        have hfacts := genDocsAux_authors o hos peopleBy docTarget dteams.length
          dteams 0 0 d0 hd0
        have hppl : (pipelineRegistry (orgPipeline teams demos draw n mc ps ms cp)
            (documentBuilder o s lp dteams peopleBy docTarget)).people
            = (registerPeople {} (orgPipeline teams demos draw n mc ps ms cp)).people :=
          registerDocuments_people _ _
        constructor
        · rcases hfacts.1 with ⟨p, hp, hpid⟩
          rw [hppl, registerPeople_people_keys]
          right
          rw [hauth, ← hpid]
          exact List.mem_map_of_mem _ (hpbsub _ p hp)
        · intro c hcmem
          rw [hco] at hcmem
          rcases hfacts.2 c hcmem with ⟨p, hp, hpid⟩
          rw [hppl, registerPeople_people_keys]
          right
          rw [← hpid]
          exact List.mem_map_of_mem _ (hpbsub _ p hp)
  · intro r did bad d hndk hlook hclean hbad
    exact ensure_errors_corrupt r did bad d hndk hlook hclean hbad

/-- Concrete one-person one-document registry for the witness. -/
def c3Reg : Registry :=
  { people := [("P_001",
      { person_id := "P_001", full_name := "Maya Chen",
        email := "maya.chen@technova.com", role_title := "Product Manager",
        team := "Product" })]
    documents := [("DOC_001",
      { doc_id := "DOC_001", title := "PRD: Onboarding", content := "content",
        team := "Product", author_person_id := "P_001" })] }

/-- C3 witness: the corruption branch of the theorem applied to a
concrete clean registry. -/
theorem C3_referential_integrity_witness :
    ((c3Reg.documents.map Prod.fst).Nodup ∧
        (ensureReferentialIntegrity c3Reg).errors = [] ∧
        containsKey c3Reg.people "P_999" = false) ∧
      (ensureReferentialIntegrity (corruptAuthor c3Reg "DOC_001" "P_999")).errors
        = [authorErrMsg "DOC_001" "P_999"] :=
  ⟨⟨by decide, by decide, by decide⟩,
    C3_referential_integrity.2 c3Reg "DOC_001" "P_999"
      { doc_id := "DOC_001", title := "PRD: Onboarding", content := "content",
        team := "Product", author_person_id := "P_001" }
      (by decide) (by decide) (by decide) (by decide)⟩

/-! ### Communication builder (`generators/communication.py`).  Message
text, emotion tables, mention/doc-ref/action-item rolls are pure
functions of random draws and never feed back into timestamps or
counts, so they are supplied by oracles; ids, timestamps, participant
selection and the fixed-count anomaly generators follow the source. -/

/-- Python `s.lower()` as a string. -/
def strLower (s : String) : String := ⟨lowerChars s⟩

/-- Python `s.replace(a, b)` for single characters. -/
def strReplaceChar (s : String) (a b : Char) : String :=
  ⟨s.data.map (fun c => if c = a then b else c)⟩

/-- The shared message loop: message `i` is stamped with the current
time, then the time advances by the drawn gap.  `mkId` renders the
per-builder message counter, `mBase` its running value. -/
def mkMessagesAux (mkId : Nat → String) (thId : String)
    (sender : Nat → String) (text : Nat → String) (emo : Nat → String)
    (mentions : Nat → List String) (docRefs : Nat → List String)
    (actions : Nat → List String) (gap : Nat → Nat) :
    Nat → Nat → Nat → Nat → List ChatMessage
  | 0, _, _, _ => []
  | cnt + 1, i, t, mBase =>
      { message_id := mkId (mBase + 1)
        thread_id := thId
        sender_person_id := sender i
        timestamp := t
        text := text i
        emotions := emo i
        mentions := mentions i
        doc_refs := docRefs i
        action_items := actions i } ::
        mkMessagesAux mkId thId sender text emo mentions docRefs actions gap
          cnt (i + 1) (t + gap i) (mBase + 1)

theorem mkMessagesAux_head_time (mkId : Nat → String) (thId : String)
    (sender text emo : Nat → String) (mentions docRefs actions : Nat → List String)
    (gap : Nat → Nat) : ∀ (cnt i t mBase : Nat) (msg : ChatMessage),
    (mkMessagesAux mkId thId sender text emo mentions docRefs actions gap
      cnt i t mBase).head? = some msg → msg.timestamp = t := by
  intro cnt
  cases cnt with
  | zero => intro i t mBase msg h; cases h
  | succ cnt =>
    intro i t mBase msg h
    cases h
    rfl

/-- Timestamps in one thread's message loop are strictly increasing
whenever every drawn gap is at least one minute. -/
theorem mkMessagesAux_strict_mono (mkId : Nat → String) (thId : String)
    (sender text emo : Nat → String) (mentions docRefs actions : Nat → List String)
    (gap : Nat → Nat) (hgap : ∀ j, 1 ≤ gap j) :
    ∀ (cnt i t mBase : Nat),
    List.Chain' (fun a b => a.timestamp < b.timestamp)
      (mkMessagesAux mkId thId sender text emo mentions docRefs actions gap
        cnt i t mBase) := by
  intro cnt
  induction cnt with
  | zero => intro i t mBase; exact List.chain'_nil
  | succ cnt ih =>
    intro i t mBase
    show List.Chain' (fun a b => a.timestamp < b.timestamp)
      ({ message_id := mkId (mBase + 1), thread_id := thId,
         sender_person_id := sender i, timestamp := t, text := text i,
         emotions := emo i, mentions := mentions i, doc_refs := docRefs i,
         action_items := actions i } ::
        mkMessagesAux mkId thId sender text emo mentions docRefs actions gap
          cnt (i + 1) (t + gap i) (mBase + 1))
    rw [List.chain'_cons']
    constructor
    · intro msg hmsg
      have := mkMessagesAux_head_time mkId thId sender text emo mentions docRefs
        actions gap cnt (i + 1) (t + gap i) (mBase + 1) msg hmsg
      have hg := hgap i
      simp only [this]
      show t < t + gap i
      omega
    · exact ih (i + 1) (t + gap i) (mBase + 1)

/-- Message ids produced by one run of the loop: the next `cnt` counter
values after `mBase`. -/
theorem mkMessagesAux_ids (mkId : Nat → String) (thId : String)
    (sender text emo : Nat → String) (mentions docRefs actions : Nat → List String)
    (gap : Nat → Nat) : ∀ (cnt i t mBase : Nat),
    (mkMessagesAux mkId thId sender text emo mentions docRefs actions gap
      cnt i t mBase).map ChatMessage.message_id
      = (List.range cnt).map (fun j => mkId (mBase + j + 1)) := by
  intro cnt
  induction cnt with
  | zero => intro i t mBase; rfl
  | succ cnt ih =>
    intro i t mBase
    show mkId (mBase + 1) ::
        (mkMessagesAux mkId thId sender text emo mentions docRefs actions gap
          cnt (i + 1) (t + gap i) (mBase + 1)).map ChatMessage.message_id
      = (List.range (cnt + 1)).map (fun j => mkId (mBase + j + 1))
    rw [ih, List.range_succ_eq_map, List.map_cons, List.map_map]
    have hhead : mkId (mBase + 1) = mkId (mBase + 0 + 1) := by norm_num
    have htail : ∀ j ∈ List.range cnt,
        ((fun j => mkId (mBase + j + 1)) ∘ Nat.succ) j
          = (fun j => mkId (mBase + 1 + j + 1)) j := by
      intro j _
      simp only [Function.comp_apply]
      congr 1
      omega
    rw [List.map_congr_left htail, hhead]

/-- Per-thread draws for the frequency-weighted channel loop. -/
structure ThreadDraw where
  channel : String
  topicTags : List String
  createdAt : Nat
  participants : List Person
  msgCount : Nat

/-- `_create_thread`: ids are `f"T_{counter:03d}"` from the shared
thread counter. -/
def mkRegularThread (td : Nat → ThreadDraw) (k : Nat) : ChatThread :=
  { thread_id := "T_" ++ padStr 3 (k + 1)
    channel := (td k).channel
    topic_tags := (td k).topicTags
    created_at := (td k).createdAt
    participants := ((td k).participants).map Person.person_id }

/-- The frequency-weighted thread loop of `generate()`: `total` is the
sum of the per-channel-type counts (computed from float weights in the
source); each thread gets `msgCount` messages with 1-30 minute gaps. -/
def genRegularAux (td : Nat → ThreadDraw) (sender : Nat → Nat → String)
    (text emo : Nat → Nat → String)
    (mentions docRefs actions : Nat → Nat → List String) (gap : Nat → Nat → Nat) :
    Nat → Nat → Nat → List (ChatThread × List ChatMessage)
  | _, 0, _ => []
  | k, r + 1, mb =>
      (mkRegularThread td k,
        mkMessagesAux (fun n => "M_" ++ padStr 4 n) ("T_" ++ padStr 3 (k + 1))
          (sender k) (text k) (emo k) (mentions k) (docRefs k) (actions k) (gap k)
          (td k).msgCount 0 (td k).createdAt mb) ::
        genRegularAux td sender text emo mentions docRefs actions gap
          (k + 1) r (mb + (td k).msgCount)

/-- The 25 predefined duplicate-discussion topics
(`_generate_duplicate_discussions`). -/
def dupTopics : List String :=
  ["customer churn analysis", "onboarding optimization", "pricing review",
   "performance metrics", "security audit", "API integration", "data migration",
   "user feedback analysis", "system monitoring", "cost optimization",
   "feature prioritization", "compliance review", "infrastructure upgrade",
   "market research", "competitive analysis", "user experience study",
   "budget planning", "risk assessment", "process improvement",
   "team restructuring", "training program", "vendor evaluation",
   "product roadmap", "customer support", "quality assurance"]

/-- The fixed duplicate-discussion message text. -/
def dupMessageText (topic : String) : String :=
  "We need to analyze " ++ topic ++ " for our team. Has anyone started on this?"

/-- Random draws of the duplicate-discussion generator, indexed by topic
and by which of the two sampled teams. -/
structure DupOracle where
  teamsPick : Nat → List String
  startT : Nat → Nat → Nat
  partPick : Nat → Nat → List Person → List Person
  msgCount : Nat → Nat → Nat
  sender : Nat → Nat → Nat → String
  gap : Nat → Nat → Nat → Nat

/-- One team's duplicate thread: built only when the team has people;
the thread id is `T_DUP_{len(duplicate_threads)+1:03d}` at append time
and messages continue the builder-wide `M_DUP_` counter. -/
def genDupStep (peopleBy : String → List Person) (o : DupOracle)
    (tIdx side : Nat) (topic team : String)
    (acc : List ChatThread × List ChatMessage) :
    List ChatThread × List ChatMessage :=
  if (peopleBy team).isEmpty then acc
  else
    (acc.1 ++ [{ thread_id := "T_DUP_" ++ padStr 3 (acc.1.length + 1)
                 channel := strLower team ++ "-" ++ strReplaceChar topic ' ' '-'
                 topic_tags := [strLower team, strReplaceChar topic ' ' '_']
                 created_at := o.startT tIdx side
                 participants := (o.partPick tIdx side (peopleBy team)).map
                   Person.person_id }],
      acc.2 ++ mkMessagesAux (fun n => "M_DUP_" ++ padStr 4 n)
        ("T_DUP_" ++ padStr 3 (acc.1.length + 1)) (o.sender tIdx side)
        (fun _ => dupMessageText topic) (fun _ => "confused") (fun _ => [])
        (fun _ => [])
        (fun _ => ["Research " ++ topic, "Create " ++ topic ++ " plan"])
        (o.gap tIdx side) (o.msgCount tIdx side) 0 (o.startT tIdx side)
        acc.2.length)

/-- The topic loop of `_generate_duplicate_discussions`: two threads per
topic, in the two sampled teams. -/
def genDupAux (peopleBy : String → List Person) (o : DupOracle) :
    List String → Nat → List ChatThread × List ChatMessage →
      List ChatThread × List ChatMessage
  | [], _, acc => acc
  | topic :: rest, tIdx, acc =>
      genDupAux peopleBy o rest (tIdx + 1)
        (genDupStep peopleBy o tIdx 1 topic ((o.teamsPick tIdx).getD 1 "")
          (genDupStep peopleBy o tIdx 0 topic ((o.teamsPick tIdx).getD 0 "") acc))

/-- `_generate_duplicate_discussions()`. -/
def genDuplicateDiscussions (peopleBy : String → List Person) (o : DupOracle) :
    List ChatThread × List ChatMessage :=
  genDupAux peopleBy o dupTopics 0 ([], [])

/-- The fixed emotional scenario table (emotion, topic, intensity). -/
def emoScenarios : List (String × String × String) :=
  [("frustrated", "deployment failure", "high"),
   ("frustrated", "system outage", "high"),
   ("confused", "unclear requirements", "medium"),
   ("confused", "conflicting priorities", "medium"),
   ("urgent", "security breach", "critical"),
   ("urgent", "customer complaint", "high"),
   ("frustrated", "budget cuts", "medium"),
   ("confused", "process changes", "low")]

/-- The escalation schedule of `_generate_emotional_threads`: scenario
emotion for the first two messages, escalation toward
frustrated/urgent in the middle, calm resolution at the end. -/
def emoAt (scenEmotion : String) (j : Nat) : String :=
  if j < 2 then scenEmotion
  else if j < 5 then (if scenEmotion ≠ "frustrated" then "frustrated" else "urgent")
  else "calm"

/-- Random draws of the emotional-thread generator. -/
structure EmoOracle where
  scen : Nat → String × String × String
  startT : Nat → Nat
  parts : Nat → List Person
  msgCount : Nat → Nat
  sender : Nat → Nat → String
  text : Nat → Nat → String
  gap : Nat → Nat → Nat

/-- The thread loop of `_generate_emotional_threads`: ids are
`T_EMO_{i+1:03d}`, messages continue the `M_EMO_` counter, and emotion
escalates with the message index. -/
def genEmoAux (o : EmoOracle) : Nat → Nat → Nat →
    List ChatThread × List ChatMessage
  | _, 0, _ => ([], [])
  | i, r + 1, mb =>
      ((({ thread_id := "T_EMO_" ++ padStr 3 (i + 1)
           channel := "incident-" ++ strReplaceChar (o.scen i).2.1 ' ' '-'
           topic_tags := ["incident", strReplaceChar (o.scen i).2.1 ' ' '_']
           created_at := o.startT i
           participants := (o.parts i).map Person.person_id } : ChatThread) ::
          (genEmoAux o (i + 1) r (mb + o.msgCount i)).1),
        (mkMessagesAux (fun n => "M_EMO_" ++ padStr 4 n)
          ("T_EMO_" ++ padStr 3 (i + 1)) (o.sender i) (o.text i)
          (emoAt (o.scen i).1) (fun _ => []) (fun _ => []) (fun _ => [])
          (o.gap i) (o.msgCount i) 0 (o.startT i) mb) ++
          (genEmoAux o (i + 1) r (mb + o.msgCount i)).2)

/-- `_generate_emotional_threads()`: exactly 20 iterations. -/
def genEmotionalThreads (o : EmoOracle) : List ChatThread × List ChatMessage :=
  genEmoAux o 0 20 0

/-! ### Facts about the communication builder -/

theorem mkMessagesAux_thread (mkId : Nat → String) (thId : String)
    (sender text emo : Nat → String) (mentions docRefs actions : Nat → List String)
    (gap : Nat → Nat) : ∀ (cnt i t mBase : Nat),
    ∀ m ∈ mkMessagesAux mkId thId sender text emo mentions docRefs actions gap
      cnt i t mBase, m.thread_id = thId := by
  intro cnt
  induction cnt with
  | zero => intro i t mBase m hm; cases hm
  | succ cnt ih =>
    intro i t mBase m hm
    rcases List.mem_cons.mp hm with h | h
    · rw [h]
    · exact ih (i + 1) (t + gap i) (mBase + 1) m h

/-- Sequential duplicate-thread ids: the ids of the accumulated thread
list are exactly `T_DUP_001 .. T_DUP_{len}`. -/
def DupIds (l : List ChatThread) : Prop :=
  l.map ChatThread.thread_id
    = (List.range l.length).map (fun j => "T_DUP_" ++ padStr 3 (j + 1))

theorem dupIds_nil : DupIds [] := rfl

theorem dupIds_append (l : List ChatThread) (th : ChatThread) (h : DupIds l)
    (hid : th.thread_id = "T_DUP_" ++ padStr 3 (l.length + 1)) :
    DupIds (l ++ [th]) := by
  unfold DupIds at h ⊢
  rw [List.map_append, List.length_append, h]
  simp only [List.map_cons, List.map_nil, List.length_cons, List.length_nil]
  rw [show l.length + (0 + 1) = l.length + 1 from by omega, List.range_succ,
    List.map_append]
  simp [hid]

theorem dupIds_not_mem (l : List ChatThread) (h : DupIds l) :
    ¬ ("T_DUP_" ++ padStr 3 (l.length + 1)) ∈ l.map ChatThread.thread_id := by
  rw [h]
  intro hc
  rcases List.mem_map.mp hc with ⟨j, hj, hje⟩
  have hj2 := List.mem_range.mp hj
  have := counterId_injective "T_DUP_" 3 hje
  omega

theorem genDupStep_cases (peopleBy : String → List Person) (o : DupOracle)
    (tIdx side : Nat) (topic team : String)
    (acc : List ChatThread × List ChatMessage) :
    genDupStep peopleBy o tIdx side topic team acc = acc ∨
    ((genDupStep peopleBy o tIdx side topic team acc).1.length = acc.1.length + 1 ∧
      ¬ (peopleBy team).isEmpty) := by
  unfold genDupStep
  split
  · exact Or.inl rfl
  · next h =>
    refine Or.inr ⟨?_, h⟩
    simp

/-- The per-thread message chunks of the duplicate generator keep the
whole flat message list strictly ordered per thread: invariant carried
through the topic loop. -/
def DupInv (acc : List ChatThread × List ChatMessage) : Prop :=
  DupIds acc.1 ∧
    (∀ m ∈ acc.2, m.thread_id ∈ acc.1.map ChatThread.thread_id) ∧
    (∀ th ∈ acc.1, List.Chain' (fun a b => a.timestamp < b.timestamp)
      (acc.2.filter (fun m => m.thread_id == th.thread_id)))

theorem filter_eq_self_of_all {α : Type} (l : List α) (f : α → Bool)
    (h : ∀ x ∈ l, f x = true) : l.filter f = l :=
  List.filter_eq_self.mpr h

theorem filter_eq_nil_of_none {α : Type} (l : List α) (f : α → Bool)
    (h : ∀ x ∈ l, f x = false) : l.filter f = [] := by
  induction l with
  | nil => rfl
  | cons a t ih =>
    rw [List.filter_cons, h a (List.mem_cons_self _ _)]
    exact ih (fun x hx => h x (List.mem_cons_of_mem _ hx))

theorem genDupStep_inv (peopleBy : String → List Person) (o : DupOracle)
    (tIdx side : Nat) (topic team : String)
    (acc : List ChatThread × List ChatMessage)
    (hgap : ∀ a b j, 1 ≤ o.gap a b j) (hinv : DupInv acc) :
    DupInv (genDupStep peopleBy o tIdx side topic team acc) := by
  unfold genDupStep
  split
  · exact hinv
  · rcases hinv with ⟨hids, hcover, hchain⟩
    refine ⟨?_, ?_, ?_⟩
    · exact dupIds_append _ _ hids rfl
    · intro m hm
      rcases List.mem_append.mp hm with h | h
      · rw [List.map_append]
        exact List.mem_append.mpr (Or.inl (hcover m h))
      · have := mkMessagesAux_thread (fun n => "M_DUP_" ++ padStr 4 n)
          ("T_DUP_" ++ padStr 3 (acc.1.length + 1)) _ _ _ _ _ _ _ _ _ _ _ m h
        rw [this, List.map_append]
        refine List.mem_append.mpr (Or.inr ?_)
        simp
    · intro th hth
      rcases List.mem_append.mp hth with h | h
      · -- an old thread: the new chunk contributes nothing
        have hne : ∀ m ∈ mkMessagesAux (fun n => "M_DUP_" ++ padStr 4 n)
            ("T_DUP_" ++ padStr 3 (acc.1.length + 1)) (o.sender tIdx side)
            (fun _ => dupMessageText topic) (fun _ => "confused") (fun _ => [])
            (fun _ => [])
            (fun _ => ["Research " ++ topic, "Create " ++ topic ++ " plan"])
            (o.gap tIdx side) (o.msgCount tIdx side) 0 (o.startT tIdx side)
            acc.2.length,
            (m.thread_id == th.thread_id) = false := by
          intro m hm
          have hmid := mkMessagesAux_thread (fun n => "M_DUP_" ++ padStr 4 n)
            ("T_DUP_" ++ padStr 3 (acc.1.length + 1)) _ _ _ _ _ _ _ _ _ _ _ m hm
          rw [hmid]
          have hthm : th.thread_id ∈ acc.1.map ChatThread.thread_id :=
            List.mem_map_of_mem _ h
          have hnm := dupIds_not_mem acc.1 hids
          rw [beq_eq_false_iff_ne]
          intro hc
          rw [hc] at hnm
          exact hnm hthm
        rw [List.filter_append, filter_eq_nil_of_none _ _ hne, List.append_nil]
        exact hchain th h
      · -- the new thread: exactly the new chunk remains
        have hthid : th.thread_id = "T_DUP_" ++ padStr 3 (acc.1.length + 1) := by
          rcases List.mem_cons.mp h with h2 | h2
          · rw [h2]
          · cases h2
        have hold : ∀ m ∈ acc.2, (m.thread_id == th.thread_id) = false := by
          intro m hm
          rw [beq_eq_false_iff_ne, hthid]
          intro hc
          have := hcover m hm
          rw [hc] at this
          exact dupIds_not_mem acc.1 hids this
        have hnew : ∀ m ∈ mkMessagesAux (fun n => "M_DUP_" ++ padStr 4 n)
            ("T_DUP_" ++ padStr 3 (acc.1.length + 1)) (o.sender tIdx side)
            (fun _ => dupMessageText topic) (fun _ => "confused") (fun _ => [])
            (fun _ => [])
            (fun _ => ["Research " ++ topic, "Create " ++ topic ++ " plan"])
            (o.gap tIdx side) (o.msgCount tIdx side) 0 (o.startT tIdx side)
            acc.2.length,
            (m.thread_id == th.thread_id) = true := by
          intro m hm
          have hmid := mkMessagesAux_thread (fun n => "M_DUP_" ++ padStr 4 n)
            ("T_DUP_" ++ padStr 3 (acc.1.length + 1)) _ _ _ _ _ _ _ _ _ _ _ m hm
          rw [hmid, hthid]
          simp
        rw [List.filter_append, filter_eq_nil_of_none _ _ hold,
          filter_eq_self_of_all _ _ hnew, List.nil_append]
        exact mkMessagesAux_strict_mono _ _ _ _ _ _ _ _ _ (hgap tIdx side) _ _ _ _

theorem genDupAux_inv (peopleBy : String → List Person) (o : DupOracle)
    (hgap : ∀ a b j, 1 ≤ o.gap a b j) :
    ∀ (topics : List String) (tIdx : Nat) (acc : List ChatThread × List ChatMessage),
    DupInv acc → DupInv (genDupAux peopleBy o topics tIdx acc) := by
  intro topics
  induction topics with
  | nil => intro tIdx acc h; exact h
  | cons topic rest ih =>
    intro tIdx acc h
    exact ih (tIdx + 1) _
      (genDupStep_inv peopleBy o tIdx 1 topic _ _ hgap
        (genDupStep_inv peopleBy o tIdx 0 topic _ _ hgap h))

theorem genDupStep_len (peopleBy : String → List Person) (o : DupOracle)
    (tIdx side : Nat) (topic team : String)
    (acc : List ChatThread × List ChatMessage) (h : peopleBy team ≠ []) :
    (genDupStep peopleBy o tIdx side topic team acc).1.length
      = acc.1.length + 1 := by
  unfold genDupStep
  rw [if_neg (by simpa [List.isEmpty_iff] using h)]
  simp

/-- Each topic contributes exactly two threads when both sampled teams
have people. -/
theorem genDupAux_len (peopleBy : String → List Person) (o : DupOracle)
    (cfgTeams : List String) (hteams : ∀ team ∈ cfgTeams, peopleBy team ≠ [])
    (hpick : ∀ i, (o.teamsPick i).length = 2 ∧ ∀ tt ∈ o.teamsPick i, tt ∈ cfgTeams) :
    ∀ (topics : List String) (tIdx : Nat) (acc : List ChatThread × List ChatMessage),
    (genDupAux peopleBy o topics tIdx acc).1.length
      = acc.1.length + 2 * topics.length := by
  intro topics
  induction topics with
  | nil => intro tIdx acc; simp [genDupAux]
  | cons topic rest ih =>
    intro tIdx acc
    have hmem : ∀ side, side < 2 → (o.teamsPick tIdx).getD side "" ∈ cfgTeams := by
      intro side hside
      refine (hpick tIdx).2 _ ?_
      have hlen : side < (o.teamsPick tIdx).length := by
        rw [(hpick tIdx).1]
        exact hside
      rw [List.getD_eq_getElem _ _ hlen]
      exact List.getElem_mem hlen
    have h0 := genDupStep_len peopleBy o tIdx 0 topic _ acc
      (hteams _ (hmem 0 (by omega)))
    have h1 := genDupStep_len peopleBy o tIdx 1 topic _
      (genDupStep peopleBy o tIdx 0 topic ((o.teamsPick tIdx).getD 0 "") acc)
      (hteams _ (hmem 1 (by omega)))
    show (genDupAux peopleBy o rest (tIdx + 1) _).1.length = _
    rw [ih (tIdx + 1) _, h1, h0, List.length_cons]
    omega

/-! Emotional threads: id layout, per-thread chain, fixed count. -/

theorem genEmoAux_len (o : EmoOracle) : ∀ (r i mb : Nat),
    (genEmoAux o i r mb).1.length = r := by
  intro r
  induction r with
  | zero => intro i mb; rfl
  | succ r ih =>
    intro i mb
    show ((_ : ChatThread) :: (genEmoAux o (i + 1) r (mb + o.msgCount i)).1).length = r + 1
    rw [List.length_cons, ih]

theorem genEmoAux_thread_ids (o : EmoOracle) : ∀ (r i mb : Nat),
    ((genEmoAux o i r mb).1).map ChatThread.thread_id
      = (List.range r).map (fun j => "T_EMO_" ++ padStr 3 (i + j + 1)) := by
  intro r
  induction r with
  | zero => intro i mb; rfl
  | succ r ih =>
    intro i mb
    show ("T_EMO_" ++ padStr 3 (i + 1)) ::
        ((genEmoAux o (i + 1) r (mb + o.msgCount i)).1).map ChatThread.thread_id = _
    rw [ih, List.range_succ_eq_map, List.map_cons, List.map_map]
    have htail : ∀ j ∈ List.range r,
        ((fun j => "T_EMO_" ++ padStr 3 (i + j + 1)) ∘ Nat.succ) j
          = (fun j => "T_EMO_" ++ padStr 3 (i + 1 + j + 1)) j := by
      intro j _
      simp only [Function.comp_apply]
      congr 2
      omega
    rw [List.map_congr_left htail]

theorem genEmoAux_msg_thread (o : EmoOracle) : ∀ (r i mb : Nat),
    ∀ m ∈ (genEmoAux o i r mb).2, ∃ j, j < r ∧
      m.thread_id = "T_EMO_" ++ padStr 3 (i + j + 1) := by
  intro r
  induction r with
  | zero => intro i mb m hm; cases hm
  | succ r ih =>
    intro i mb m hm
    rcases List.mem_append.mp hm with h | h
    · refine ⟨0, by omega, ?_⟩
      have := mkMessagesAux_thread (fun n => "M_EMO_" ++ padStr 4 n)
        ("T_EMO_" ++ padStr 3 (i + 1)) _ _ _ _ _ _ _ _ _ _ _ m h
      rw [this]
    · rcases ih (i + 1) (mb + o.msgCount i) m h with ⟨j, hj, hje⟩
      refine ⟨j + 1, by omega, ?_⟩
      rw [hje]
      congr 2
      omega

/-- Per-thread strict message ordering for the emotional generator. -/
theorem genEmoAux_chain (o : EmoOracle) (hgap : ∀ a j, 1 ≤ o.gap a j) :
    ∀ (r i mb : Nat), ∀ th ∈ (genEmoAux o i r mb).1,
    List.Chain' (fun a b => a.timestamp < b.timestamp)
      ((genEmoAux o i r mb).2.filter (fun m => m.thread_id == th.thread_id)) := by
  intro r
  induction r with
  | zero => intro i mb th hth; cases hth
  | succ r ih =>
    intro i mb th hth
    show List.Chain' _
      ((mkMessagesAux (fun n => "M_EMO_" ++ padStr 4 n)
          ("T_EMO_" ++ padStr 3 (i + 1)) (o.sender i) (o.text i)
          (emoAt (o.scen i).1) (fun _ => []) (fun _ => []) (fun _ => [])
          (o.gap i) (o.msgCount i) 0 (o.startT i) mb ++
        (genEmoAux o (i + 1) r (mb + o.msgCount i)).2).filter
        (fun m => m.thread_id == th.thread_id))
    rw [List.filter_append]
    rcases List.mem_cons.mp hth with h | h
    · -- the head thread: its chunk matches, later chunks do not
      have hthid : th.thread_id = "T_EMO_" ++ padStr 3 (i + 1) := by rw [h]
      have hnew : ∀ m ∈ mkMessagesAux (fun n => "M_EMO_" ++ padStr 4 n)
          ("T_EMO_" ++ padStr 3 (i + 1)) (o.sender i) (o.text i)
          (emoAt (o.scen i).1) (fun _ => []) (fun _ => []) (fun _ => [])
          (o.gap i) (o.msgCount i) 0 (o.startT i) mb,
          (m.thread_id == th.thread_id) = true := by
        intro m hm
        have := mkMessagesAux_thread (fun n => "M_EMO_" ++ padStr 4 n)
          ("T_EMO_" ++ padStr 3 (i + 1)) _ _ _ _ _ _ _ _ _ _ _ m hm
        rw [this, hthid]
        simp
      have hrest : ∀ m ∈ (genEmoAux o (i + 1) r (mb + o.msgCount i)).2,
          (m.thread_id == th.thread_id) = false := by
        intro m hm
        rcases genEmoAux_msg_thread o r (i + 1) (mb + o.msgCount i) m hm with
          ⟨j, hj, hje⟩
        rw [beq_eq_false_iff_ne, hje, hthid]
        intro hc
        have := counterId_injective "T_EMO_" 3 hc
        omega
      rw [filter_eq_self_of_all _ _ hnew, filter_eq_nil_of_none _ _ hrest,
        List.append_nil]
      exact mkMessagesAux_strict_mono _ _ _ _ _ _ _ _ _ (hgap i) _ _ _ _
    · -- a later thread: the head chunk contributes nothing
      have hthid : ∃ j, j < r ∧ th.thread_id = "T_EMO_" ++ padStr 3 (i + 1 + j + 1) := by
        have hids := genEmoAux_thread_ids o r (i + 1) (mb + o.msgCount i)
        have : th.thread_id ∈ ((genEmoAux o (i + 1) r (mb + o.msgCount i)).1).map
            ChatThread.thread_id := List.mem_map_of_mem _ h
        rw [hids] at this
        rcases List.mem_map.mp this with ⟨j, hj, hje⟩
        exact ⟨j, List.mem_range.mp hj, hje.symm⟩
      have hold : ∀ m ∈ mkMessagesAux (fun n => "M_EMO_" ++ padStr 4 n)
          ("T_EMO_" ++ padStr 3 (i + 1)) (o.sender i) (o.text i)
          (emoAt (o.scen i).1) (fun _ => []) (fun _ => []) (fun _ => [])
          (o.gap i) (o.msgCount i) 0 (o.startT i) mb,
          (m.thread_id == th.thread_id) = false := by
        intro m hm
        have hmid := mkMessagesAux_thread (fun n => "M_EMO_" ++ padStr 4 n)
          ("T_EMO_" ++ padStr 3 (i + 1)) _ _ _ _ _ _ _ _ _ _ _ m hm
        rcases hthid with ⟨j, hj, hje⟩
        rw [beq_eq_false_iff_ne, hmid, hje]
        intro hc
        have := counterId_injective "T_EMO_" 3 hc
        omega
      rw [filter_eq_nil_of_none _ _ hold, List.nil_append]
      exact ih (i + 1) (mb + o.msgCount i) th h

/-! Regular frequency-weighted threads: per-thread chain. -/

theorem genRegularAux_chain (td : Nat → ThreadDraw) (sender : Nat → Nat → String)
    (text emo : Nat → Nat → String)
    (mentions docRefs actions : Nat → Nat → List String) (gap : Nat → Nat → Nat)
    (hgap : ∀ k j, 1 ≤ gap k j) : ∀ (r k mb : Nat),
    ∀ pr ∈ genRegularAux td sender text emo mentions docRefs actions gap k r mb,
    List.Chain' (fun a b => a.timestamp < b.timestamp) pr.2 := by
  intro r
  induction r with
  | zero => intro k mb pr hpr; cases hpr
  | succ r ih =>
    intro k mb pr hpr
    rcases List.mem_cons.mp hpr with h | h
    · rw [h]
      exact mkMessagesAux_strict_mono _ _ _ _ _ _ _ _ _ (hgap k) _ _ _ _
    · exact ih (k + 1) (mb + (td k).msgCount) pr h

/-! ### Claim C4: strictly increasing message timestamps per thread -/

/-- C4: in every generated chat thread of all three kinds -
frequency-weighted threads (1-30 minute gaps), duplicate-discussion
threads (5-30 minute gaps) and emotional threads (2-15 minute gaps) -
message timestamps are strictly increasing in generation order, because
every drawn gap is at least one minute. -/
theorem C4_strict_message_order :
    (∀ (td : Nat → ThreadDraw) (sender : Nat → Nat → String)
        (text emo : Nat → Nat → String)
        (mentions docRefs actions : Nat → Nat → List String)
        (gap : Nat → Nat → Nat) (r k mb : Nat),
      (∀ k2 j, 1 ≤ gap k2 j ∧ gap k2 j ≤ 30) →
      ∀ pr ∈ genRegularAux td sender text emo mentions docRefs actions gap k r mb,
        List.Chain' (fun a b => a.timestamp < b.timestamp) pr.2) ∧
      (∀ (peopleBy : String → List Person) (o : DupOracle),
        (∀ a b j, 5 ≤ o.gap a b j ∧ o.gap a b j ≤ 30) →
        ∀ th ∈ (genDuplicateDiscussions peopleBy o).1,
          List.Chain' (fun a b => a.timestamp < b.timestamp)
            ((genDuplicateDiscussions peopleBy o).2.filter
              (fun m => m.thread_id == th.thread_id))) ∧
      (∀ o : EmoOracle, (∀ a j, 2 ≤ o.gap a j ∧ o.gap a j ≤ 15) →
        ∀ th ∈ (genEmotionalThreads o).1,
          List.Chain' (fun a b => a.timestamp < b.timestamp)
            ((genEmotionalThreads o).2.filter
              (fun m => m.thread_id == th.thread_id))) := by
  refine ⟨?_, ?_, ?_⟩
  · intro td sender text emo mentions docRefs actions gap r k mb hgap pr hpr
    exact genRegularAux_chain td sender text emo mentions docRefs actions gap
      (fun k2 j => (hgap k2 j).1) r k mb pr hpr
  · intro peopleBy o hgap th hth
    have hinv := genDupAux_inv peopleBy o
      (fun a b j => by have := (hgap a b j).1; omega)
      dupTopics 0 ([], [])
      ⟨dupIds_nil, (by intro m hm; cases hm), (by intro t ht; cases ht)⟩
    exact hinv.2.2 th hth
  · intro o hgap th hth
    exact genEmoAux_chain o (fun a j => by have := (hgap a j).1; omega)
      20 0 0 th hth

/-- Concrete thread draw for the C4 witness. -/
def c4Draw : Nat → ThreadDraw :=
  fun _ => { channel := "random", topicTags := ["random", "casual"],
             createdAt := 540, participants := [], msgCount := 3 }

/-- Concrete duplicate-discussion oracle for the C4 witness. -/
def c4DupOracle : DupOracle :=
  { teamsPick := fun _ => ["Marketing", "Product"]
    startT := fun _ _ => 540
    partPick := fun _ _ l => l.take 3
    msgCount := fun _ _ => 3
    sender := fun _ _ _ => "P_001"
    gap := fun _ _ _ => 5 }

/-- Concrete emotional-thread oracle for the C4 witness. -/
def c4EmoOracle : EmoOracle :=
  { scen := fun i => emoScenarios.getD (i % 8) ("calm", "incident", "low")
    startT := fun _ => 540
    parts := fun _ => []
    msgCount := fun _ => 5
    sender := fun _ _ => "P_001"
    text := fun _ _ => "t"
    gap := fun _ _ => 2 }

/-- C4 witness: the theorem applied to concrete constant-gap oracles. -/
theorem C4_strict_message_order_witness :
    ((∀ k2 j : Nat, 1 ≤ (fun _ _ => 1) k2 j ∧ (fun _ _ => (1 : Nat)) k2 j ≤ 30) ∧
        (∀ a b j : Nat, 5 ≤ c4DupOracle.gap a b j ∧ c4DupOracle.gap a b j ≤ 30) ∧
        (∀ a j : Nat, 2 ≤ c4EmoOracle.gap a j ∧ c4EmoOracle.gap a j ≤ 15)) ∧
      (∀ pr ∈ genRegularAux c4Draw (fun _ _ => "P_001") (fun _ _ => "t")
          (fun _ _ => "calm") (fun _ _ => []) (fun _ _ => []) (fun _ _ => [])
          (fun _ _ => 1) 0 4 0,
        List.Chain' (fun a b => a.timestamp < b.timestamp) pr.2) ∧
      (∀ th ∈ (genDuplicateDiscussions (fun _ => []) c4DupOracle).1,
        List.Chain' (fun a b => a.timestamp < b.timestamp)
          ((genDuplicateDiscussions (fun _ => []) c4DupOracle).2.filter
            (fun m => m.thread_id == th.thread_id))) ∧
      (∀ th ∈ (genEmotionalThreads c4EmoOracle).1,
        List.Chain' (fun a b => a.timestamp < b.timestamp)
          ((genEmotionalThreads c4EmoOracle).2.filter
            (fun m => m.thread_id == th.thread_id))) :=
  ⟨⟨(by intro k2 j; show 1 ≤ 1 ∧ 1 ≤ 30; omega),
      (by intro a b j; show 5 ≤ 5 ∧ 5 ≤ 30; omega),
      (by intro a j; show 2 ≤ 2 ∧ 2 ≤ 15; omega)⟩,
    C4_strict_message_order.1 c4Draw (fun _ _ => "P_001") (fun _ _ => "t")
      (fun _ _ => "calm") (fun _ _ => []) (fun _ _ => []) (fun _ _ => [])
      (fun _ _ => 1) 4 0 0 (by intro k2 j; show 1 ≤ 1 ∧ 1 ≤ 30; omega),
    C4_strict_message_order.2.1 (fun _ => []) c4DupOracle
      (by intro a b j; show 5 ≤ 5 ∧ 5 ≤ 30; omega),
    C4_strict_message_order.2.2 c4EmoOracle
      (by intro a j; show 2 ≤ 2 ∧ 2 ≤ 15; omega)⟩

/-! ### Claim C5: fixed anomaly-thread counts -/

/-- C5: the duplicate-discussion generator produces two threads for each
of its 25 predefined topics - 50 threads, i.e. 25 pairs - provided every
sampled team has at least one person, and the emotional generator always
produces exactly 20 threads; neither generator reads the configured
`chat_threads` target (neither takes it as an input), so the counts hold
for every configured target. -/
theorem C5_fixed_anomaly_counts (peopleBy : String → List Person) (o : DupOracle)
    (eo : EmoOracle) (cfgTeams : List String)
    (hteams : ∀ team ∈ cfgTeams, peopleBy team ≠ [])
    (hpick : ∀ i, (o.teamsPick i).length = 2 ∧
      ∀ tt ∈ o.teamsPick i, tt ∈ cfgTeams) :
    dupTopics.length = 25 ∧
      (genDuplicateDiscussions peopleBy o).1.length = 2 * dupTopics.length ∧
      (genEmotionalThreads eo).1.length = 20 := by
  refine ⟨rfl, ?_, genEmoAux_len eo 20 0 0⟩
  unfold genDuplicateDiscussions
  rw [genDupAux_len peopleBy o cfgTeams hteams hpick dupTopics 0 ([], [])]
  rfl

/-- Concrete oracles for the C5 witness: one person in each of two
teams. -/
def c5DupOracle : DupOracle :=
  { teamsPick := fun _ => ["Marketing", "Product"]
    startT := fun _ _ => 540
    partPick := fun _ _ l => l.take 3
    msgCount := fun _ _ => 3
    sender := fun _ _ _ => "P_001"
    gap := fun _ _ _ => 5 }

/-- Concrete emotional-thread oracle for the C5 witness. -/
def c5EmoOracle : EmoOracle :=
  { scen := fun i => emoScenarios.getD (i % 8) ("calm", "incident", "low")
    startT := fun _ => 540
    parts := fun _ => []
    msgCount := fun _ => 5
    sender := fun _ _ => "P_001"
    text := fun _ _ => "t"
    gap := fun _ _ => 2 }

/-- Constant people map for the C5 witness. -/
def c5PeopleBy : String → List Person :=
  fun _ =>
    [{ person_id := "P_001", full_name := "Rahul Sharma",
       email := "rahul.sharma@technova.com", role_title := "Marketing Analyst",
       team := "Marketing" }]

/-- C5 witness: the theorem applied to the concrete oracles; the
duplicate list has 50 threads and the emotional list 20. -/
theorem C5_fixed_anomaly_counts_witness :
    ((∀ team ∈ (["Marketing", "Product"] : List String), c5PeopleBy team ≠ []) ∧
        (∀ i : Nat, (c5DupOracle.teamsPick i).length = 2 ∧
          ∀ tt ∈ c5DupOracle.teamsPick i, tt ∈ (["Marketing", "Product"] : List String))) ∧
      (dupTopics.length = 25 ∧
        (genDuplicateDiscussions c5PeopleBy c5DupOracle).1.length = 2 * dupTopics.length ∧
        (genEmotionalThreads c5EmoOracle).1.length = 20) :=
  ⟨⟨by decide, (by intro i; exact ⟨rfl, fun tt htt => htt⟩)⟩,
    C5_fixed_anomaly_counts c5PeopleBy c5DupOracle c5EmoOracle
      ["Marketing", "Product"] (by decide)
      (by intro i; exact ⟨rfl, fun tt htt => htt⟩)⟩

/-! ### Knowledge-graph edge generation (`generators/knowledge_graph.py`,
`_generate_edges` / `_generate_random_edge`).  The eight deterministic
sub-generators produce an edge list from the registry; the claims here
concern only the padding/truncation logic, so their concatenated output
is a parameter (`subEdges`), quantified over all values it can take. -/

/-- One draw of `_generate_random_edge`: the weighted edge-type choice
(over the ten keys of `edge_type_weights`), the person and document
choices, the uniform weight draw and the timestamp draws. -/
structure EdgeDraw where
  ty : String
  pIdx : Nat
  dIdx : Nat
  weightDraw : Nat
  firstSeen : Nat
  lastDelta : Nat

/-- `_create_edge`: ids are `f"E_{counter:04d}"`. -/
def createEdge (counter : Nat) (ty srcTy srcId dstTy dstId : String)
    (w fs ld : Nat) (ev : String) : KnowledgeGraphEdge :=
  { edge_id := "E_" ++ padStr 4 counter
    edge_type := ty
    src_type := srcTy
    src_id := srcId
    dst_type := dstTy
    dst_id := dstId
    weight := w
    first_seen_at := fs
    last_seen_at := fs + ld
    evidence := ev }

/-- `_generate_random_edge()`: only the AUTHORED/VIEWED branches build
an edge, and only when both people and documents exist; every other
drawn edge type falls through to `None`. -/
def generateRandomEdge (personIds docIds : List String) (counter : Nat)
    (d : EdgeDraw) : Option KnowledgeGraphEdge :=
  if d.ty = "AUTHORED" ∨ d.ty = "VIEWED" then
    if personIds ≠ [] ∧ docIds ≠ [] then
      some (createEdge counter d.ty "PERSON"
        (personIds.getD (d.pIdx % personIds.length) "") "DOC"
        (docIds.getD (d.dIdx % docIds.length) "") d.weightDraw d.firstSeen
        d.lastDelta "Random relationship")
    else none
  else none

/-- The `while len(edges) < target` padding loop, one oracle draw per
iteration; exhausting the draw stream stands for non-termination. -/
def fillEdges (personIds docIds : List String) (target : Nat) :
    List EdgeDraw → List KnowledgeGraphEdge → Nat → Option (List KnowledgeGraphEdge)
  | [], edges, _ => if target ≤ edges.length then some edges else none
  | d :: rest, edges, c =>
    if target ≤ edges.length then some edges
    else
      match generateRandomEdge personIds docIds c d with
      | some e => fillEdges personIds docIds target rest (edges ++ [e]) (c + 1)
      | none => fillEdges personIds docIds target rest edges c

/-- `_generate_edges`: concatenated sub-generator output, padded to the
target with random filler edges, then truncated to exactly the target
(`edges[:target]`). -/
def generateEdges (personIds docIds : List String)
    (subEdges : List KnowledgeGraphEdge) (target : Nat) (draws : List EdgeDraw)
    (c0 : Nat) : Option (List KnowledgeGraphEdge) :=
  (fillEdges personIds docIds target draws subEdges c0).map
    (fun l => l.take target)

theorem fillEdges_ge (personIds docIds : List String) (target : Nat) :
    ∀ (draws : List EdgeDraw) (edges : List KnowledgeGraphEdge) (c : Nat)
      (l : List KnowledgeGraphEdge),
    fillEdges personIds docIds target draws edges c = some l → target ≤ l.length := by
  intro draws
  induction draws with
  | nil =>
    intro edges c l h
    rw [fillEdges] at h
    split at h
    · next hc =>
      cases h
      exact hc
    · cases h
  | cons d rest ih =>
    intro edges c l h
    rw [fillEdges] at h
    split at h
    · next hc =>
      cases h
      exact hc
    · cases hre : generateRandomEdge personIds docIds c d with
      | some e =>
        rw [hre] at h
        exact ih _ _ l h
      | none =>
        rw [hre] at h
        exact ih _ _ l h

/-- With no registered documents (or no people), every filler draw
returns `None`, so an undershooting run never reaches its target. -/
theorem fillEdges_no_docs (personIds : List String) (target : Nat) :
    ∀ (draws : List EdgeDraw) (edges : List KnowledgeGraphEdge) (c : Nat),
    edges.length < target →
    fillEdges personIds [] target draws edges c = none := by
  intro draws
  induction draws with
  | nil =>
    intro edges c hlt
    rw [fillEdges, if_neg (by omega)]
  | cons d rest ih =>
    intro edges c hlt
    rw [fillEdges, if_neg (by omega)]
    have hnone : generateRandomEdge personIds [] c d = none := by
      unfold generateRandomEdge
      split
      · rw [if_neg (by simp)]
      · rfl
    rw [hnone]
    exact ih edges c hlt

/-- A stream of productive draws (AUTHORED type) reaches the target. -/
theorem fillEdges_productive (personIds docIds : List String) (target : Nat)
    (hp : personIds ≠ []) (hd : docIds ≠ []) :
    ∀ (k : Nat) (edges : List KnowledgeGraphEdge) (c : Nat),
    target ≤ edges.length + k →
    (fillEdges personIds docIds target
      (List.replicate k ⟨"AUTHORED", 0, 0, 0, 0, 0⟩) edges c).isSome := by
  intro k
  induction k with
  | zero =>
    intro edges c hk
    show (fillEdges personIds docIds target [] edges c).isSome = true
    rw [fillEdges, if_pos (by omega)]
    rfl
  | succ k ih =>
    intro edges c hk
    rw [List.replicate_succ, fillEdges]
    by_cases hc : target ≤ edges.length
    · rw [if_pos hc]
      rfl
    · rw [if_neg hc]
      have hre : generateRandomEdge personIds docIds c ⟨"AUTHORED", 0, 0, 0, 0, 0⟩
          = some (createEdge c "AUTHORED" "PERSON"
            (personIds.getD (0 % personIds.length) "") "DOC"
            (docIds.getD (0 % docIds.length) "") 0 0 0 "Random relationship") := by
        unfold generateRandomEdge
        rw [if_pos (Or.inl rfl), if_pos ⟨hp, hd⟩]
      rw [hre]
      have := ih (edges ++ [createEdge c "AUTHORED" "PERSON"
        (personIds.getD (0 % personIds.length) "") "DOC"
        (docIds.getD (0 % docIds.length) "") 0 0 0 "Random relationship"]) (c + 1)
        (by rw [List.length_append]; simp; omega)
      exact this

/-- The padding loop terminates for some draw stream. -/
def padTerminates (personIds docIds : List String)
    (subEdges : List KnowledgeGraphEdge) (target : Nat) : Prop :=
  ∃ (draws : List EdgeDraw) (c0 : Nat),
    (generateEdges personIds docIds subEdges target draws c0).isSome

/-! ### Claim C7: exact knowledge-graph edge count -/

/-- C7 counterexample: with one registered person, no registered
documents, an empty sub-generator output and target 1 - a state reached
by a validated configuration whose single team never receives people,
so the document stage emits nothing - `_generate_random_edge` returns
`None` on every draw and the padding loop never terminates, against the
claim's assertion that it does. -/
theorem C7_padding_nontermination_counterexample :
    ¬ padTerminates ["P_001"] [] [] 1 := by
  rintro ⟨draws, c0, hsome⟩
  unfold generateEdges at hsome
  rw [fillEdges_no_docs ["P_001"] 1 draws [] c0 (by simp)] at hsome
  cases hsome

/-- C7 (amended): every terminating run of `_generate_edges` produces
exactly the configured number of edges - overshooting sub-generator
output is truncated and undershooting output is padded - and when both
people and documents are registered a terminating padding run exists
(the real generator terminates with probability 1 there); with no
registered documents (or people) and an undershooting base, the padding
loop does not terminate. -/
theorem C7_edge_count_exact :
    (∀ (personIds docIds : List String) (subEdges : List KnowledgeGraphEdge)
        (target : Nat) (draws : List EdgeDraw) (c0 : Nat)
        (l : List KnowledgeGraphEdge),
      generateEdges personIds docIds subEdges target draws c0 = some l →
        l.length = target) ∧
      (∀ (personIds docIds : List String) (subEdges : List KnowledgeGraphEdge)
          (target : Nat), personIds ≠ [] → docIds ≠ [] →
        ∃ (draws : List EdgeDraw) (c0 : Nat) (l : List KnowledgeGraphEdge),
          generateEdges personIds docIds subEdges target draws c0 = some l ∧
            l.length = target) := by
  constructor
  · intro personIds docIds subEdges target draws c0 l h
    unfold generateEdges at h
    cases hfill : fillEdges personIds docIds target draws subEdges c0 with
    | none => rw [hfill] at h; cases h
    | some l2 =>
      rw [hfill] at h
      have hge := fillEdges_ge personIds docIds target draws subEdges c0 l2 hfill
      simp only [Option.map_some'] at h
      cases h
      rw [List.length_take]
      omega
  · intro personIds docIds subEdges target hp hd
    have hsome := fillEdges_productive personIds docIds target hp hd target
      subEdges 0 (by omega)
    cases hfill : fillEdges personIds docIds target
        (List.replicate target ⟨"AUTHORED", 0, 0, 0, 0, 0⟩) subEdges 0 with
    | none => rw [hfill] at hsome; cases hsome
    | some l2 =>
      refine ⟨List.replicate target ⟨"AUTHORED", 0, 0, 0, 0, 0⟩, 0, l2.take target,
        ?_, ?_⟩
      · unfold generateEdges
        rw [hfill]
        rfl
      · have hge := fillEdges_ge personIds docIds target _ subEdges 0 l2 hfill
        rw [List.length_take]
        omega

/-- C7 witness: the amended theorem applied to one person and one
document, target 3, empty sub-generator output. -/
theorem C7_edge_count_exact_witness :
    ((["P_001"] : List String) ≠ [] ∧ (["DOC_001"] : List String) ≠ []) ∧
      (∃ (draws : List EdgeDraw) (c0 : Nat) (l : List KnowledgeGraphEdge),
        generateEdges ["P_001"] ["DOC_001"] [] 3 draws c0 = some l ∧
          l.length = 3) :=
  ⟨⟨by decide, by decide⟩,
    C7_edge_count_exact.2 ["P_001"] ["DOC_001"] [] 3 (by decide) (by decide)⟩

/-! ### Permission builder (`generators/permissions.py`).  The registry
contents feed in as plain lists (`list(self.context.documents.values())`
etc.); the two `random.sample` calls and the `random_choice` call are
oracle parameters. -/

/-- ASCII uppercase of one character (team names are ASCII). -/
def charUpper (c : Char) : Char :=
  if 'a' ≤ c ∧ c ≤ 'z' then Char.ofNat (c.toNat - 32) else c

/-- Python `s.upper()` for ASCII strings. -/
def strUpper (s : String) : String := ⟨s.data.map charUpper⟩

/-- Python `s.split("-")[0]`: the characters before the first dash. -/
def splitHead (s : String) : String := ⟨s.data.takeWhile (fun c => c != '-')⟩

/-- Python `s.title()` on the single alphabetic word produced by
`split("-")[0]` from a channel name. -/
def titleStr (s : String) : String :=
  match s.data with
  | [] => ""
  | c :: rest => ⟨charUpper c :: rest.map charLower⟩

/-- Finance phase of `_generate_document_permissions`: the documents that
receive the `["Finance"]` restriction ACL - a 10-sample of the Finance
team's documents, or, short of 10 of those, a sample of the concatenation
with the high-confidentiality documents. -/
def financeRestrictedDocs (sample : List Document → Nat → List Document)
    (documents : List Document) : List Document :=
  if 10 ≤ (documents.filter (fun d => d.team == "Finance")).length then
    sample (documents.filter (fun d => d.team == "Finance")) 10
  else
    sample
      (documents.filter (fun d => d.team == "Finance") ++
        documents.filter (fun d => d.confidentiality == "high"))
      (min 10
        (documents.filter (fun d => d.team == "Finance") ++
          documents.filter (fun d => d.confidentiality == "high")).length)

/-- The ACL built for each finance-restricted document. -/
def financeAcl (d : Document) : ACL :=
  { resource_type := "DOC", resource_id := d.doc_id,
    allow_person_ids := [], allow_teams := ["Finance"],
    deny_person_ids := [], acl_warning := false }

/-- `_create_document_acl`, keyed on the document's visibility; the
fall-through returns `None`. -/
def createDocumentAcl (teams mgrs : List String) (d : Document) : Option ACL :=
  if d.visibility == "public" then
    some { resource_type := "DOC", resource_id := d.doc_id,
           allow_person_ids := [], allow_teams := teams,
           deny_person_ids := [] }
  else if d.visibility == "internal" then
    some { resource_type := "DOC", resource_id := d.doc_id,
           allow_person_ids := mgrs, allow_teams := [d.team],
           deny_person_ids := [] }
  else if d.visibility == "restricted" then
    some { resource_type := "DOC", resource_id := d.doc_id,
           allow_person_ids := [], allow_teams := [d.team],
           deny_person_ids := [] }
  else none

/-- `_generate_document_permissions`: finance phase, then per-visibility
ACLs for the remaining documents. -/
def generateDocumentPermissions (sample : List Document → Nat → List Document)
    (teams mgrs : List String) (documents : List Document) : List ACL :=
  (financeRestrictedDocs sample documents).map financeAcl ++
    (documents.filter
        (fun d => !(financeRestrictedDocs sample documents).contains d)).filterMap
      (createDocumentAcl teams mgrs)

/-- `_generate_thread_permissions`, one thread: the if/elif chain on the
channel name. -/
def threadAcl (teams : List String) (t : ChatThread) : Option ACL :=
  if strContains t.channel "general" then
    if titleStr (splitHead t.channel) ∈ teams then
      some { resource_type := "THREAD", resource_id := t.thread_id,
             allow_person_ids := [],
             allow_teams := [titleStr (splitHead t.channel)],
             deny_person_ids := [] }
    else none
  else if strContains t.channel "cross-team" then
    some { resource_type := "THREAD", resource_id := t.thread_id,
           allow_person_ids := [], allow_teams := teams,
           deny_person_ids := [] }
  else if strContains t.channel "project" then
    some { resource_type := "THREAD", resource_id := t.thread_id,
           allow_person_ids := t.participants, allow_teams := [],
           deny_person_ids := [] }
  else if t.channel == "random" then
    some { resource_type := "THREAD", resource_id := t.thread_id,
           allow_person_ids := [], allow_teams := teams,
           deny_person_ids := [] }
  else none

/-- `_generate_thread_permissions`. -/
def generateThreadPermissions (teams : List String)
    (threads : List ChatThread) : List ACL :=
  threads.filterMap (threadAcl teams)

/-- One starter-pack ACL (`PACK_{team.upper()}_001`). -/
def packAcl (mgrs : List String) (team : String) : ACL :=
  { resource_type := "PACK", resource_id := "PACK_" ++ strUpper team ++ "_001",
    allow_person_ids := mgrs, allow_teams := [team, "HR"],
    deny_person_ids := [] }

/-- `_generate_starter_pack_permissions`. -/
def generateStarterPackPermissions (mgrs teams : List String) : List ACL :=
  teams.map (packAcl mgrs)

/-- The warning ACL built in both edge-case loops (mis-permissioned
internal documents and chat-referenced restricted documents have the
same shape). -/
def misAcl (d : Document) : ACL :=
  { resource_type := "DOC", resource_id := d.doc_id,
    allow_person_ids := [], allow_teams := [d.team],
    deny_person_ids := [], acl_warning := true }

/-- `_generate_edge_case_permissions`: 3 warning ACLs over internal
documents (when at least 3 exist), `min 2 _` warning ACLs over
restricted documents (when any exist), and one deny ACL over a
high-confidentiality document (when one exists and a new hire exists). -/
def generateEdgeCasePermissions (sample : List Document → Nat → List Document)
    (choose : List Document → Document) (people : List Person)
    (documents : List Document) : List ACL :=
  (if 3 ≤ (documents.filter (fun d => d.visibility == "internal")).length then
      (sample (documents.filter (fun d => d.visibility == "internal")) 3).map
        misAcl
    else []) ++
  (if documents.filter (fun d => d.visibility == "restricted") ≠ [] then
      (sample (documents.filter (fun d => d.visibility == "restricted"))
          (min 2 (documents.filter
            (fun d => d.visibility == "restricted")).length)).map misAcl
    else []) ++
  (if documents.filter (fun d => d.confidentiality == "high") ≠ [] then
      if people.filter (fun p => p.tenure_months < 6) ≠ [] then
        [{ resource_type := "DOC",
           resource_id := (choose (documents.filter
             (fun d => d.confidentiality == "high"))).doc_id,
           allow_person_ids := [],
           allow_teams := [(choose (documents.filter
             (fun d => d.confidentiality == "high"))).team],
           deny_person_ids := ((people.filter
             (fun p => p.tenure_months < 6)).take 2).map
              (fun p => p.person_id) }]
      else []
    else [])

/-- `PermissionGenerator.generate`: the four phases concatenated. -/
def generateAcls (sample : List Document → Nat → List Document)
    (choose : List Document → Document) (teams mgrs : List String)
    (people : List Person) (documents : List Document)
    (threads : List ChatThread) : List ACL :=
  generateDocumentPermissions sample teams mgrs documents ++
    generateThreadPermissions teams threads ++
    generateStarterPackPermissions mgrs teams ++
    generateEdgeCasePermissions sample choose people documents

theorem createDocumentAcl_warning (teams mgrs : List String) (d : Document)
    (a : ACL) (h : createDocumentAcl teams mgrs d = some a) :
    a.acl_warning = false := by
  unfold createDocumentAcl at h
  split at h
  · cases h; rfl
  · split at h
    · cases h; rfl
    · split at h
      · cases h; rfl
      · cases h

theorem threadAcl_warning (teams : List String) (t : ChatThread)
    (a : ACL) (h : threadAcl teams t = some a) : a.acl_warning = false := by
  unfold threadAcl at h
  split at h
  · split at h
    · cases h; rfl
    · cases h
  · split at h
    · cases h; rfl
    · split at h
      · cases h; rfl
      · split at h
        · cases h; rfl
        · cases h

theorem generateDocumentPermissions_warning
    (sample : List Document → Nat → List Document) (teams mgrs : List String)
    (documents : List Document) :
    (generateDocumentPermissions sample teams mgrs documents).countP
      (fun a => a.acl_warning) = 0 := by
  unfold generateDocumentPermissions
  rw [List.countP_append]
  rw [countP_eq_zero_of_none, countP_eq_zero_of_none]
  · intro a ha
    rcases List.mem_filterMap.mp ha with ⟨d, _, hd⟩
    exact createDocumentAcl_warning teams mgrs d a hd
  · intro a ha
    rcases List.mem_map.mp ha with ⟨d, _, hd⟩
    rw [← hd]
    rfl

theorem generateThreadPermissions_warning (teams : List String)
    (threads : List ChatThread) :
    (generateThreadPermissions teams threads).countP
      (fun a => a.acl_warning) = 0 := by
  apply countP_eq_zero_of_none
  intro a ha
  rcases List.mem_filterMap.mp ha with ⟨t, _, ht⟩
  exact threadAcl_warning teams t a ht

theorem generateStarterPackPermissions_warning (mgrs teams : List String) :
    (generateStarterPackPermissions mgrs teams).countP
      (fun a => a.acl_warning) = 0 := by
  apply countP_eq_zero_of_none
  intro a ha
  rcases List.mem_map.mp ha with ⟨t, _, ht⟩
  rw [← ht]
  rfl

theorem generateEdgeCasePermissions_warning
    (sample : List Document → Nat → List Document)
    (choose : List Document → Document) (people : List Person)
    (documents : List Document) (hs : SampleSpec sample) :
    (generateEdgeCasePermissions sample choose people documents).countP
        (fun a => a.acl_warning) =
      (if 3 ≤ (documents.filter (fun d => d.visibility == "internal")).length
        then 3 else 0) +
      min 2 (documents.filter (fun d => d.visibility == "restricted")).length := by
  unfold generateEdgeCasePermissions
  rw [List.countP_append, List.countP_append]
  have h3 : (if documents.filter (fun d => d.confidentiality == "high") ≠ [] then
      if people.filter (fun p => p.tenure_months < 6) ≠ [] then
        [{ resource_type := "DOC",
           resource_id := (choose (documents.filter
             (fun d => d.confidentiality == "high"))).doc_id,
           allow_person_ids := [],
           allow_teams := [(choose (documents.filter
             (fun d => d.confidentiality == "high"))).team],
           deny_person_ids := ((people.filter
             (fun p => p.tenure_months < 6)).take 2).map
              (fun p => p.person_id) }]
      else []
    else [] : List ACL).countP (fun a => a.acl_warning) = 0 := by
    split
    · split
      · rfl
      · rfl
    · rfl
  rw [h3]
  have h1 : (if 3 ≤ (documents.filter
        (fun d => d.visibility == "internal")).length then
      (sample (documents.filter (fun d => d.visibility == "internal")) 3).map
        misAcl
    else [] : List ACL).countP (fun a => a.acl_warning) =
      (if 3 ≤ (documents.filter (fun d => d.visibility == "internal")).length
        then 3 else 0) := by
    split
    · next hc =>
      rw [countP_eq_length_of_all]
      · rw [List.length_map, (hs _ 3 hc).1]
      · intro a ha
        rcases List.mem_map.mp ha with ⟨d, _, hd⟩
        rw [← hd]
        rfl
    · rfl
  have h2 : (if documents.filter (fun d => d.visibility == "restricted") ≠ [] then
      (sample (documents.filter (fun d => d.visibility == "restricted"))
          (min 2 (documents.filter
            (fun d => d.visibility == "restricted")).length)).map misAcl
    else [] : List ACL).countP (fun a => a.acl_warning) =
      min 2 (documents.filter (fun d => d.visibility == "restricted")).length := by
    split
    · next hc =>
      rw [countP_eq_length_of_all]
      · rw [List.length_map, (hs _ _ (Nat.min_le_right _ _)).1]
      · intro a ha
        rcases List.mem_map.mp ha with ⟨d, _, hd⟩
        rw [← hd]
        rfl
    · next hc =>
      have : documents.filter (fun d => d.visibility == "restricted") = [] := by
        by_contra hne
        exact hc hne
      rw [this]
      rfl
  rw [h1, h2]
  omega

/-! ### Claim C8: finance-restricted and warning ACL counts -/

/-- C8 concrete registry contents: three internal documents and one
restricted document, no Finance-team and no high-confidentiality
documents. -/
def c8Docs : List Document :=
  [ { doc_id := "DOC_001", title := "a", content := "a", team := "Marketing",
      author_person_id := "P_001" },
    { doc_id := "DOC_002", title := "b", content := "b", team := "Marketing",
      author_person_id := "P_001" },
    { doc_id := "DOC_003", title := "c", content := "c", team := "Marketing",
      author_person_id := "P_001" },
    { doc_id := "DOC_004", title := "d", content := "d", team := "Marketing",
      author_person_id := "P_001", visibility := "restricted" } ]

/-- C8 counterexample: with 3 internal documents (so the mis-permissioned
loop runs in full) and 1 restricted document registered, the generator
emits 4 warning-flagged ACLs, not the claimed exactly 3: the
chat-referenced-restricted loop in `_generate_edge_case_permissions`
also sets `acl_warning=True` on up to 2 further ACLs. -/
theorem C8_warning_count_counterexample :
    3 ≤ (c8Docs.filter (fun d => d.visibility == "internal")).length ∧
    (generateAcls sampleTake chooseHead ["Marketing"] [] [] c8Docs []).countP
      (fun a => a.acl_warning) = 4 := by decide

/-- C8 (amended): for every registry state and every seed, the finance
phase emits exactly 10 Finance-restriction ACLs when at least 10
Finance-team documents exist, and otherwise `min 10` of the
concatenation of Finance-team and high-confidentiality documents
(counted with multiplicity); and the number of ACLs with `acl_warning`
set across the whole run is 3 when at least 3 internal documents exist
(else 0) PLUS `min 2` the number of restricted documents - not exactly
3. -/
theorem C8_acl_counts (sample : List Document → Nat → List Document)
    (choose : List Document → Document) (teams mgrs : List String)
    (people : List Person) (documents : List Document)
    (threads : List ChatThread) (hs : SampleSpec sample) :
    (financeRestrictedDocs sample documents).length =
      (if 10 ≤ (documents.filter (fun d => d.team == "Finance")).length then 10
       else min 10 ((documents.filter (fun d => d.team == "Finance")).length +
         (documents.filter (fun d => d.confidentiality == "high")).length)) ∧
    (generateAcls sample choose teams mgrs people documents threads).countP
        (fun a => a.acl_warning) =
      (if 3 ≤ (documents.filter (fun d => d.visibility == "internal")).length
        then 3 else 0) +
      min 2 (documents.filter (fun d => d.visibility == "restricted")).length := by
  constructor
  · unfold financeRestrictedDocs
    split
    · next hc => exact (hs _ 10 hc).1
    · rw [(hs _ _ (Nat.min_le_right _ _)).1, List.length_append]
  · unfold generateAcls
    rw [List.countP_append, List.countP_append, List.countP_append,
      generateDocumentPermissions_warning, generateThreadPermissions_warning,
      generateStarterPackPermissions_warning,
      generateEdgeCasePermissions_warning sample choose people documents hs]
    rw [Nat.zero_add]

/-- C8 witness: the amended theorem applied to the concrete registry
contents and the deterministic oracles. -/
theorem C8_acl_counts_witness :
    SampleSpec (sampleTake (α := Document)) ∧
    ((financeRestrictedDocs sampleTake c8Docs).length =
      (if 10 ≤ (c8Docs.filter (fun d => d.team == "Finance")).length then 10
       else min 10 ((c8Docs.filter (fun d => d.team == "Finance")).length +
         (c8Docs.filter (fun d => d.confidentiality == "high")).length)) ∧
     (generateAcls sampleTake chooseHead ["Marketing"] [] [] c8Docs []).countP
        (fun a => a.acl_warning) =
      (if 3 ≤ (c8Docs.filter (fun d => d.visibility == "internal")).length
        then 3 else 0) +
      min 2 (c8Docs.filter (fun d => d.visibility == "restricted")).length) :=
  ⟨sampleTake_spec,
    C8_acl_counts sampleTake chooseHead ["Marketing"] [] [] c8Docs []
      sampleTake_spec⟩

/-! ### Registry lookup `get_related_documents`
(`generators/context.py:192-216`).  Python's `dict.get(topic, set())` on
the `defaultdict` returns the STORED set object when `topic` is a key
(and a fresh set otherwise), so the subsequent in-place
`doc_ids.update(...)` writes through to `document_tags[topic]` exactly
when the key exists. -/

/-- The match test of `_find_topic_by_name`: name or alias,
case-insensitively. -/
def topicMatches (name : String) (t : Topic) : Bool :=
  strLower t.name == strLower name ||
    (t.aliases.map strLower).contains (strLower name)

/-- `_find_topic_by_name(name)`: first registered topic whose name or
alias matches. -/
def findTopicByName (topics : List (String × Topic)) (name : String) :
    Option Topic :=
  (topics.find? (fun kv => topicMatches name kv.2)).map (fun kv => kv.2)

/-- The local `doc_ids` value after the optional `update`. -/
def relatedDocIds (r : Registry) (topic : String) : List String :=
  match findTopicByName r.topics topic with
  | some tobj =>
      listSetUnion ((lookupA r.document_tags topic).getD [])
        ((lookupA r.topic_documents tobj.topic_id).getD [])
  | none => (lookupA r.document_tags topic).getD []

/-- The candidate documents: ids resolved against the document registry,
then optionally filtered by team. -/
def relatedDocsPool (r : Registry) (topic : String) (team : Option String) :
    List Document :=
  match team with
  | some t =>
      ((relatedDocIds r topic).filterMap
          (fun did => lookupA r.documents did)).filter (fun d => d.team == t)
  | none => (relatedDocIds r topic).filterMap (fun did => lookupA r.documents did)

/-- `get_related_documents(topic, team, limit)`: the sampled result
paired with the post-call registry state; the tag index is written back
only when `topic` was already a key and a topic object resolved. -/
def getRelatedDocuments (sample : List Document → Nat → List Document)
    (r : Registry) (topic : String) (team : Option String) (limit : Nat) :
    List Document × Registry :=
  (sample (relatedDocsPool r topic team)
      (min limit (relatedDocsPool r topic team).length),
    if containsKey r.document_tags topic then
      match findTopicByName r.topics topic with
      | some _ =>
          { r with
            document_tags := setA r.document_tags topic (relatedDocIds r topic) }
      | none => r
    else r)

theorem lookupA_map_set {α : Type} (k : String) (v : α) :
    ∀ m : List (String × α), containsKey m k = true →
    lookupA (m.map (fun kv => if kv.1 == k then (k, v) else kv)) k = some v := by
  intro m
  induction m with
  | nil =>
    intro h
    unfold containsKey lookupA at h
    simp at h
  | cons kv t ih =>
    intro h
    by_cases hk : (kv.1 == k) = true
    · unfold lookupA
      rw [List.map_cons, if_pos hk,
        List.find?_cons_of_pos (p := fun kv2 : String × α => kv2.1 == k) _
          (by simp)]
      rfl
    · unfold containsKey lookupA at h
      rw [List.find?_cons_of_neg (p := fun kv2 : String × α => kv2.1 == k) _
        (by simpa using hk)] at h
      unfold lookupA
      rw [List.map_cons, if_neg hk,
        List.find?_cons_of_neg (p := fun kv2 : String × α => kv2.1 == k) _
          (by simpa using hk)]
      exact ih h

theorem lookupA_append_single {α : Type} (k : String) (v : α) :
    ∀ m : List (String × α), containsKey m k = false →
    lookupA (m ++ [(k, v)]) k = some v := by
  intro m
  induction m with
  | nil =>
    intro h
    unfold lookupA
    rw [List.nil_append,
      List.find?_cons_of_pos (p := fun kv2 : String × α => kv2.1 == k) _
        (by simp)]
    rfl
  | cons kv t ih =>
    intro h
    unfold containsKey lookupA at h
    by_cases hk : (kv.1 == k) = true
    · rw [List.find?_cons_of_pos (p := fun kv2 : String × α => kv2.1 == k) _ hk]
        at h
      simp at h
    · rw [List.find?_cons_of_neg (p := fun kv2 : String × α => kv2.1 == k) _
        (by simpa using hk)] at h
      unfold lookupA
      rw [List.cons_append,
        List.find?_cons_of_neg (p := fun kv2 : String × α => kv2.1 == k) _
          (by simpa using hk)]
      exact ih h

/-- Dict write then read: `m[k] = v` makes `m[k]` return `v`. -/
theorem lookupA_setA {α : Type} (m : List (String × α)) (k : String) (v : α) :
    lookupA (setA m k v) k = some v := by
  unfold setA
  by_cases hck : containsKey m k = true
  · rw [if_pos hck]
    exact lookupA_map_set k v m hck
  · rw [if_neg hck]
    exact lookupA_append_single k v m (by simpa using hck)

/-! ### Claim C9: `get_related_documents` mutates the tag index -/

/-- C9: when `topic` is an existing key of the `document_tags` index and
`_find_topic_by_name` resolves it to a topic object, the call
permanently writes the union of the stored id set and that topic's
`topic_documents` entry back into `document_tags[topic]` (a post-call
lookup returns the union), and every other registry field - people,
documents, topics, threads, team index, managers, `topic_documents`,
`cross_references` - is unchanged. -/
theorem C9_tag_index_mutation
    (sample : List Document → Nat → List Document) (r : Registry)
    (topic : String) (team : Option String) (limit : Nat) (tobj : Topic)
    (hkey : containsKey r.document_tags topic = true)
    (hfind : findTopicByName r.topics topic = some tobj) :
    (getRelatedDocuments sample r topic team limit).2 =
      { r with
        document_tags :=
          setA r.document_tags topic
            (listSetUnion ((lookupA r.document_tags topic).getD [])
              ((lookupA r.topic_documents tobj.topic_id).getD [])) } ∧
    lookupA (getRelatedDocuments sample r topic team limit).2.document_tags
        topic =
      some (listSetUnion ((lookupA r.document_tags topic).getD [])
        ((lookupA r.topic_documents tobj.topic_id).getD [])) ∧
    (getRelatedDocuments sample r topic team limit).2.topic_documents =
      r.topic_documents ∧
    (getRelatedDocuments sample r topic team limit).2.people = r.people ∧
    (getRelatedDocuments sample r topic team limit).2.documents =
      r.documents ∧
    (getRelatedDocuments sample r topic team limit).2.topics = r.topics ∧
    (getRelatedDocuments sample r topic team limit).2.chat_threads =
      r.chat_threads ∧
    (getRelatedDocuments sample r topic team limit).2.people_by_team =
      r.people_by_team ∧
    (getRelatedDocuments sample r topic team limit).2.managers = r.managers ∧
    (getRelatedDocuments sample r topic team limit).2.cross_references =
      r.cross_references := by
  have hids : relatedDocIds r topic =
      listSetUnion ((lookupA r.document_tags topic).getD [])
        ((lookupA r.topic_documents tobj.topic_id).getD []) := by
    unfold relatedDocIds
    rw [hfind]
  have hstate : (getRelatedDocuments sample r topic team limit).2 =
      { r with
        document_tags :=
          setA r.document_tags topic
            (listSetUnion ((lookupA r.document_tags topic).getD [])
              ((lookupA r.topic_documents tobj.topic_id).getD [])) } := by
    unfold getRelatedDocuments
    rw [← hids]
    show (if containsKey r.document_tags topic then _ else r) = _
    rw [if_pos hkey, hfind]
  refine ⟨hstate, ?_, ?_, ?_, ?_, ?_, ?_, ?_, ?_, ?_⟩ <;> rw [hstate]
  exact lookupA_setA r.document_tags topic _

/-- C9 concrete registry: the tag "machine learning" is indexed with one
document id, the topic "Machine Learning" is registered and carries one
further document id. -/
def c9Topic : Topic := { topic_id := "TOPIC_001", name := "Machine Learning" }

def c9RelReg : Registry :=
  { documents := [("DOC_001",
      { doc_id := "DOC_001", title := "t", content := "c",
        team := "Marketing", author_person_id := "P_001" })],
    topics := [("TOPIC_001", c9Topic)],
    document_tags := [("machine learning", ["DOC_001"])],
    topic_documents := [("TOPIC_001", ["DOC_002"])] }

/-- C9 witness: the theorem applied to the concrete registry; the stored
tag set gains `DOC_002`. -/
theorem C9_tag_index_mutation_witness :
    (containsKey c9RelReg.document_tags "machine learning" = true ∧
        findTopicByName c9RelReg.topics "machine learning" = some c9Topic) ∧
      (getRelatedDocuments sampleTake c9RelReg "machine learning" none 5).2 =
        { c9RelReg with
          document_tags :=
            setA c9RelReg.document_tags "machine learning"
              (listSetUnion
                ((lookupA c9RelReg.document_tags "machine learning").getD [])
                ((lookupA c9RelReg.topic_documents c9Topic.topic_id).getD [])) } :=
  ⟨⟨by decide, by decide⟩,
    (C9_tag_index_mutation sampleTake c9RelReg "machine learning" none 5 c9Topic
      (by decide) (by decide)).1⟩

/-! ### Id-uniqueness support: thread-id layout of the three thread
generators and registry growth under fresh keys -/

/-- Regular thread ids are the consecutive counters `T_{k+1:03d} ...`. -/
theorem genRegularAux_thread_ids (td : Nat → ThreadDraw)
    (sender : Nat → Nat → String) (text emo : Nat → Nat → String)
    (mentions docRefs actions : Nat → Nat → List String)
    (gap : Nat → Nat → Nat) : ∀ (r k mb : Nat),
    (genRegularAux td sender text emo mentions docRefs actions gap k r mb).map
        (fun p => p.1.thread_id)
      = (List.range r).map (fun j => "T_" ++ padStr 3 (k + j + 1)) := by
  intro r
  induction r with
  | zero => intro k mb; rfl
  | succ r ih =>
    intro k mb
    show ("T_" ++ padStr 3 (k + 1)) ::
        (genRegularAux td sender text emo mentions docRefs actions gap (k + 1) r
            (mb + (td k).msgCount)).map (fun p => p.1.thread_id) = _
    rw [ih, List.range_succ_eq_map, List.map_cons, List.map_map]
    have htail : ∀ j ∈ List.range r,
        ((fun j => "T_" ++ padStr 3 (k + j + 1)) ∘ Nat.succ) j
          = (fun j => "T_" ++ padStr 3 (k + 1 + j + 1)) j := by
      intro j _
      simp only [Function.comp_apply]
      congr 2
      omega
    rw [List.map_congr_left htail]

/-- One duplicate-generator step keeps the sequential id layout. -/
theorem genDupStep_ids (peopleBy : String → List Person) (o : DupOracle)
    (tIdx side : Nat) (topic team : String)
    (acc : List ChatThread × List ChatMessage) (h : DupIds acc.1) :
    DupIds (genDupStep peopleBy o tIdx side topic team acc).1 := by
  unfold genDupStep
  split
  · exact h
  · exact dupIds_append acc.1 _ h rfl

/-- The duplicate-discussion topic loop keeps the sequential id layout. -/
theorem genDupAux_ids (peopleBy : String → List Person) (o : DupOracle) :
    ∀ (topics : List String) (tIdx : Nat)
      (acc : List ChatThread × List ChatMessage), DupIds acc.1 →
    DupIds (genDupAux peopleBy o topics tIdx acc).1 := by
  intro topics
  induction topics with
  | nil => intro tIdx acc h; exact h
  | cons topic rest ih =>
    intro tIdx acc h
    exact ih (tIdx + 1) _
      (genDupStep_ids peopleBy o tIdx 1 topic _ _
        (genDupStep_ids peopleBy o tIdx 0 topic _ _ h))

/-- Counter-id lists are duplicate-free (shared by all id schemes built
as prefix plus zero-padded counter). -/
theorem counter_map_nodup (pre : String) (w k r : Nat) :
    ((List.range r).map (fun j => pre ++ padStr w (k + j + 1))).Nodup := by
  refine List.Nodup.map ?_ (List.nodup_range _)
  intro a b hab
  have := counterId_injective pre w hab
  omega

/-- A regular thread id is never a duplicate-discussion thread id. -/
theorem tId_ne_tDup (n m : Nat) : "T_" ++ padStr 3 n ≠ "T_DUP_" ++ padStr 3 m := by
  intro h
  have hd := congrArg String.data h
  rw [string_append_data, string_append_data] at hd
  have hT : ("T_" : String).data = ['T', '_'] := rfl
  have hTD : ("T_DUP_" : String).data = ['T', '_', 'D', 'U', 'P', '_'] := rfl
  rw [hT, hTD] at hd
  simp only [List.cons_append, List.nil_append, List.cons.injEq, true_and] at hd
  have hmem : 'D' ∈ (padStr 3 n).data := by
    rw [hd]
    exact List.mem_cons_self _ _
  have := padChars_digits 3 n 'D' hmem
  have h68 : ('D' : Char).toNat = 68 := rfl
  omega

/-- A regular thread id is never an emotional thread id. -/
theorem tId_ne_tEmo (n m : Nat) : "T_" ++ padStr 3 n ≠ "T_EMO_" ++ padStr 3 m := by
  intro h
  have hd := congrArg String.data h
  rw [string_append_data, string_append_data] at hd
  have hT : ("T_" : String).data = ['T', '_'] := rfl
  have hTE : ("T_EMO_" : String).data = ['T', '_', 'E', 'M', 'O', '_'] := rfl
  rw [hT, hTE] at hd
  simp only [List.cons_append, List.nil_append, List.cons.injEq, true_and] at hd
  have hmem : 'E' ∈ (padStr 3 n).data := by
    rw [hd]
    exact List.mem_cons_self _ _
  have := padChars_digits 3 n 'E' hmem
  have h69 : ('E' : Char).toNat = 69 := rfl
  omega

/-- A duplicate-discussion thread id is never an emotional thread id. -/
theorem tDup_ne_tEmo (n m : Nat) :
    "T_DUP_" ++ padStr 3 n ≠ "T_EMO_" ++ padStr 3 m := by
  intro h
  have hd := congrArg String.data h
  rw [string_append_data, string_append_data] at hd
  have hTD : ("T_DUP_" : String).data = ['T', '_', 'D', 'U', 'P', '_'] := rfl
  have hTE : ("T_EMO_" : String).data = ['T', '_', 'E', 'M', 'O', '_'] := rfl
  rw [hTD, hTE] at hd
  simp only [List.cons_append, List.nil_append, List.cons.injEq] at hd
  exact absurd hd.2.2.1 (by decide)

/-- Writing a fresh key grows the dict by one entry. -/
theorem length_setA_fresh {α : Type} (m : List (String × α)) (k : String)
    (v : α) (h : containsKey m k = false) :
    (setA m k v).length = m.length + 1 := by
  unfold setA
  rw [if_neg (by simp [h])]
  simp

/-- Registering people with pairwise-distinct, fresh ids grows the
people registry by exactly one entry each. -/
theorem registerPeople_people_length (l : List Person) :
    ∀ r : Registry, (pids l).Nodup →
    (∀ p ∈ l, ¬ p.person_id ∈ r.people.map Prod.fst) →
    (registerPeople r l).people.length = r.people.length + l.length := by
  induction l with
  | nil => intro r _ _; rfl
  | cons p tl ih =>
    intro r hnd hfresh
    have hck : containsKey r.people p.person_id = false := by
      cases h2 : containsKey r.people p.person_id
      · rfl
      · exact absurd ((containsKey_iff _ _).mp h2)
          (hfresh p (List.mem_cons_self _ _))
    have hnd2 : (pids tl).Nodup := by
      have := hnd
      rw [show pids (p :: tl) = p.person_id :: pids tl from rfl] at this
      exact (List.nodup_cons.mp this).2
    have hhead : ¬ p.person_id ∈ pids tl := by
      have := hnd
      rw [show pids (p :: tl) = p.person_id :: pids tl from rfl] at this
      exact (List.nodup_cons.mp this).1
    have hfresh2 : ∀ q ∈ tl,
        ¬ q.person_id ∈ (registerEntity r "person" p.person_id
            (.person p)).people.map Prod.fst := by
      intro q hq hqmem
      rw [registerPerson_people, keys_setA, if_neg (by simp [hck])] at hqmem
      rcases List.mem_append.mp hqmem with h2 | h2
      · exact hfresh q (List.mem_cons_of_mem _ hq) h2
      · simp at h2
        exact hhead (by rw [← h2]; exact List.mem_map_of_mem _ hq)
    show (registerPeople (registerEntity r "person" p.person_id (.person p))
        tl).people.length = _
    rw [ih _ hnd2 hfresh2, registerPerson_people,
      length_setA_fresh r.people _ p hck]
    simp only [List.length_cons]
    omega

/-- Registering documents with pairwise-distinct, fresh ids grows the
document registry by exactly one entry each. -/
theorem registerDocuments_documents_length (l : List Document) :
    ∀ r : Registry, (l.map Document.doc_id).Nodup →
    (∀ d ∈ l, ¬ d.doc_id ∈ r.documents.map Prod.fst) →
    (registerDocuments r l).documents.length
      = r.documents.length + l.length := by
  induction l with
  | nil => intro r _ _; rfl
  | cons d tl ih =>
    intro r hnd hfresh
    have hck : containsKey r.documents d.doc_id = false := by
      cases h2 : containsKey r.documents d.doc_id
      · rfl
      · exact absurd ((containsKey_iff _ _).mp h2)
          (hfresh d (List.mem_cons_self _ _))
    have hnd2 : (tl.map Document.doc_id).Nodup := (List.nodup_cons.mp hnd).2
    have hhead : ¬ d.doc_id ∈ tl.map Document.doc_id :=
      (List.nodup_cons.mp hnd).1
    have hfresh2 : ∀ q ∈ tl,
        ¬ q.doc_id ∈ (registerEntity r "document" d.doc_id
            (.document d)).documents.map Prod.fst := by
      intro q hq hqmem
      rw [registerDocument_documents, keys_setA, if_neg (by simp [hck])] at hqmem
      rcases List.mem_append.mp hqmem with h2 | h2
      · exact hfresh q (List.mem_cons_of_mem _ hq) h2
      · simp at h2
        exact hhead (by rw [← h2]; exact List.mem_map_of_mem _ hq)
    show (registerDocuments (registerEntity r "document" d.doc_id (.document d))
        tl).documents.length = _
    rw [ih _ hnd2 hfresh2, registerDocument_documents,
      length_setA_fresh r.documents _ d hck]
    simp only [List.length_cons]
    omega

/-! ### Wall-clock dependence (`generators/base.py` `generate_id`,
`main.py` `_create_manifest`).  `BaseGenerator.__init__` builds an
UNSEEDED `random.Random()`; `set_seed` exists but is never called and
the configuration has no seed field, so no seed is threaded anywhere.
`generate_id` additionally mixes `datetime.now()` into the id and the
manifest records `datetime.now().isoformat()`. -/

/-- Python `str(n)` for a natural (unpadded decimal). -/
def natStr (n : Nat) : String := ⟨natChars n⟩

theorem padChars_zero (n : Nat) : padChars 0 n = natChars n := by
  simp [padChars, Nat.zero_sub]

theorem natChars_injective : Function.Injective natChars := by
  intro m n h
  have h1 := parseChars_padChars 0 m
  have h2 := parseChars_padChars 0 n
  rw [padChars_zero] at h1 h2
  rw [← h1, h, h2]

theorem natChars_digits (n : Nat) :
    ∀ c ∈ natChars n, 48 ≤ c.toNat ∧ c.toNat ≤ 57 := by
  intro c hc
  exact padChars_digits 0 n c ((padChars_zero n).symm ▸ hc)

theorem takeWhile_append_of_all {α : Type} (p : α → Bool) (l1 : List α)
    (x : α) (l2 : List α) (h1 : ∀ c ∈ l1, p c = true) (hx : p x = false) :
    (l1 ++ x :: l2).takeWhile p = l1 := by
  induction l1 with
  | nil =>
    rw [List.nil_append, List.takeWhile_cons_of_neg (by simp [hx])]
  | cons a t ih =>
    rw [List.cons_append,
      List.takeWhile_cons_of_pos (h1 a (List.mem_cons_self _ _)),
      ih (fun c hc => h1 c (List.mem_cons_of_mem _ hc))]

/-- `BaseGenerator.generate_id(prefix)`:
`f"{prefix}{int(now().timestamp()*1000) % 100000}_{randint(1000,9999)}"`. -/
def generateId (pre : String) (nowMs randDraw : Nat) : String :=
  pre ++ natStr (nowMs % 100000) ++ "_" ++ natStr randDraw

/-- The manifest's `dataset_info` block (`main.py` `_create_manifest`):
`generated_at` is `datetime.now().isoformat()`. -/
structure DatasetInfo where
  name : String
  version : String
  generated_at : String
  company : String
deriving DecidableEq

def manifestDatasetInfo (nowIso companyName : String) : DatasetInfo :=
  { name := "TechNova Synthetic Dataset", version := "1.0.0",
    generated_at := nowIso, company := companyName }

/-! ### Claim C1: determinism of the full pipeline -/

/-- C1 (code bug): generated output varies with the wall clock even when
every random draw is identical.  Two `generate_id` calls with the same
prefix and the same random draw but wall-clock readings that differ mod
100000 produce different ids, and two manifests written at different
instants differ in `generated_at` - so a re-run cannot be byte-identical
regardless of seeding (and, independently, no seed is ever set:
`random.Random()` is constructed unseeded and `set_seed` has no caller). -/
theorem C1_wall_clock_dependence :
    (∀ (pre : String) (t1 t2 r : Nat), t1 % 100000 ≠ t2 % 100000 →
      generateId pre t1 r ≠ generateId pre t2 r) ∧
    (∀ (companyName iso1 iso2 : String), iso1 ≠ iso2 →
      manifestDatasetInfo iso1 companyName ≠
        manifestDatasetInfo iso2 companyName) := by
  constructor
  · intro pre t1 t2 r hne he
    apply hne
    have hd := congrArg String.data he
    unfold generateId at hd
    have hns : ∀ x : Nat, (natStr x).data = natChars x := fun _ => rfl
    rw [string_append_data, string_append_data, string_append_data,
      string_append_data, string_append_data, string_append_data] at hd
    simp only [List.append_assoc] at hd
    have hc := List.append_cancel_left hd
    simp only [hns, List.singleton_append] at hc
    have hall : ∀ (x : Nat), ∀ c ∈ natChars x, ((c != '_') = true) := by
      intro x c hcm
      have hdig := natChars_digits x c hcm
      have hne2 : c ≠ '_' := by
        intro hce
        rw [hce] at hdig
        have h95 : ('_' : Char).toNat = 95 := rfl
        rw [h95] at hdig
        omega
      exact bne_iff_ne.mpr hne2
    have hA := takeWhile_append_of_all (fun c => c != '_')
      (natChars (t1 % 100000)) '_' (natChars r) (hall _) (by decide)
    have hB := takeWhile_append_of_all (fun c => c != '_')
      (natChars (t2 % 100000)) '_' (natChars r) (hall _) (by decide)
    apply natChars_injective
    rw [← hA, ← hB, hc]
  · intro companyName iso1 iso2 hne he
    exact hne (congrArg DatasetInfo.generated_at he)

/-- C1 witness: concrete instants one millisecond apart give a different
document id, and manifests written on different days differ. -/
theorem C1_wall_clock_dependence_witness :
    (1000 % 100000 ≠ 2000 % 100000 ∧
      generateId "DOC_" 1000 5000 ≠ generateId "DOC_" 2000 5000) ∧
    (("2025-01-01T00:00:00" : String) ≠ "2025-01-02T00:00:00" ∧
      manifestDatasetInfo "2025-01-01T00:00:00" "TechNova Inc" ≠
        manifestDatasetInfo "2025-01-02T00:00:00" "TechNova Inc") :=
  ⟨⟨by decide, C1_wall_clock_dependence.1 "DOC_" 1000 2000 5000 (by decide)⟩,
    ⟨by decide, C1_wall_clock_dependence.2 "TechNova Inc"
      "2025-01-01T00:00:00" "2025-01-02T00:00:00" (by decide)⟩⟩

/-! ### Message-id layout of the three message loops.  Each loop renders
its ids from one counter threaded through the whole builder (`M_`,
`M_DUP_`, `M_EMO_` with the next counter value per message). -/

theorem mkMessagesAux_length (mkId : Nat → String) (thId : String)
    (sender text emo : Nat → String)
    (mentions docRefs actions : Nat → List String) (gap : Nat → Nat)
    (cnt i t mBase : Nat) :
    (mkMessagesAux mkId thId sender text emo mentions docRefs actions gap
      cnt i t mBase).length = cnt := by
  have h := congrArg List.length
    (mkMessagesAux_ids mkId thId sender text emo mentions docRefs actions gap
      cnt i t mBase)
  simpa using h

/-- Splitting a consecutive counter-id range at an offset base. -/
theorem range_map_consecutive (pre : String) (w b m n : Nat) :
    (List.range (m + n)).map (fun j => pre ++ padStr w (b + j + 1))
      = (List.range m).map (fun j => pre ++ padStr w (b + j + 1)) ++
        (List.range n).map (fun j => pre ++ padStr w (b + m + j + 1)) := by
  rw [List.range_add, List.map_append, List.map_map]
  congr 1
  apply List.map_congr_left
  intro j _
  simp only [Function.comp_apply]
  congr 2
  omega

/-- Splitting a consecutive counter-id range starting at 1. -/
theorem range_map_split (pre : String) (w m n : Nat) :
    (List.range (m + n)).map (fun j => pre ++ padStr w (j + 1))
      = (List.range m).map (fun j => pre ++ padStr w (j + 1)) ++
        (List.range n).map (fun j => pre ++ padStr w (m + j + 1)) := by
  rw [List.range_add, List.map_append, List.map_map]
  congr 1

/-- Total message count of the regular thread loop. -/
def regTotal (td : Nat → ThreadDraw) : Nat → Nat → Nat
  | _, 0 => 0
  | k, r + 1 => (td k).msgCount + regTotal td (k + 1) r

/-- Regular message ids are the consecutive counters `M_{mb+1:04d} ...`
across all threads of the run. -/
theorem genRegularAux_msg_ids (td : Nat → ThreadDraw)
    (sender : Nat → Nat → String) (text emo : Nat → Nat → String)
    (mentions docRefs actions : Nat → Nat → List String)
    (gap : Nat → Nat → Nat) : ∀ (r k mb : Nat),
    ((genRegularAux td sender text emo mentions docRefs actions gap
          k r mb).flatMap Prod.snd).map ChatMessage.message_id
      = (List.range (regTotal td k r)).map
          (fun j => "M_" ++ padStr 4 (mb + j + 1)) := by
  intro r
  induction r with
  | zero => intro k mb; rfl
  | succ r ih =>
    intro k mb
    show (mkMessagesAux (fun n => "M_" ++ padStr 4 n) ("T_" ++ padStr 3 (k + 1))
          (sender k) (text k) (emo k) (mentions k) (docRefs k) (actions k)
          (gap k) (td k).msgCount 0 (td k).createdAt mb ++
        (genRegularAux td sender text emo mentions docRefs actions gap (k + 1) r
            (mb + (td k).msgCount)).flatMap Prod.snd).map ChatMessage.message_id
      = _
    rw [List.map_append, mkMessagesAux_ids, ih,
      show regTotal td k (r + 1) = (td k).msgCount + regTotal td (k + 1) r
        from rfl,
      range_map_consecutive "M_" 4 mb ((td k).msgCount) (regTotal td (k + 1) r)]

/-- Total message count of the emotional thread loop. -/
def emoTotal (o : EmoOracle) : Nat → Nat → Nat
  | _, 0 => 0
  | i, r + 1 => o.msgCount i + emoTotal o (i + 1) r

/-- Emotional message ids are the consecutive counters
`M_EMO_{mb+1:04d} ...` across all threads of the run. -/
theorem genEmoAux_msg_ids (o : EmoOracle) : ∀ (r i mb : Nat),
    (genEmoAux o i r mb).2.map ChatMessage.message_id
      = (List.range (emoTotal o i r)).map
          (fun j => "M_EMO_" ++ padStr 4 (mb + j + 1)) := by
  intro r
  induction r with
  | zero => intro i mb; rfl
  | succ r ih =>
    intro i mb
    show (mkMessagesAux (fun n => "M_EMO_" ++ padStr 4 n)
          ("T_EMO_" ++ padStr 3 (i + 1)) (o.sender i) (o.text i)
          (emoAt (o.scen i).1) (fun _ => []) (fun _ => []) (fun _ => [])
          (o.gap i) (o.msgCount i) 0 (o.startT i) mb ++
        (genEmoAux o (i + 1) r (mb + o.msgCount i)).2).map ChatMessage.message_id
      = _
    rw [List.map_append, mkMessagesAux_ids, ih,
      show emoTotal o i (r + 1) = o.msgCount i + emoTotal o (i + 1) r from rfl,
      range_map_consecutive "M_EMO_" 4 mb (o.msgCount i) (emoTotal o (i + 1) r)]

/-- One duplicate-generator step keeps the sequential message-id layout
(the `M_DUP_` counter is the running length of the message list). -/
theorem genDupStep_msg_ids (peopleBy : String → List Person) (o : DupOracle)
    (tIdx side : Nat) (topic team : String)
    (acc : List ChatThread × List ChatMessage)
    (h : acc.2.map ChatMessage.message_id
      = (List.range acc.2.length).map
          (fun j => "M_DUP_" ++ padStr 4 (j + 1))) :
    (genDupStep peopleBy o tIdx side topic team acc).2.map
        ChatMessage.message_id
      = (List.range (genDupStep peopleBy o tIdx side topic team acc).2.length).map
          (fun j => "M_DUP_" ++ padStr 4 (j + 1)) := by
  unfold genDupStep
  split
  · exact h
  · show (acc.2 ++ mkMessagesAux (fun n => "M_DUP_" ++ padStr 4 n)
          ("T_DUP_" ++ padStr 3 (acc.1.length + 1)) (o.sender tIdx side)
          (fun _ => dupMessageText topic) (fun _ => "confused") (fun _ => [])
          (fun _ => [])
          (fun _ => ["Research " ++ topic, "Create " ++ topic ++ " plan"])
          (o.gap tIdx side) (o.msgCount tIdx side) 0 (o.startT tIdx side)
          acc.2.length).map ChatMessage.message_id = _
    rw [List.map_append, h, mkMessagesAux_ids, List.length_append,
      mkMessagesAux_length,
      range_map_split "M_DUP_" 4 acc.2.length (o.msgCount tIdx side)]

/-- The duplicate-discussion topic loop keeps the sequential message-id
layout. -/
theorem genDupAux_msg_ids (peopleBy : String → List Person) (o : DupOracle) :
    ∀ (topics : List String) (tIdx : Nat)
      (acc : List ChatThread × List ChatMessage),
    acc.2.map ChatMessage.message_id
      = (List.range acc.2.length).map
          (fun j => "M_DUP_" ++ padStr 4 (j + 1)) →
    (genDupAux peopleBy o topics tIdx acc).2.map ChatMessage.message_id
      = (List.range (genDupAux peopleBy o topics tIdx acc).2.length).map
          (fun j => "M_DUP_" ++ padStr 4 (j + 1)) := by
  intro topics
  induction topics with
  | nil => intro tIdx acc h; exact h
  | cons topic rest ih =>
    intro tIdx acc h
    exact ih (tIdx + 1) _
      (genDupStep_msg_ids peopleBy o tIdx 1 topic _ _
        (genDupStep_msg_ids peopleBy o tIdx 0 topic _ _ h))

/-- A regular message id is never a duplicate-discussion message id. -/
theorem mId_ne_mDup (n m : Nat) :
    "M_" ++ padStr 4 n ≠ "M_DUP_" ++ padStr 4 m := by
  intro h
  have hd := congrArg String.data h
  rw [string_append_data, string_append_data] at hd
  have hM : ("M_" : String).data = ['M', '_'] := rfl
  have hMD : ("M_DUP_" : String).data = ['M', '_', 'D', 'U', 'P', '_'] := rfl
  rw [hM, hMD] at hd
  simp only [List.cons_append, List.nil_append, List.cons.injEq, true_and] at hd
  have hmem : 'D' ∈ (padStr 4 n).data := by
    rw [hd]
    exact List.mem_cons_self _ _
  have := padChars_digits 4 n 'D' hmem
  have h68 : ('D' : Char).toNat = 68 := rfl
  omega

/-- A regular message id is never an emotional message id. -/
theorem mId_ne_mEmo (n m : Nat) :
    "M_" ++ padStr 4 n ≠ "M_EMO_" ++ padStr 4 m := by
  intro h
  have hd := congrArg String.data h
  rw [string_append_data, string_append_data] at hd
  have hM : ("M_" : String).data = ['M', '_'] := rfl
  have hME : ("M_EMO_" : String).data = ['M', '_', 'E', 'M', 'O', '_'] := rfl
  rw [hM, hME] at hd
  simp only [List.cons_append, List.nil_append, List.cons.injEq, true_and] at hd
  have hmem : 'E' ∈ (padStr 4 n).data := by
    rw [hd]
    exact List.mem_cons_self _ _
  have := padChars_digits 4 n 'E' hmem
  have h69 : ('E' : Char).toNat = 69 := rfl
  omega

/-- A duplicate-discussion message id is never an emotional message id. -/
theorem mDup_ne_mEmo (n m : Nat) :
    "M_DUP_" ++ padStr 4 n ≠ "M_EMO_" ++ padStr 4 m := by
  intro h
  have hd := congrArg String.data h
  rw [string_append_data, string_append_data] at hd
  have hMD : ("M_DUP_" : String).data = ['M', '_', 'D', 'U', 'P', '_'] := rfl
  have hME : ("M_EMO_" : String).data = ['M', '_', 'E', 'M', 'O', '_'] := rfl
  rw [hMD, hME] at hd
  simp only [List.cons_append, List.nil_append, List.cons.injEq] at hd
  exact absurd hd.2.2.1 (by decide)

/-! ### Topic and overlap builders (`generators/knowledge_graph.py`
`_create_topic` / `_generate_topics`, `_create_overlap` /
`_generate_overlaps`).  Both thread one per-builder counter,
incrementing it before rendering each id; the name/alias/score and
evidence computations (registry scans and random draws) do not feed the
ids and enter as parameters. -/

/-- `_create_topic`: increments `topic_counter` then assigns
`f"TOPIC_{self.topic_counter:03d}"`; `related_topic_ids` starts empty
(filled by `_add_topic_relationships` later, ids untouched). -/
def createTopic (counter : Nat) (name : String) (aliases : List String)
    (score : Nat) : Topic :=
  { topic_id := "TOPIC_" ++ padStr 3 counter
    name := name
    aliases := aliases
    emerging_score := score
    related_topic_ids := [] }

/-- The topic loops of `_generate_topics`: one `_create_topic` call per
name of the concatenated core/team-specific/emerging name lists (66
names in the source), threading the counter; `al`/`sc` stand for the
per-call alias and emerging-score computations. -/
def genTopicsAux (al : String → List String) (sc : Nat → Nat) :
    List String → Nat → List Topic
  | [], _ => []
  | nm :: rest, c0 =>
      createTopic (c0 + 1) nm (al nm) (sc c0) :: genTopicsAux al sc rest (c0 + 1)

/-- Topic ids are the consecutive counters `TOPIC_{c0+1:03d} ...`. -/
theorem genTopicsAux_ids (al : String → List String) (sc : Nat → Nat) :
    ∀ (names : List String) (c0 : Nat),
    (genTopicsAux al sc names c0).map Topic.topic_id
      = (List.range names.length).map
          (fun j => "TOPIC_" ++ padStr 3 (c0 + j + 1)) := by
  intro names
  induction names with
  | nil => intro c0; rfl
  | cons nm rest ih =>
    intro c0
    show ("TOPIC_" ++ padStr 3 (c0 + 1)) ::
        (genTopicsAux al sc rest (c0 + 1)).map Topic.topic_id = _
    rw [ih, List.length_cons, List.range_succ_eq_map, List.map_cons,
      List.map_map]
    have htail : ∀ j ∈ List.range rest.length,
        ((fun j => "TOPIC_" ++ padStr 3 (c0 + j + 1)) ∘ Nat.succ) j
          = (fun j => "TOPIC_" ++ padStr 3 (c0 + 1 + j + 1)) j := by
      intro j _
      simp only [Function.comp_apply]
      congr 2
      omega
    rw [List.map_congr_left htail]

/-- One topic per name in the loop. -/
theorem genTopicsAux_length (al : String → List String) (sc : Nat → Nat)
    (names : List String) (c0 : Nat) :
    (genTopicsAux al sc names c0).length = names.length := by
  have h := congrArg List.length (genTopicsAux_ids al sc names c0)
  simpa using h

/-- The cross-team overlap insight record (`models/knowledge_graph.py`),
confidence scaled to a natural. -/
structure Overlap where
  overlap_id : String
  topic_name : String
  teams_involved : List String := []
  people_suggested : List String := []
  supporting_docs : List String := []
  supporting_threads : List String := []
  summary : String := ""
  action_suggestion : String := ""
  confidence : Nat := 0
deriving DecidableEq

/-- The evidence gathered by one `_create_overlap` call: registry scans
for supporting documents/threads, sampled people and the action draw. -/
structure OverlapDraw where
  people_suggested : List String
  supporting_docs : List String
  supporting_threads : List String
  action_suggestion : String
  confidence : Nat

/-- `_create_overlap`: increments `overlap_counter` then assigns
`f"OVERLAP_{self.overlap_counter:03d}"`; the evidence lists are
truncated to 6/5/3 entries and the config's description becomes the
summary. -/
def createOverlap (counter : Nat) (topicName : String) (tms : List String)
    (desc : String) (dr : OverlapDraw) : Overlap :=
  { overlap_id := "OVERLAP_" ++ padStr 3 counter
    topic_name := topicName
    teams_involved := tms
    people_suggested := dr.people_suggested.take 6
    supporting_docs := dr.supporting_docs.take 5
    supporting_threads := dr.supporting_threads.take 3
    summary := desc
    action_suggestion := dr.action_suggestion
    confidence := dr.confidence }

/-- The config loops of `_generate_overlaps`: one `_create_overlap`
call per (topic, teams, description) entry of the concatenated
mandatory/additional config lists, threading the counter. -/
def genOverlapsAux (odr : Nat → OverlapDraw) :
    List (String × List String × String) → Nat → Nat → List Overlap
  | [], _, _ => []
  | cfg :: rest, i, c0 =>
      createOverlap (c0 + 1) cfg.1 cfg.2.1 cfg.2.2 (odr i) ::
        genOverlapsAux odr rest (i + 1) (c0 + 1)

/-- Overlap ids are the consecutive counters `OVERLAP_{c0+1:03d} ...`. -/
theorem genOverlapsAux_ids (odr : Nat → OverlapDraw) :
    ∀ (cfgs : List (String × List String × String)) (i c0 : Nat),
    (genOverlapsAux odr cfgs i c0).map Overlap.overlap_id
      = (List.range cfgs.length).map
          (fun j => "OVERLAP_" ++ padStr 3 (c0 + j + 1)) := by
  intro cfgs
  induction cfgs with
  | nil => intro i c0; rfl
  | cons cfg rest ih =>
    intro i c0
    show ("OVERLAP_" ++ padStr 3 (c0 + 1)) ::
        (genOverlapsAux odr rest (i + 1) (c0 + 1)).map Overlap.overlap_id = _
    rw [ih, List.length_cons, List.range_succ_eq_map, List.map_cons,
      List.map_map]
    have htail : ∀ j ∈ List.range rest.length,
        ((fun j => "OVERLAP_" ++ padStr 3 (c0 + j + 1)) ∘ Nat.succ) j
          = (fun j => "OVERLAP_" ++ padStr 3 (c0 + 1 + j + 1)) j := by
      intro j _
      simp only [Function.comp_apply]
      congr 2
      omega
    rw [List.map_congr_left htail]

/-- One overlap per config entry. -/
theorem genOverlapsAux_length (odr : Nat → OverlapDraw)
    (cfgs : List (String × List String × String)) (i c0 : Nat) :
    (genOverlapsAux odr cfgs i c0).length = cfgs.length := by
  have h := congrArg List.length (genOverlapsAux_ids odr cfgs i c0)
  simpa using h

/-- Register a list of topics, as the knowledge-graph builder does. -/
def registerTopics (r : Registry) (ts : List Topic) : Registry :=
  ts.foldl (fun acc t => registerEntity acc "topic" t.topic_id (.topic t)) r

theorem registerTopic_topics (r : Registry) (t : Topic) :
    (registerEntity r "topic" t.topic_id (.topic t)).topics
      = setA r.topics t.topic_id t := rfl

theorem registerThread_chat_threads (r : Registry) (t : ChatThread) :
    (registerEntity r "thread" t.thread_id (.thread t)).chat_threads
      = setA r.chat_threads t.thread_id t := rfl

/-- Registering topics with pairwise-distinct, fresh ids grows the
topic registry by exactly one entry each. -/
theorem registerTopics_topics_length (l : List Topic) :
    ∀ r : Registry, (l.map Topic.topic_id).Nodup →
    (∀ t ∈ l, ¬ t.topic_id ∈ r.topics.map Prod.fst) →
    (registerTopics r l).topics.length = r.topics.length + l.length := by
  induction l with
  | nil => intro r _ _; rfl
  | cons t tl ih =>
    intro r hnd hfresh
    have hck : containsKey r.topics t.topic_id = false := by
      cases h2 : containsKey r.topics t.topic_id
      · rfl
      · exact absurd ((containsKey_iff _ _).mp h2)
          (hfresh t (List.mem_cons_self _ _))
    have hnd2 : (tl.map Topic.topic_id).Nodup := (List.nodup_cons.mp hnd).2
    have hhead : ¬ t.topic_id ∈ tl.map Topic.topic_id :=
      (List.nodup_cons.mp hnd).1
    have hfresh2 : ∀ q ∈ tl,
        ¬ q.topic_id ∈ (registerEntity r "topic" t.topic_id
            (.topic t)).topics.map Prod.fst := by
      intro q hq hqmem
      rw [registerTopic_topics, keys_setA, if_neg (by simp [hck])] at hqmem
      rcases List.mem_append.mp hqmem with h2 | h2
      · exact hfresh q (List.mem_cons_of_mem _ hq) h2
      · simp at h2
        exact hhead (by rw [← h2]; exact List.mem_map_of_mem _ hq)
    show (registerTopics (registerEntity r "topic" t.topic_id (.topic t))
        tl).topics.length = _
    rw [ih _ hnd2 hfresh2, registerTopic_topics,
      length_setA_fresh r.topics _ t hck]
    simp only [List.length_cons]
    omega

/-- Registering threads with pairwise-distinct, fresh ids grows the
thread registry by exactly one entry each. -/
theorem registerThreads_chat_threads_length (l : List ChatThread) :
    ∀ r : Registry, (l.map ChatThread.thread_id).Nodup →
    (∀ t ∈ l, ¬ t.thread_id ∈ r.chat_threads.map Prod.fst) →
    (registerThreads r l).chat_threads.length
      = r.chat_threads.length + l.length := by
  induction l with
  | nil => intro r _ _; rfl
  | cons t tl ih =>
    intro r hnd hfresh
    have hck : containsKey r.chat_threads t.thread_id = false := by
      cases h2 : containsKey r.chat_threads t.thread_id
      · rfl
      · exact absurd ((containsKey_iff _ _).mp h2)
          (hfresh t (List.mem_cons_self _ _))
    have hnd2 : (tl.map ChatThread.thread_id).Nodup := (List.nodup_cons.mp hnd).2
    have hhead : ¬ t.thread_id ∈ tl.map ChatThread.thread_id :=
      (List.nodup_cons.mp hnd).1
    have hfresh2 : ∀ q ∈ tl,
        ¬ q.thread_id ∈ (registerEntity r "thread" t.thread_id
            (.thread t)).chat_threads.map Prod.fst := by
      intro q hq hqmem
      rw [registerThread_chat_threads, keys_setA, if_neg (by simp [hck])]
        at hqmem
      rcases List.mem_append.mp hqmem with h2 | h2
      · exact hfresh q (List.mem_cons_of_mem _ hq) h2
      · simp at h2
        exact hhead (by rw [← h2]; exact List.mem_map_of_mem _ hq)
    show (registerThreads (registerEntity r "thread" t.thread_id (.thread t))
        tl).chat_threads.length = _
    rw [ih _ hnd2 hfresh2, registerThread_chat_threads,
      length_setA_fresh r.chat_threads _ t hck]
    simp only [List.length_cons]
    omega

/-! ### Claim C10: distinct entity ids and lossless registration -/

/-- C10: within each entity type every generated id is distinct -
person ids (demo personas, then generated people continuing the same
counter), document ids, the thread ids of the regular /
duplicate-discussion / emotional generators (disjoint
`T_`/`T_DUP_`/`T_EMO_` schemes), the message ids of the same three
generators (disjoint `M_`/`M_DUP_`/`M_EMO_` schemes), the edge ids of
any run of successive `_create_edge` calls, the topic ids of the
`_generate_topics` loops and the overlap ids of the
`_generate_overlaps` loops (per-builder counters); consequently
`register_entity` never overwrites, and each of the four registered
types' registry size - people, documents, topics, chat threads - equals
the number of entities generated for it. -/
theorem C10_unique_ids
    (teams : List String) (demos : List DemoPersona) (draw : Nat → PersonDraw)
    (n : Nat) (o : DocOracle) (sampler : List Document → Nat → List Document)
    (langPick : Document → String × String) (dteams : List String)
    (peopleBy : String → List Person) (docTarget : Nat)
    (td : Nat → ThreadDraw) (sender : Nat → Nat → String)
    (text emo : Nat → Nat → String)
    (mentions docRefs actions : Nat → Nat → List String)
    (gap : Nat → Nat → Nat) (rc : Nat)
    (peopleBy2 : String → List Person) (o2 : DupOracle) (o3 : EmoOracle)
    (ety esT esI edT edI eev : Nat → String) (ew efs eld : Nat → Nat)
    (en ec0 : Nat) (al : String → List String) (sc : Nat → Nat)
    (topicNames : List String) (tc0 : Nat) (odr : Nat → OverlapDraw)
    (ocfgs : List (String × List String × String)) (oi0 oc0 : Nat) :
    (pids (generatePeople teams demos draw n)).Nodup ∧
    ((documentBuilder o sampler langPick dteams peopleBy docTarget).map
        Document.doc_id).Nodup ∧
    ((genRegularAux td sender text emo mentions docRefs actions gap 0 rc 0).map
          (fun p => p.1.thread_id) ++
        (genDuplicateDiscussions peopleBy2 o2).1.map ChatThread.thread_id ++
        (genEmotionalThreads o3).1.map ChatThread.thread_id).Nodup ∧
    (((genRegularAux td sender text emo mentions docRefs actions gap
            0 rc 0).flatMap Prod.snd).map ChatMessage.message_id ++
        (genDuplicateDiscussions peopleBy2 o2).2.map ChatMessage.message_id ++
        (genEmotionalThreads o3).2.map ChatMessage.message_id).Nodup ∧
    ((List.range en).map (fun j => (createEdge (ec0 + j + 1) (ety j) (esT j)
        (esI j) (edT j) (edI j) (ew j) (efs j) (eld j) (eev j)).edge_id)).Nodup ∧
    ((genTopicsAux al sc topicNames tc0).map Topic.topic_id).Nodup ∧
    ((genOverlapsAux odr ocfgs oi0 oc0).map Overlap.overlap_id).Nodup ∧
    (registerPeople {} (generatePeople teams demos draw n)).people.length
        = (generatePeople teams demos draw n).length ∧
    (registerDocuments {} (documentBuilder o sampler langPick dteams peopleBy
          docTarget)).documents.length
        = (documentBuilder o sampler langPick dteams peopleBy docTarget).length ∧
    (registerTopics {} (genTopicsAux al sc topicNames tc0)).topics.length
        = (genTopicsAux al sc topicNames tc0).length ∧
    (registerThreads {}
          ((genRegularAux td sender text emo mentions docRefs actions gap
                0 rc 0).map Prod.fst ++
            (genDuplicateDiscussions peopleBy2 o2).1 ++
            (genEmotionalThreads o3).1)).chat_threads.length
        = ((genRegularAux td sender text emo mentions docRefs actions gap
              0 rc 0).map Prod.fst ++
            (genDuplicateDiscussions peopleBy2 o2).1 ++
            (genEmotionalThreads o3).1).length := by
  have hpn := generatePeople_pids_nodup teams demos draw n
  have hdn : ((documentBuilder o sampler langPick dteams peopleBy docTarget).map
      Document.doc_id).Nodup := by
    unfold documentBuilder generateDocuments
    rw [markNonEnglish_ids]
    exact genDocsAux_ids_nodup o peopleBy docTarget dteams.length dteams 0 0
  have hreg : (genRegularAux td sender text emo mentions docRefs actions gap
        0 rc 0).map (fun p => p.1.thread_id)
      = (List.range rc).map (fun j => "T_" ++ padStr 3 (0 + j + 1)) :=
    genRegularAux_thread_ids td sender text emo mentions docRefs actions gap rc 0 0
  have hdup : (genDuplicateDiscussions peopleBy2 o2).1.map ChatThread.thread_id
      = (List.range ((genDuplicateDiscussions peopleBy2 o2).1.length)).map
          (fun j => "T_DUP_" ++ padStr 3 (j + 1)) :=
    genDupAux_ids peopleBy2 o2 dupTopics 0 ([], []) dupIds_nil
  have hemo : (genEmotionalThreads o3).1.map ChatThread.thread_id
      = (List.range 20).map (fun j => "T_EMO_" ++ padStr 3 (0 + j + 1)) :=
    genEmoAux_thread_ids o3 20 0 0
  have hthreads : ((genRegularAux td sender text emo mentions docRefs actions
          gap 0 rc 0).map (fun p => p.1.thread_id) ++
        (genDuplicateDiscussions peopleBy2 o2).1.map ChatThread.thread_id ++
        (genEmotionalThreads o3).1.map ChatThread.thread_id).Nodup := by
    rw [hreg, hdup, hemo]
    have hdupnodup : ((List.range
          ((genDuplicateDiscussions peopleBy2 o2).1.length)).map
        (fun j => "T_DUP_" ++ padStr 3 (j + 1))).Nodup := by
      refine List.Nodup.map ?_ (List.nodup_range _)
      intro a b hab
      have := counterId_injective "T_DUP_" 3 hab
      omega
    refine List.Nodup.append
      (List.Nodup.append (counter_map_nodup "T_" 3 0 rc) hdupnodup ?_)
      (counter_map_nodup "T_EMO_" 3 0 20) ?_
    · intro a ha hb
      rcases List.mem_map.mp ha with ⟨i, _, rfl⟩
      rcases List.mem_map.mp hb with ⟨j, _, hj⟩
      exact tId_ne_tDup (0 + i + 1) (j + 1) hj.symm
    · intro a ha hc
      rcases List.mem_map.mp hc with ⟨j, _, hj⟩
      rcases List.mem_append.mp ha with h | h
      · rcases List.mem_map.mp h with ⟨i, _, rfl⟩
        exact tId_ne_tEmo (0 + i + 1) (0 + j + 1) hj.symm
      · rcases List.mem_map.mp h with ⟨i, _, rfl⟩
        exact tDup_ne_tEmo (i + 1) (0 + j + 1) hj.symm
  have hregm : ((genRegularAux td sender text emo mentions docRefs actions gap
        0 rc 0).flatMap Prod.snd).map ChatMessage.message_id
      = (List.range (regTotal td 0 rc)).map
          (fun j => "M_" ++ padStr 4 (0 + j + 1)) :=
    genRegularAux_msg_ids td sender text emo mentions docRefs actions gap rc 0 0
  have hdupm : (genDuplicateDiscussions peopleBy2 o2).2.map
        ChatMessage.message_id
      = (List.range ((genDuplicateDiscussions peopleBy2 o2).2.length)).map
          (fun j => "M_DUP_" ++ padStr 4 (j + 1)) :=
    genDupAux_msg_ids peopleBy2 o2 dupTopics 0 ([], []) rfl
  have hemom : (genEmotionalThreads o3).2.map ChatMessage.message_id
      = (List.range (emoTotal o3 0 20)).map
          (fun j => "M_EMO_" ++ padStr 4 (0 + j + 1)) :=
    genEmoAux_msg_ids o3 20 0 0
  have hmsgs : (((genRegularAux td sender text emo mentions docRefs actions gap
            0 rc 0).flatMap Prod.snd).map ChatMessage.message_id ++
        (genDuplicateDiscussions peopleBy2 o2).2.map ChatMessage.message_id ++
        (genEmotionalThreads o3).2.map ChatMessage.message_id).Nodup := by
    rw [hregm, hdupm, hemom]
    have hdupnodup : ((List.range
          ((genDuplicateDiscussions peopleBy2 o2).2.length)).map
        (fun j => "M_DUP_" ++ padStr 4 (j + 1))).Nodup := by
      refine List.Nodup.map ?_ (List.nodup_range _)
      intro a b hab
      have := counterId_injective "M_DUP_" 4 hab
      omega
    refine List.Nodup.append
      (List.Nodup.append (counter_map_nodup "M_" 4 0 (regTotal td 0 rc))
        hdupnodup ?_)
      (counter_map_nodup "M_EMO_" 4 0 (emoTotal o3 0 20)) ?_
    · intro a ha hb
      rcases List.mem_map.mp ha with ⟨i, _, rfl⟩
      rcases List.mem_map.mp hb with ⟨j, _, hj⟩
      exact mId_ne_mDup (0 + i + 1) (j + 1) hj.symm
    · intro a ha hc
      rcases List.mem_map.mp hc with ⟨j, _, hj⟩
      rcases List.mem_append.mp ha with h | h
      · rcases List.mem_map.mp h with ⟨i, _, rfl⟩
        exact mId_ne_mEmo (0 + i + 1) (0 + j + 1) hj.symm
      · rcases List.mem_map.mp h with ⟨i, _, rfl⟩
        exact mDup_ne_mEmo (i + 1) (0 + j + 1) hj.symm
  have hedge : ((List.range en).map (fun j => (createEdge (ec0 + j + 1) (ety j)
      (esT j) (esI j) (edT j) (edI j) (ew j) (efs j) (eld j)
      (eev j)).edge_id)).Nodup := by
    have hform : ∀ j ∈ List.range en,
        (createEdge (ec0 + j + 1) (ety j) (esT j) (esI j) (edT j) (edI j)
          (ew j) (efs j) (eld j) (eev j)).edge_id
          = "E_" ++ padStr 4 (ec0 + j + 1) := fun j _ => rfl
    rw [List.map_congr_left hform]
    exact counter_map_nodup "E_" 4 ec0 en
  have htopics : ((genTopicsAux al sc topicNames tc0).map Topic.topic_id).Nodup := by
    rw [genTopicsAux_ids]
    exact counter_map_nodup "TOPIC_" 3 tc0 topicNames.length
  have hovers : ((genOverlapsAux odr ocfgs oi0 oc0).map Overlap.overlap_id).Nodup := by
    rw [genOverlapsAux_ids]
    exact counter_map_nodup "OVERLAP_" 3 oc0 ocfgs.length
  have hplen : (registerPeople {} (generatePeople teams demos draw n)).people.length
      = (generatePeople teams demos draw n).length := by
    rw [registerPeople_people_length _ {} hpn
      (by intro p hp hmem; exact List.not_mem_nil _ hmem)]
    have h0 : ({} : Registry).people = [] := rfl
    rw [h0]
    simp
  have hdlen : (registerDocuments {} (documentBuilder o sampler langPick dteams
        peopleBy docTarget)).documents.length
      = (documentBuilder o sampler langPick dteams peopleBy docTarget).length := by
    rw [registerDocuments_documents_length _ {} hdn
      (by intro d hd hmem; exact List.not_mem_nil _ hmem)]
    have h0 : ({} : Registry).documents = [] := rfl
    rw [h0]
    simp
  have htlen : (registerTopics {} (genTopicsAux al sc topicNames tc0)).topics.length
      = (genTopicsAux al sc topicNames tc0).length := by
    rw [registerTopics_topics_length _ {} htopics
      (by intro t ht hmem; exact List.not_mem_nil _ hmem)]
    have h0 : ({} : Registry).topics = [] := rfl
    rw [h0]
    simp
  have hthreads2 : ((genRegularAux td sender text emo mentions docRefs actions
          gap 0 rc 0).map (ChatThread.thread_id ∘ Prod.fst) ++
        (genDuplicateDiscussions peopleBy2 o2).1.map ChatThread.thread_id ++
        (genEmotionalThreads o3).1.map ChatThread.thread_id).Nodup := hthreads
  have hcombIds : ((((genRegularAux td sender text emo mentions docRefs actions
            gap 0 rc 0).map Prod.fst ++
          (genDuplicateDiscussions peopleBy2 o2).1 ++
          (genEmotionalThreads o3).1).map ChatThread.thread_id)).Nodup := by
    rw [List.map_append, List.map_append, List.map_map]
    exact hthreads2
  have hhlen : (registerThreads {}
        ((genRegularAux td sender text emo mentions docRefs actions gap
              0 rc 0).map Prod.fst ++
          (genDuplicateDiscussions peopleBy2 o2).1 ++
          (genEmotionalThreads o3).1)).chat_threads.length
      = ((genRegularAux td sender text emo mentions docRefs actions gap
            0 rc 0).map Prod.fst ++
          (genDuplicateDiscussions peopleBy2 o2).1 ++
          (genEmotionalThreads o3).1).length := by
    rw [registerThreads_chat_threads_length _ {} hcombIds
      (by intro t ht hmem; exact List.not_mem_nil _ hmem)]
    have h0 : ({} : Registry).chat_threads = [] := rfl
    rw [h0]
    simp
  exact ⟨hpn, hdn, hthreads, hmsgs, hedge, htopics, hovers, hplen, hdlen,
    htlen, hhlen⟩
